import Mathlib

/-!
# SunSpec model/codec engine: a shallow embedding of `suns_model.c` and `suns_app.c`

Conventions of the embedding.

* A wire byte (`unsigned char`) is a `Byte = Fin 256`; a buffer is a `List Byte`
  holding the memory that starts at the C pointer.
* 16/32-bit machine integers are `Nat` bit patterns; signed views are `Int`
  obtained by two's complement (`toInt16`, `toInt32`).
* The `value` union of `suns_value_t` is a pair: `bits`, the storage shared by
  the integer and float members (little-endian host overlay, as on the x86 the
  source comments assume), and `s`, the heap block of the string member
  (`none` is the NULL pointer).
* A C operation with no defined result (division by zero, NULL dereference)
  makes the embedded function return `none`; in the traversal it is the
  outcome `run.fault`. Memory allocation is taken to succeed.
* The loop `while (1)` of the traversal takes a number of iterations allowed;
  the statements about it give a number that is enough.
-/

namespace Sunspec

/-! ## Type system -/

/-- Modelled from the spec: the declaration of the enum `suns_type_t` (header
`suns_model.h`, not among the sources); the constructors are in the order of
the tables of `suns_model.c`. -/
inductive suns_type_t where
  | SUNS_NULL | SUNS_INT16 | SUNS_UINT16 | SUNS_ACC16
  | SUNS_INT32 | SUNS_UINT32 | SUNS_FLOAT32 | SUNS_ACC32
  | SUNS_INT64 | SUNS_UINT64 | SUNS_FLOAT64
  | SUNS_ENUM16 | SUNS_BITFIELD16 | SUNS_BITFIELD32
  | SUNS_SF | SUNS_STRING | SUNS_UNDEF
  deriving DecidableEq, Repr

open suns_type_t

/-- Modelled from the spec: the declaration of the enum `suns_value_meta_t`
(header `suns_model.h`); the constructors are in the order of `meta_table`. -/
inductive suns_value_meta_t where
  | SUNS_VALUE_NULL | SUNS_VALUE_OK | SUNS_VALUE_NOT_IMPLEMENTED
  | SUNS_VALUE_ERROR | SUNS_VALUE_UNDEF
  deriving DecidableEq, Repr

open suns_value_meta_t

/-- Modelled from the spec: the declaration of `suns_type_pair_t` (header
`suns_model.h`): a type tag and `sub.len`, the declared byte length used by
strings. -/
structure suns_type_pair_t where
  type : suns_type_t
  sub_len : Nat
  deriving DecidableEq, Repr

/-- One wire byte. -/
abbrev Byte := Fin 256

/-- Conversion of an integer to `unsigned char` (reduction modulo 256). -/
def toByte (n : Nat) : Byte := Fin.ofNat n

/-- The table `sizes[]` of `suns_type_size`: size in bytes of a type tag. -/
def suns_type_size : suns_type_t → Nat
  | SUNS_NULL => 0
  | SUNS_INT16 => 2
  | SUNS_UINT16 => 2
  | SUNS_ACC16 => 2
  | SUNS_INT32 => 4
  | SUNS_UINT32 => 4
  | SUNS_FLOAT32 => 4
  | SUNS_ACC32 => 4
  | SUNS_INT64 => 8
  | SUNS_UINT64 => 8
  | SUNS_FLOAT64 => 8
  | SUNS_ENUM16 => 2
  | SUNS_BITFIELD16 => 2
  | SUNS_BITFIELD32 => 4
  | SUNS_SF => 2
  | SUNS_STRING => 0
  | SUNS_UNDEF => 0

/-- The function `suns_type_pair_size`: like `suns_type_size`, but a string has
its declared length. -/
def suns_type_pair_size (tp : suns_type_pair_t) : Nat :=
  if tp.type = SUNS_STRING then tp.sub_len else suns_type_size tp.type

/-! ## Values -/

/-- Modelled from the spec: the declaration of the union `value` of
`suns_value_t` (header `suns_model.h`): `bits` is the storage the members
`u16`, `i16`, `u32`, `i32` and `f32` share, `s` the block of the member `s`. -/
structure suns_value_u where
  bits : Nat
  s : Option (List Byte)
  deriving DecidableEq, Repr

/-- Member `u16` of the union. -/
def suns_value_u.u16 (u : suns_value_u) : Nat := u.bits % 65536

/-- Member `u32` of the union. -/
def suns_value_u.u32 (u : suns_value_u) : Nat := u.bits % 4294967296

/-- Two's complement reading of a 16-bit pattern. -/
def toInt16 (x : Nat) : Int :=
  if x % 65536 < 32768 then (x % 65536 : Nat) else ((x % 65536 : Nat) : Int) - 65536

/-- Two's complement reading of a 32-bit pattern. -/
def toInt32 (x : Nat) : Int :=
  if x % 4294967296 < 2147483648 then (x % 4294967296 : Nat)
  else ((x % 4294967296 : Nat) : Int) - 4294967296

/-- Conversion of a signed integer to `uint16_t`. -/
def toUInt16 (i : Int) : Nat := (i % 65536).toNat

/-- Conversion of a signed integer to `uint32_t`. -/
def toUInt32 (i : Int) : Nat := (i % 4294967296).toNat

/-- Member `i16` of the union. -/
def suns_value_u.i16 (u : suns_value_u) : Int := toInt16 u.bits

/-- Member `i32` of the union. -/
def suns_value_u.i32 (u : suns_value_u) : Int := toInt32 u.bits

/-- Assignment `value.u16 = x`: the low 16 bits of the storage are replaced. -/
def suns_value_u.set_u16 (u : suns_value_u) (x : Nat) : suns_value_u :=
  { u with bits := u.bits / 65536 * 65536 + x % 65536 }

/-- Assignment `value.u32 = x`: the low 32 bits of the storage are replaced. -/
def suns_value_u.set_u32 (u : suns_value_u) (x : Nat) : suns_value_u :=
  { u with bits := u.bits / 4294967296 * 4294967296 + x % 4294967296 }

/-- The macro `isnan` on the member `f32`, read off the IEEE 754 binary32 bit
pattern: exponent field all ones and a non-zero fraction. -/
def isnan_f32 (x : Nat) : Bool :=
  (x % 4294967296) / 8388608 % 256 == 255 && (x % 8388608 != 0)

/-- Modelled from the spec: the declaration of `suns_value_t` (header
`suns_model.h`); the fields are those `suns_model.c` uses, `raw` has 16 bytes. -/
structure suns_value_t where
  name : Option String
  tp : suns_type_pair_t
  meta : suns_value_meta_t
  raw : List Byte
  value : suns_value_u
  deriving DecidableEq, Repr

/-- The function `suns_value_init`: `memset(v, 0, sizeof(suns_value_t))`. -/
def suns_value_init : suns_value_t :=
  { name := none, tp := { type := SUNS_NULL, sub_len := 0 }, meta := SUNS_VALUE_NULL,
    raw := List.replicate 16 0, value := { bits := 0, s := none } }

/-- The function `suns_value_new`: a fresh allocation passed to `suns_value_init`. -/
def suns_value_new : suns_value_t := suns_value_init

/-- The function `suns_value_set_null`: the value is zeroed again. -/
def suns_value_set_null (_v : suns_value_t) : suns_value_t := suns_value_init

/-- The function `suns_value_set_uint16`. -/
def suns_value_set_uint16 (v : suns_value_t) (u16 : Nat) : suns_value_t :=
  { v with
    value := v.value.set_u16 u16
    tp := { v.tp with type := SUNS_UINT16 }
    meta := if u16 = 0xFFFF then SUNS_VALUE_NOT_IMPLEMENTED else SUNS_VALUE_OK }

/-- The function `suns_value_set_int16`; `(int16_t) 0x8000` is `-32768`. -/
def suns_value_set_int16 (v : suns_value_t) (i16 : Int) : suns_value_t :=
  { v with
    value := v.value.set_u16 (toUInt16 i16)
    tp := { v.tp with type := SUNS_INT16 }
    meta := if i16 = -32768 then SUNS_VALUE_NOT_IMPLEMENTED else SUNS_VALUE_OK }

/-- The function `suns_value_set_acc16`. -/
def suns_value_set_acc16 (v : suns_value_t) (u16 : Nat) : suns_value_t :=
  { v with
    value := v.value.set_u16 u16
    tp := { v.tp with type := SUNS_ACC16 }
    meta := SUNS_VALUE_OK }

/-- The function `suns_value_set_uint32`. -/
def suns_value_set_uint32 (v : suns_value_t) (u32 : Nat) : suns_value_t :=
  { v with
    value := v.value.set_u32 u32
    tp := { v.tp with type := SUNS_UINT32 }
    meta := if u32 = 0xFFFFFFFF then SUNS_VALUE_NOT_IMPLEMENTED else SUNS_VALUE_OK }

/-- The function `suns_value_set_int32`; `(int32_t) 0x80000000` is `-2147483648`. -/
def suns_value_set_int32 (v : suns_value_t) (i32 : Int) : suns_value_t :=
  { v with
    value := v.value.set_u32 (toUInt32 i32)
    tp := { v.tp with type := SUNS_INT32 }
    meta := if i32 = -2147483648 then SUNS_VALUE_NOT_IMPLEMENTED else SUNS_VALUE_OK }

/-- The function `suns_value_set_acc32`. -/
def suns_value_set_acc32 (v : suns_value_t) (u32 : Nat) : suns_value_t :=
  { v with
    value := v.value.set_u32 u32
    tp := { v.tp with type := SUNS_ACC32 }
    meta := SUNS_VALUE_OK }

/-- The function `suns_value_set_float32`; the `float` argument is given by its
binary32 bit pattern. -/
def suns_value_set_float32 (v : suns_value_t) (f32 : Nat) : suns_value_t :=
  { v with
    value := v.value.set_u32 f32
    tp := { v.tp with type := SUNS_FLOAT32 }
    meta := if isnan_f32 f32 then SUNS_VALUE_NOT_IMPLEMENTED else SUNS_VALUE_OK }

/-- The function `suns_value_set_enum16`. -/
def suns_value_set_enum16 (v : suns_value_t) (u16 : Nat) : suns_value_t :=
  { v with
    value := v.value.set_u16 u16
    tp := { v.tp with type := SUNS_ENUM16 }
    meta := SUNS_VALUE_OK }

/-- The function `suns_value_set_bitfield16`. -/
def suns_value_set_bitfield16 (v : suns_value_t) (u16 : Nat) : suns_value_t :=
  { v with
    value := v.value.set_u16 u16
    tp := { v.tp with type := SUNS_BITFIELD16 }
    meta := SUNS_VALUE_OK }

/-- The function `suns_value_set_bitfield32`. -/
def suns_value_set_bitfield32 (v : suns_value_t) (u32 : Nat) : suns_value_t :=
  { v with
    value := v.value.set_u32 u32
    tp := { v.tp with type := SUNS_BITFIELD32 }
    meta := SUNS_VALUE_OK }

/-- The function `suns_value_set_sunssf`: the status is set to OK whatever the
argument. -/
def suns_value_set_sunssf (v : suns_value_t) (u16 : Nat) : suns_value_t :=
  { v with
    value := v.value.set_u16 u16
    tp := { v.tp with type := SUNS_SF }
    meta := SUNS_VALUE_OK }

/-- The library function `strncpy(dest, src, n)` as the `n` bytes it stores:
the bytes of `src` before its first NUL (at most `n` of them), then NUL
padding. The end of the list `src` counts as a terminator. -/
def strncpy (src : List Byte) (n : Nat) : List Byte :=
  let body := (src.take n).takeWhile (fun b => b != 0)
  body ++ List.replicate (n - body.length) 0

/-- A store of the bytes `bs` at the start of the memory `buf`. -/
def store (bs buf : List Byte) : List Byte := bs ++ buf.drop bs.length

/-- The function `suns_value_set_string` (allocation assumed to succeed). The
pointer of a value that is not a string is ignored; the block is reallocated
to `len` bytes when the declared length changes or the pointer is NULL, its
first `len` bytes are cleared and then filled by `strncpy`. The member `meta`
is not assigned. -/
def suns_value_set_string (v : suns_value_t) (string : List Byte) (len : Nat) :
    suns_value_t :=
  let s0 : Option (List Byte) := if v.tp.type ≠ SUNS_STRING then none else v.value.s
  let block : List Byte :=
    match s0 with
    | none => List.replicate len 0
    | some b => if v.tp.sub_len ≠ len then List.replicate len 0 else b
  { v with
    value := { v.value with s := some (store (strncpy string len) block) }
    tp := { type := SUNS_STRING, sub_len := len } }

/-! ## Accessors

A getter is `some` of the value it returns when its assertion on the tag holds
and `none` when the assertion fails. -/

/-- The function `suns_value_get_uint16`. -/
def suns_value_get_uint16 (v : suns_value_t) : Option Nat :=
  if v.tp.type = SUNS_UINT16 then some v.value.u16 else none

/-- The function `suns_value_get_int16`. -/
def suns_value_get_int16 (v : suns_value_t) : Option Int :=
  if v.tp.type = SUNS_INT16 then some v.value.i16 else none

/-- The function `suns_value_get_acc16`. -/
def suns_value_get_acc16 (v : suns_value_t) : Option Nat :=
  if v.tp.type = SUNS_ACC16 then some v.value.u16 else none

/-- The function `suns_value_get_uint32`. -/
def suns_value_get_uint32 (v : suns_value_t) : Option Nat :=
  if v.tp.type = SUNS_UINT32 then some v.value.u32 else none

/-- The function `suns_value_get_int32`: the assertion names `SUNS_UINT32`, the
value returned is the member `i32`. -/
def suns_value_get_int32 (v : suns_value_t) : Option Int :=
  if v.tp.type = SUNS_UINT32 then some v.value.i32 else none

/-- The function `suns_value_get_acc32`. -/
def suns_value_get_acc32 (v : suns_value_t) : Option Nat :=
  if v.tp.type = SUNS_ACC32 then some v.value.u32 else none

/-- The function `suns_value_get_float32`; the `float` returned is given by its
binary32 bit pattern. -/
def suns_value_get_float32 (v : suns_value_t) : Option Nat :=
  if v.tp.type = SUNS_FLOAT32 then some v.value.u32 else none

/-- The function `suns_value_get_enum16`. -/
def suns_value_get_enum16 (v : suns_value_t) : Option Nat :=
  if v.tp.type = SUNS_ENUM16 then some v.value.u16 else none

/-- The function `suns_value_get_bitfield16`. -/
def suns_value_get_bitfield16 (v : suns_value_t) : Option Nat :=
  if v.tp.type = SUNS_BITFIELD16 then some v.value.u16 else none

/-- The function `suns_value_get_bitfield32`. -/
def suns_value_get_bitfield32 (v : suns_value_t) : Option Nat :=
  if v.tp.type = SUNS_BITFIELD32 then some v.value.u32 else none

/-- The function `suns_value_get_sunssf`. Its assertion compares the tag with
`SUNS_SUNSSF`, a name that `suns_model.c` uses nowhere else (the tables and the
setter have `SUNS_SF`) and whose declaration would be in the header
`suns_model.h`, not among the sources: the constant is a parameter here. -/
def suns_value_get_sunssf (SUNS_SUNSSF : suns_type_t) (v : suns_value_t) : Option Nat :=
  if v.tp.type = SUNS_SUNSSF then some v.value.u16 else none

/-- The function `suns_value_get_string`: the pointer `value.s`. -/
def suns_value_get_string (v : suns_value_t) : Option (Option (List Byte)) :=
  if v.tp.type = SUNS_STRING then some v.value.s else none

/-! ## Codec -/

/-- The bytes stored by `*((uint16_t *) buf) = htobe16(x)`. -/
def htobe16 (x : Nat) : List Byte := [toByte (x / 256), toByte x]

/-- The bytes stored by `*((uint32_t *) buf) = htobe32(x)`. -/
def htobe32 (x : Nat) : List Byte :=
  [toByte (x / 16777216), toByte (x / 65536), toByte (x / 256), toByte x]

/-- The byte of `buf` at index `i`. -/
def byteAt (buf : List Byte) (i : Nat) : Nat := (buf.getD i 0).val

/-- The value `be16toh(*((uint16_t *) buf))`. -/
def be16toh (buf : List Byte) : Nat := byteAt buf 0 * 256 + byteAt buf 1

/-- The value `be32toh(*((uint32_t *) buf))`. -/
def be32toh (buf : List Byte) : Nat :=
  byteAt buf 0 * 16777216 + byteAt buf 1 * 65536 + byteAt buf 2 * 256 + byteAt buf 3

/-- The function `suns_value_to_buf`: the return code and the memory at `buf`
after the call. A too small `len` is only reported by `debug`; the store
happens all the same. The result is `none` when a string value has a NULL
pointer. -/
def suns_value_to_buf (v : suns_value_t) (buf : List Byte) (_len : Nat) :
    Option (Int × List Byte) :=
  match v.tp.type with
  | SUNS_INT16 | SUNS_UINT16 | SUNS_ACC16 | SUNS_ENUM16 | SUNS_BITFIELD16 | SUNS_SF =>
    some (0, store (htobe16 v.value.u16) buf)
  | SUNS_INT32 | SUNS_UINT32 | SUNS_FLOAT32 | SUNS_ACC32 | SUNS_BITFIELD32 =>
    some (0, store (htobe32 v.value.u32) buf)
  | SUNS_STRING =>
    match v.value.s with
    | none => none
    | some s => some (0, store (strncpy s v.tp.sub_len) buf)
  | _ => some (-2, buf)

/-- The test for the "not implemented" pattern in `suns_buf_to_value`. In the
fifth line the member `i32` is converted to `uint32_t` for the comparison. -/
def not_implemented (tp : suns_type_pair_t) (u : suns_value_u) : Prop :=
  (tp.type = SUNS_INT16 ∧ u.i16 = -32768) ∨
  (tp.type = SUNS_UINT16 ∧ u.u16 = 0xFFFF) ∨
  (tp.type = SUNS_SF ∧ u.i16 = -32768) ∨
  (tp.type = SUNS_INT32 ∧ u.i32 = -2147483648) ∨
  (tp.type = SUNS_UINT32 ∧ toUInt32 u.i32 = 0xFFFFFFFF) ∨
  (tp.type = SUNS_FLOAT32 ∧ isnan_f32 u.u32 = true)

instance (tp : suns_type_pair_t) (u : suns_value_u) : Decidable (not_implemented tp u) := by
  unfold not_implemented
  infer_instance

/-- The tail of `suns_buf_to_value` after the switch: status, type and raw
bytes. `memcpy` copies `min(16, suns_type_size(tp->type))` bytes. -/
def suns_buf_to_value_finish (buf : List Byte) (tp : suns_type_pair_t)
    (v : suns_value_t) : suns_value_t :=
  let n := min 16 (suns_type_size tp.type)
  { v with
    meta := if not_implemented tp v.value then SUNS_VALUE_NOT_IMPLEMENTED else SUNS_VALUE_OK
    tp := tp
    raw := (List.range n).map (fun i => buf.getD i 0) ++ v.raw.drop n }

/-- The switch and the tail of `suns_buf_to_value` once `realloc` has returned:
the return code and the value after the call. For a string, the new block has
`sub.len + 1` bytes, the last one NUL (the path of a failed `realloc`, return
code -1, is not taken). -/
def suns_buf_to_value_body (buf : List Byte) (tp : suns_type_pair_t) (v : suns_value_t) :
    Int × suns_value_t :=
  match tp.type with
  | SUNS_INT16 | SUNS_UINT16 | SUNS_ACC16 | SUNS_ENUM16 | SUNS_BITFIELD16 | SUNS_SF =>
    (0, suns_buf_to_value_finish buf tp { v with value := v.value.set_u16 (be16toh buf) })
  | SUNS_INT32 | SUNS_UINT32 | SUNS_FLOAT32 | SUNS_ACC32 | SUNS_BITFIELD32 =>
    (0, suns_buf_to_value_finish buf tp { v with value := v.value.set_u32 (be32toh buf) })
  | SUNS_STRING =>
    (0, suns_buf_to_value_finish buf tp
          { v with value := { v.value with s := some (strncpy buf tp.sub_len ++ [0]) } })
  | _ => (-2, v)

/-- The pointer `v->value.s` is one that `realloc` accepts: the block of a
string value, or NULL. The member `s` shares its storage with `u16` and `u32`,
so it is NULL only when the whole storage is zero, as after `suns_value_init`;
under any tag but `SUNS_STRING` a non-zero storage is a number, not a block
(`suns_value_set_string` trusts the pointer under that tag only). -/
def realloc_defined (v : suns_value_t) : Prop :=
  (v.tp.type = SUNS_STRING ∧ v.value.s ≠ none) ∨ (v.value.s = none ∧ v.value.bits = 0)

instance (v : suns_value_t) : Decidable (realloc_defined v) := by
  unfold realloc_defined
  infer_instance

/-- The function `suns_buf_to_value`: the return code and the value after the
call. The string case passes `v->value.s` to `realloc` before anything is
stored; the result is `none` when that pointer is neither NULL nor a block
(the call crashes on the bits of a number). -/
def suns_buf_to_value (buf : List Byte) (tp : suns_type_pair_t) (v : suns_value_t) :
    Option (Int × suns_value_t) :=
  match tp.type with
  | SUNS_STRING =>
    if realloc_defined v then some (suns_buf_to_value_body buf tp v) else none
  | _ => some (suns_buf_to_value_body buf tp v)

/-! ## Model definitions -/

/-- Modelled from the spec: the declaration of `suns_dp_t` (header
`suns_model.h`, not among the sources); the fields are those `suns_model.c`
uses. An `offset` of zero or less means that no offset was given. -/
structure suns_dp_t where
  name : Option String
  offset : Int
  type_pair : suns_type_pair_t
  deriving DecidableEq, Repr

/-- Modelled from the spec: the declaration of `suns_dp_block_t` (header
`suns_model.h`); the fields are those `suns_model.c` uses. -/
structure suns_dp_block_t where
  dp_list : List suns_dp_t
  repeating : Bool
  len : Int
  deriving DecidableEq, Repr

/-- Modelled from the spec: the declaration of `suns_model_t` (header
`suns_model.h`); the fields are those the resolver and the decoder use. -/
structure suns_model_t where
  dp_blocks : List suns_dp_block_t
  len : Int
  base_len : Int
  deriving DecidableEq, Repr

/-- The function `suns_model_new` (the lists it creates are empty). -/
def suns_model_new : suns_model_t := { dp_blocks := [], len := 0, base_len := 0 }

/-- Modelled from the spec: the declaration of `suns_model_did_t` (header
`suns_model.h`): a registry entry, a 16-bit identifier and its model. -/
structure suns_model_did_t where
  did : Nat
  model : suns_model_t
  deriving DecidableEq, Repr

/-- Modelled from the spec: the declaration of `suns_dataset_t` (header
`suns_model.h`): the registry entry and the decoded values. -/
structure suns_dataset_t where
  did : suns_model_did_t
  values : List suns_value_t
  deriving DecidableEq, Repr

/-- The function `suns_dataset_new`. -/
def suns_dataset_new (did : suns_model_did_t) : suns_dataset_t := { did := did, values := [] }

/-- The function `suns_find_did`: the first entry with the given identifier,
`none` for NULL. -/
def suns_find_did (did_list : List suns_model_did_t) (did : Nat) : Option suns_model_did_t :=
  did_list.find? (fun d => d.did == did)

/-! ## Offset resolver -/

/-- A message of the `warning` and `error` macros of `suns_model_fill_offsets`. -/
inductive fill_log where
  | warning_odd_string (name : Option String) (len : Nat)
  | error_repeating_not_last
  deriving DecidableEq, Repr

/-- The advance of `dp_block_offset` for one datapoint in
`suns_model_fill_offsets`: half the byte size, a string of odd length being
rounded up. The test `(len / 2.0) - (len / 2) > 0` holds exactly for odd `len`. -/
def dp_advance (tp : suns_type_pair_t) : Int :=
  if tp.type = SUNS_STRING then
    if tp.sub_len % 2 = 1 then (tp.sub_len / 2 : Nat) + 1 else (tp.sub_len / 2 : Nat)
  else (suns_type_size tp.type / 2 : Nat)

/-- The messages of one datapoint in `suns_model_fill_offsets`. -/
def dp_log (dp : suns_dp_t) : List fill_log :=
  if dp.type_pair.type = SUNS_STRING ∧ dp.type_pair.sub_len % 2 = 1 then
    [fill_log.warning_odd_string dp.name dp.type_pair.sub_len]
  else []

/-- The inner loop of `suns_model_fill_offsets` over the datapoints of one
block, from a given `dp_block_offset`: the datapoints with their offsets, the
final `dp_block_offset`, and the messages. -/
def fill_dp_list (offset : Int) :
    List suns_dp_t → Int → List suns_dp_t × Int × List fill_log
  | [], dp_block_offset => ([], dp_block_offset, [])
  | dp :: rest, dp_block_offset =>
    let dp1 : suns_dp_t :=
      if dp.offset > 0 then dp else { dp with offset := offset + dp_block_offset }
    let dbo1 : Int := if dp.offset > 0 then dp.offset - offset else dp_block_offset
    let r := fill_dp_list offset rest (dbo1 + dp_advance dp.type_pair)
    (dp1 :: r.1, r.2.1, dp_log dp ++ r.2.2)

/-- The outer loop of `suns_model_fill_offsets` over the blocks, threading
`m->base_len` and `m->len`. A block is the tail of the list exactly when no
block follows it. -/
def fill_blocks (offset : Int) :
    List suns_dp_block_t → Int → Int → List suns_dp_block_t × Int × Int × List fill_log
  | [], base_len, len => ([], base_len, len, [])
  | dp_block :: rest, base_len, len =>
    let r := fill_dp_list offset dp_block.dp_list 0
    let dp_block_offset := r.2.1
    let blk : suns_dp_block_t := { dp_block with dp_list := r.1, len := dp_block_offset }
    let err : List fill_log :=
      if dp_block.repeating ∧ rest ≠ [] then [fill_log.error_repeating_not_last] else []
    let base_len1 := if dp_block.repeating then base_len else base_len + dp_block_offset
    let q := fill_blocks offset rest base_len1 (len + dp_block_offset)
    (blk :: q.1, q.2.1, q.2.2.1, r.2.2 ++ err ++ q.2.2.2)

/-- The function `suns_model_fill_offsets`: the model after the call and the
messages written. The function returns `void`. -/
def suns_model_fill_offsets (m : suns_model_t) : suns_model_t × List fill_log :=
  let offset : Int := 3
  let q := fill_blocks offset m.dp_blocks m.base_len m.len
  let len1 := if q.2.2.1 < 1 then offset - 3 else q.2.2.1
  ({ dp_blocks := q.1, base_len := q.2.1, len := len1 }, q.2.2.2)

/-! ## Block and dataset decoder -/

/-- Conversion of an `int` to `size_t` (64-bit). -/
def toSizeT (i : Int) : Nat := (i % 18446744073709551616).toNat

/-- The body of the inner loop of `suns_decode_dp_block` over the datapoints
of the block, from a given `byte_offset`: the new `byte_offset`, the value
list, and whether the function returned from inside the loop. The target of
`suns_buf_to_value` is the value `suns_value_set_null` has just zeroed, on
which the call is defined, so the last alternative is never taken. -/
def decode_dp_list (buf : List Byte) (len : Nat) :
    List suns_dp_t → Nat → List suns_value_t → Nat × List suns_value_t × Bool
  | [], byte_offset, value_list => (byte_offset, value_list, false)
  | dp :: rest, byte_offset, value_list =>
    let size := suns_type_pair_size dp.type_pair
    if byte_offset + size ≤ len then
      let v : suns_value_t := { suns_value_set_null suns_value_new with name := dp.name }
      match suns_buf_to_value (buf.drop byte_offset) dp.type_pair v with
      | some r => decode_dp_list buf len rest (byte_offset + size) (value_list ++ [r.2])
      | none => (byte_offset, value_list, true)
    else (byte_offset, value_list, true)

/-- The loop `for (i = 0; i < len_multiple; i++)` of `suns_decode_dp_block`,
with the number of iterations left as first argument. -/
def decode_reps (dp_block : suns_dp_block_t) (buf : List Byte) (len : Nat) :
    Nat → Nat → List suns_value_t → Nat × List suns_value_t
  | 0, byte_offset, value_list => (byte_offset, value_list)
  | k + 1, byte_offset, value_list =>
    match decode_dp_list buf len dp_block.dp_list byte_offset value_list with
    | (bo, vl, true) => (bo, vl)
    | (bo, vl, false) => decode_reps dp_block buf len k bo vl

/-- The value of `len_multiple` in `suns_decode_dp_block`, as the number of
iterations of the loop over `i`: `len / dp_block->len / 2` in `size_t`
arithmetic, stored into an `int`, for a repeating block; `none` when the
divisor is zero. -/
def len_multiple (dp_block : suns_dp_block_t) (len : Nat) : Option Nat :=
  if dp_block.repeating then
    if toSizeT dp_block.len = 0 then none
    else some (toInt32 (len / toSizeT dp_block.len / 2)).toNat
  else some 1

/-- The function `suns_decode_dp_block`: the bytes decoded and the value list
after the call; `none` when `len_multiple` divides by zero. -/
def suns_decode_dp_block (dp_block : suns_dp_block_t) (buf : List Byte) (len : Nat)
    (value_list : List suns_value_t) : Option (Nat × List suns_value_t) :=
  match len_multiple dp_block len with
  | none => none
  | some k => some (decode_reps dp_block buf len k 0 value_list)

/-- The loop of `suns_decode_data` over the blocks of the model, from a given
`byte_offset`: the value list of the dataset at the return. -/
def decode_blocks (buf : List Byte) (did_len : Nat) :
    List suns_dp_block_t → Nat → List suns_value_t → Option (List suns_value_t)
  | [], _, values => some values
  | dp_block :: rest, byte_offset, values =>
    match suns_decode_dp_block dp_block (buf.drop (byte_offset + 4))
        (toSizeT ((did_len * 2 : Nat) - (byte_offset : Int))) values with
    | none => none
    | some (n, values1) =>
      if byte_offset + n ≥ did_len * 2 + 4 then some values1
      else decode_blocks buf did_len rest (byte_offset + n) values1

/-- The function `suns_decode_data`. The outer `none` is a division by zero in
a block, the inner `none` the NULL returned for an unknown identifier. The
parameter `len` is not used by the function; the two length checks only write
warnings. -/
def suns_decode_data (did_list : List suns_model_did_t) (buf : List Byte) (_len : Nat) :
    Option (Option suns_dataset_t) :=
  let did_value := be16toh buf
  let did_len := be16toh (buf.drop 2)
  match suns_find_did did_list did_value with
  | none => some none
  | some did =>
    match decode_blocks buf did_len did.model.dp_blocks 0 (suns_dataset_new did).values with
    | none => none
    | some values => some (some { did := did, values := values })

/-- The length test of `suns_decode_data` that precedes the decoding: whether
one of its two warnings is written. With `base_len != len` the remainder of
`did_len - base_len` by `len - base_len` is tested, otherwise `len != did_len`;
`did_len` is a `uint16_t` promoted to `int`. -/
def suns_decode_data_length_check (m : suns_model_t) (did_len : Nat) : Bool :=
  if m.base_len ≠ m.len then
    decide (Int.tmod ((did_len : Int) - m.base_len) (m.len - m.base_len) ≠ 0)
  else decide (m.len ≠ (did_len : Int))

/-- The inner loop of `suns_decode_dp_block` over the datapoints of the block,
as `decode_dp_list`, keeping instead of the values the `byte_offset` of each
call of `suns_buf_to_value`. -/
def decode_dp_list_offsets (len : Nat) :
    List suns_dp_t → Nat → List Nat → Nat × List Nat × Bool
  | [], byte_offset, offsets => (byte_offset, offsets, false)
  | dp :: rest, byte_offset, offsets =>
    let size := suns_type_pair_size dp.type_pair
    if byte_offset + size ≤ len then
      decode_dp_list_offsets len rest (byte_offset + size) (offsets ++ [byte_offset])
    else (byte_offset, offsets, true)

/-- The loop over `i` of `suns_decode_dp_block`, as `decode_reps`, keeping the
`byte_offset` of each call of `suns_buf_to_value`. -/
def decode_reps_offsets (dp_block : suns_dp_block_t) (len : Nat) :
    Nat → Nat → List Nat → Nat × List Nat
  | 0, byte_offset, offsets => (byte_offset, offsets)
  | k + 1, byte_offset, offsets =>
    match decode_dp_list_offsets len dp_block.dp_list byte_offset offsets with
    | (bo, os, true) => (bo, os)
    | (bo, os, false) => decode_reps_offsets dp_block len k bo os

/-- The byte positions, relative to `buf`, from which `suns_decode_dp_block`
reads its values, in order; `none` when `len_multiple` divides by zero. -/
def suns_decode_dp_block_offsets (dp_block : suns_dp_block_t) (len : Nat) :
    Option (List Nat) :=
  match len_multiple dp_block len with
  | none => none
  | some k => some (decode_reps_offsets dp_block len k 0 []).2

/-- The loop of `suns_decode_data` over the blocks, as `decode_blocks`, keeping
besides the values the cumulative `byte_offset` after each block and whether
the error "buffer overrun" was written. -/
def decode_blocks_traced (buf : List Byte) (did_len : Nat) :
    List suns_dp_block_t → Nat → List suns_value_t →
      Option (List suns_value_t × List Nat × Bool)
  | [], _, values => some (values, [], false)
  | dp_block :: rest, byte_offset, values =>
    match suns_decode_dp_block dp_block (buf.drop (byte_offset + 4))
        (toSizeT ((did_len * 2 : Nat) - (byte_offset : Int))) values with
    | none => none
    | some (n, values1) =>
      if byte_offset + n ≥ did_len * 2 + 4 then some (values1, [byte_offset + n], true)
      else
        match decode_blocks_traced buf did_len rest (byte_offset + n) values1 with
        | none => none
        | some (vs, offsets, err) => some (vs, (byte_offset + n) :: offsets, err)

/-! ## Discovery traversal (`suns_app.c`) -/

/-- Modelled from the spec: the constant `SUNS_ID_HIGH` (header `suns_app.h`,
not among the sources), the first half of the ASCII signature "SunS" as a
big-endian 16-bit word. -/
def SUNS_ID_HIGH : Nat := 0x5375

/-- Modelled from the spec: the constant `SUNS_ID_LOW` (header `suns_app.h`),
the second half of the ASCII signature "SunS" as a big-endian 16-bit word. -/
def SUNS_ID_LOW : Nat := 0x6e53

/-- The library call `modbus_read_registers(ctx, addr, nb, regs)` as seen by the
traversal: the `nb` registers stored into `regs`, or `none` for a negative
return code. -/
abbrev modbus_t := Int → Nat → Option (List Nat)

/-- The function `suns_app_swap_registers`: the `2 * num_regs` bytes stored
into `buf`, each register most significant byte first. -/
def suns_app_swap_registers (reg : List Nat) (num_regs : Nat) : List Byte :=
  ((List.range num_regs).map (fun i => htobe16 (reg.getD i 0))).flatten

/-- The outcome of a run of `suns_app_read_device`. -/
inductive run (α : Type) where
  /-- The function returned. -/
  | done : α → run α
  /-- A C operation without a defined result was reached: a NULL dereference,
  a remainder by zero, a failed assertion, a store past the end of `regs`. -/
  | fault : run α
  /-- The loop was cut after the given number of iterations. -/
  | out_of_fuel : run α
  deriving DecidableEq, Repr

/-- What `suns_app_read_device` leaves behind: its return code, the local
`base_register`, and the datasets handed to `suns_dataset_output`, in order. -/
structure read_device_result where
  rc : Int
  base_register : Int
  datasets : List suns_dataset_t
  deriving DecidableEq, Repr

/-- The array `search_registers` up to its terminator -1. -/
def search_registers : List Int := [1, 40001, 50001]

/-- The loop of `suns_app_read_device` that looks for the signature: the value
of `base_register` after it. A failed read goes on with the next candidate. -/
def find_base_register (mb : modbus_t) : List Int → Int
  | [] => -1
  | r :: rest =>
    match mb (r - 1) 2 with
    | none => find_base_register mb rest
    | some regs =>
      if regs.getD 0 0 = SUNS_ID_HIGH ∧ regs.getD 1 0 = SUNS_ID_LOW then r
      else find_base_register mb rest

/-- The length test of `suns_app_read_device` for a known model: whether the
error message is written; `none` when the model has no block (the tail of the
list is NULL) or when the remainder is taken by zero. The operator `&&`
evaluates its right operand only when the left one holds. -/
def length_check (did : suns_model_did_t) (len : Nat) : Option Bool :=
  match did.model.dp_blocks.getLast? with
  | none => none
  | some last_dp_block =>
    if did.model.len ≠ (len : Int) then
      if last_dp_block.repeating then
        if did.model.len - did.model.base_len = 0 then none
        else some (Int.tmod ((len : Int) - did.model.base_len)
                    (did.model.len - did.model.base_len) ≠ 0)
      else some false
    else some false

/-- The loop `while (1)` of `suns_app_read_device`, with the number of
iterations allowed as first argument: the return code and the datasets put
out. The arrays are `uint16_t regs[1024]` and `unsigned char buf[2048]`; `buf`
keeps its bytes from one iteration to the next. -/
def read_device_loop (did_list : List suns_model_did_t) (mb : modbus_t)
    (base_register : Int) :
    Nat → Int → List Byte → List suns_dataset_t → run (Int × List suns_dataset_t)
  | 0, _, _, _ => run.out_of_fuel
  | fuel + 1, offset, buf, out =>
    match mb (base_register + offset - 1) 2 with
    | none => run.done (-1, out)
    | some regs =>
      if regs.getD 0 0 = 0xFFFF then run.done (0, out)
      else if regs.getD 0 0 = 0 then run.done (-1, out)
      else
        let len := regs.getD 1 0
        let did := suns_find_did did_list (regs.getD 0 0)
        let check : Option Bool :=
          match did with
          | none => some false
          | some d => length_check d len
        match check with
        | none => run.fault
        | some _ =>
          match mb (base_register + offset - 1) (len + 2) with
          | none => run.done (-1, out)
          | some regs2 =>
            if 1024 < len + 2 then run.fault
            else
              let buf1 := store (suns_app_swap_registers regs2 (len + 2)) buf
              match did with
              | none => read_device_loop did_list mb base_register fuel (offset + len + 2) buf1 out
              | some _ =>
                match suns_decode_data did_list buf1 ((len + 2) * 2) with
                | none => run.fault
                | some none => run.fault
                | some (some data) =>
                  read_device_loop did_list mb base_register fuel (offset + len + 2) buf1
                    (out ++ [data])

/-- The function `suns_app_read_device`, for a registry `did_list`, a transport
`mb`, the initial contents `buf0` of the local array `buf`, and a number of
loop iterations allowed. A NULL dataset fails the assertion of
`suns_dataset_free`. -/
def suns_app_read_device (did_list : List suns_model_did_t) (mb : modbus_t)
    (buf0 : List Byte) (fuel : Nat) : run read_device_result :=
  let base_register := find_base_register mb search_registers
  if base_register < 0 then
    run.done { rc := -1, base_register := base_register, datasets := [] }
  else
    match read_device_loop did_list mb base_register fuel 2 buf0 [] with
    | run.done (rc, out) =>
      run.done { rc := rc, base_register := base_register, datasets := out }
    | run.fault => run.fault
    | run.out_of_fuel => run.out_of_fuel

/-- Modelled from the spec: the register transport `read_registers(session,
address, count)` over a register space. The space gives the 16-bit content of
every readable register number; register `n` is read at the address `n - 1`;
a read that touches an unreadable register fails. -/
def read_space (space : Int → Option Nat) : modbus_t :=
  fun addr nb =>
    if (List.range nb).all (fun (i : Nat) => (space (addr + 1 + (i : Int))).isSome) then
      some ((List.range nb).map (fun (i : Nat) => (space (addr + 1 + (i : Int))).getD 0))
    else none

/-- The register space that holds the registers `regs` from register number
`first` on and nothing else. -/
def space_of (first : Int) (regs : List Nat) : Int → Option Nat :=
  fun n => if first ≤ n then regs[(n - first).toNat]? else none

/-- The loop of `suns_app_read_device` that looks for the signature, together
with the calls of `modbus_read_registers` it makes, in order, each as the pair
of the address and the number of registers. -/
def find_base_register_traced (mb : modbus_t) : List Int → Int × List (Int × Nat)
  | [] => (-1, [])
  | r :: rest =>
    match mb (r - 1) 2 with
    | none =>
      let p := find_base_register_traced mb rest
      (p.1, (r - 1, 2) :: p.2)
    | some regs =>
      if regs.getD 0 0 = SUNS_ID_HIGH ∧ regs.getD 1 0 = SUNS_ID_LOW then (r, [(r - 1, 2)])
      else
        let p := find_base_register_traced mb rest
        (p.1, (r - 1, 2) :: p.2)

/-- The loop `while (1)` of `suns_app_read_device` together with the calls of
`modbus_read_registers` it makes, in order, each as the pair of the address and
the number of registers. -/
def read_device_loop_traced (did_list : List suns_model_did_t) (mb : modbus_t)
    (base_register : Int) :
    Nat → Int → List Byte → List suns_dataset_t →
      run (Int × List suns_dataset_t) × List (Int × Nat)
  | 0, _, _, _ => (run.out_of_fuel, [])
  | fuel + 1, offset, buf, out =>
    let header : Int × Nat := (base_register + offset - 1, 2)
    match mb (base_register + offset - 1) 2 with
    | none => (run.done (-1, out), [header])
    | some regs =>
      if regs.getD 0 0 = 0xFFFF then (run.done (0, out), [header])
      else if regs.getD 0 0 = 0 then (run.done (-1, out), [header])
      else
        let len := regs.getD 1 0
        let did := suns_find_did did_list (regs.getD 0 0)
        let check : Option Bool :=
          match did with
          | none => some false
          | some d => length_check d len
        match check with
        | none => (run.fault, [header])
        | some _ =>
          let block : Int × Nat := (base_register + offset - 1, len + 2)
          match mb (base_register + offset - 1) (len + 2) with
          | none => (run.done (-1, out), [header, block])
          | some regs2 =>
            if 1024 < len + 2 then (run.fault, [header, block])
            else
              let buf1 := store (suns_app_swap_registers regs2 (len + 2)) buf
              match did with
              | none =>
                let p := read_device_loop_traced did_list mb base_register fuel
                  (offset + len + 2) buf1 out
                (p.1, header :: block :: p.2)
              | some _ =>
                match suns_decode_data did_list buf1 ((len + 2) * 2) with
                | none => (run.fault, [header, block])
                | some none => (run.fault, [header, block])
                | some (some data) =>
                  let p := read_device_loop_traced did_list mb base_register fuel
                    (offset + len + 2) buf1 (out ++ [data])
                  (p.1, header :: block :: p.2)

/-- A run of `suns_app_read_device` with the register reads it issued: those of
the search for the signature, then those of the loop over the instances. -/
structure read_device_trace where
  result : run read_device_result
  probe : List (Int × Nat)
  scan : List (Int × Nat)
  deriving DecidableEq, Repr

/-- The function `suns_app_read_device` together with the calls of
`modbus_read_registers` it makes. -/
def suns_app_read_device_traced (did_list : List suns_model_did_t) (mb : modbus_t)
    (buf0 : List Byte) (fuel : Nat) : read_device_trace :=
  let found := find_base_register_traced mb search_registers
  let base_register := found.1
  if base_register < 0 then
    { result := run.done { rc := -1, base_register := base_register, datasets := [] },
      probe := found.2, scan := [] }
  else
    let p := read_device_loop_traced did_list mb base_register fuel 2 buf0 []
    match p.1 with
    | run.done (rc, out) =>
      { result := run.done { rc := rc, base_register := base_register, datasets := out },
        probe := found.2, scan := p.2 }
    | run.fault => { result := run.fault, probe := found.2, scan := p.2 }
    | run.out_of_fuel => { result := run.out_of_fuel, probe := found.2, scan := p.2 }

/-! ## Test server (`suns_app_test_server`) -/

/-- Modelled from the spec: the structure `modbus_mapping_t` of libmodbus, of
which the test server uses the holding-register table `tab_registers` and the
input-register table `tab_input_registers`, both arrays of `uint16_t`. -/
structure modbus_mapping_t where
  tab_registers : List Nat
  tab_input_registers : List Nat
  deriving DecidableEq, Repr

/-- Modelled from the spec: the library call
`modbus_mapping_new(0, 0, nb_registers, nb_input_registers)` of libmodbus: both
tables are allocated and filled with zeros. -/
def modbus_mapping_new (nb_registers nb_input_registers : Nat) : modbus_mapping_t :=
  { tab_registers := List.replicate nb_registers 0,
    tab_input_registers := List.replicate nb_input_registers 0 }

/-- The store `tab[i] = x` into a table of `uint16_t`; `none` when the index is
past the end of the table. -/
def tab_store (tab : List Nat) (i : Nat) (x : Nat) : Option (List Nat) :=
  if i < tab.length then some (tab.set i (x % 65536)) else none

/-- The two stores of one register value, into the holding-register table and
into the input-register table, at the same index. -/
def mapping_store (mapping : modbus_mapping_t) (offset : Nat) (x : Nat) :
    Option modbus_mapping_t :=
  match tab_store mapping.tab_registers offset x,
        tab_store mapping.tab_input_registers offset x with
  | some t1, some t2 => some { tab_registers := t1, tab_input_registers := t2 }
  | _, _ => none

/-- The loop `for (r = 0; r < buffer_len(dblock->data); r += 2)` of
`suns_app_test_server`, with the number of iterations left as first argument:
the mapping and `offset` after it. A data block is the list of its bytes; the
byte read at `r + 1` past an odd length is taken as 0. -/
def copy_data_block (data : List Byte) :
    Nat → Nat → modbus_mapping_t → Nat → Option (modbus_mapping_t × Nat)
  | 0, _, mapping, offset => some (mapping, offset)
  | k + 1, r, mapping, offset =>
    match mapping_store mapping offset (byteAt data r * 256 + byteAt data (r + 1)) with
    | none => none
    | some mapping1 => copy_data_block data k (r + 2) mapping1 (offset + 1)

/-- The loop of `suns_app_test_server` over the data blocks, in list order. -/
def copy_data_blocks :
    List (List Byte) → modbus_mapping_t → Nat → Option (modbus_mapping_t × Nat)
  | [], mapping, offset => some (mapping, offset)
  | data :: rest, mapping, offset =>
    match copy_data_block data ((data.length + 1) / 2) 0 mapping offset with
    | none => none
    | some (mapping1, offset1) => copy_data_blocks rest mapping1 offset1

/-- The function `suns_app_test_server` up to the point where it starts to
serve requests: the register mapping it has built from the list of data
blocks; `none` when a store falls outside the 4096 registers of a table. -/
def suns_app_test_server (data_block_list : List (List Byte)) : Option modbus_mapping_t :=
  let mapping := modbus_mapping_new 4096 4096
  match mapping_store mapping 0 SUNS_ID_HIGH with
  | none => none
  | some m1 =>
    match mapping_store m1 1 SUNS_ID_LOW with
    | none => none
    | some m2 =>
      match copy_data_blocks data_block_list m2 2 with
      | none => none
      | some (m3, offset) => mapping_store m3 offset 0xFFFF

/-! ## Vocabulary of the round-trip statement -/

/-- The values of a 16- or 32-bit tag built by a setter, from any prior value,
with an argument in the range of the setter's parameter type. For the scale
factor the pattern 0x8000 is left out. -/
inductive in_range_fixed : suns_value_t → Prop
  | int16 (v0 : suns_value_t) (i : Int) :
      -32768 ≤ i → i ≤ 32767 → in_range_fixed (suns_value_set_int16 v0 i)
  | uint16 (v0 : suns_value_t) (x : Nat) :
      x < 65536 → in_range_fixed (suns_value_set_uint16 v0 x)
  | acc16 (v0 : suns_value_t) (x : Nat) :
      x < 65536 → in_range_fixed (suns_value_set_acc16 v0 x)
  | enum16 (v0 : suns_value_t) (x : Nat) :
      x < 65536 → in_range_fixed (suns_value_set_enum16 v0 x)
  | bitfield16 (v0 : suns_value_t) (x : Nat) :
      x < 65536 → in_range_fixed (suns_value_set_bitfield16 v0 x)
  | sunssf (v0 : suns_value_t) (x : Nat) :
      x < 65536 → x ≠ 0x8000 → in_range_fixed (suns_value_set_sunssf v0 x)
  | int32 (v0 : suns_value_t) (i : Int) :
      -2147483648 ≤ i → i ≤ 2147483647 → in_range_fixed (suns_value_set_int32 v0 i)
  | uint32 (v0 : suns_value_t) (x : Nat) :
      x < 4294967296 → in_range_fixed (suns_value_set_uint32 v0 x)
  | acc32 (v0 : suns_value_t) (x : Nat) :
      x < 4294967296 → in_range_fixed (suns_value_set_acc32 v0 x)
  | bitfield32 (v0 : suns_value_t) (x : Nat) :
      x < 4294967296 → in_range_fixed (suns_value_set_bitfield32 v0 x)
  | float32 (v0 : suns_value_t) (x : Nat) :
      x < 4294967296 → in_range_fixed (suns_value_set_float32 v0 x)

/-- The payload of a fixed-width value: the low `suns_type_size` bytes of the
union, which is the member its tag selects. -/
def fixed_payload (v : suns_value_t) : Nat :=
  v.value.bits % 256 ^ suns_type_size v.tp.type

/-! ## Vocabulary of the resolver statements -/

/-- The size of a datapoint in registers as the specification words it:
`ceil(bytes / 2)`. -/
def reg_size (tp : suns_type_pair_t) : Int := ((suns_type_pair_size tp + 1) / 2 : Nat)

/-- A datapoint carries no explicit offset: the test `dp->offset > 0` fails. -/
def no_explicit_offset (dp : suns_dp_t) : Prop := ¬ (dp.offset > 0)

instance (dp : suns_dp_t) : Decidable (no_explicit_offset dp) := by
  unfold no_explicit_offset
  infer_instance

/-- The running register counter of the specification over the datapoints of
one block: an explicit offset replaces the counter, then the counter advances
by the register size of the datapoint. -/
def run_counter : Int → List suns_dp_t → Int
  | c, [] => c
  | c, dp :: rest =>
    run_counter ((if dp.offset > 0 then dp.offset else c) + reg_size dp.type_pair) rest

/-- The datapoints `dps` of one block with the offsets the specification
implies: datapoint `i` gets `base` plus the register sizes of datapoints
`0 .. i-1`. -/
def with_implied_offsets (base : Int) (dps : List suns_dp_t) : List suns_dp_t :=
  dps.enum.map (fun p =>
    { p.2 with offset := base + ((dps.take p.1).map (fun x => reg_size x.type_pair)).sum })

/-- The sum of the register sizes of the datapoints of a list. -/
def reg_total (dps : List suns_dp_t) : Int := (dps.map (fun x => reg_size x.type_pair)).sum

/-! ## Vocabulary of the decoder statements -/

/-- The fields of a block taken in repetition order, then field order, for `k`
repetitions. -/
def block_fields (dp_block : suns_dp_block_t) (k : Nat) : List suns_dp_t :=
  (List.replicate k dp_block.dp_list).flatten

/-- The cumulative byte size of a list of fields. -/
def fields_size (fs : List suns_dp_t) : Nat :=
  (fs.map (fun dp => suns_type_pair_size dp.type_pair)).sum

/-- The values of a list of fields read one after the other: each is what
`suns_buf_to_value` leaves in a zeroed Value (on which the call is defined and
is its switch and tail), applied to the bytes at the running position `pos`
with the TypeSpec and the name of the datapoint, and the position advances by
the byte size of the field. -/
def decode_fields (buf : List Byte) : List suns_dp_t → Nat → List suns_value_t
  | [], _ => []
  | dp :: rest, pos =>
    (suns_buf_to_value_body (buf.drop pos) dp.type_pair
        { suns_value_init with name := dp.name }).2 ::
      decode_fields buf rest (pos + suns_type_pair_size dp.type_pair)

/-- The repetition count of a block as the specification words it:
`floor(available_bytes / (block.len * 2))` for a repeating block, 1 otherwise. -/
def repeat_count (dp_block : suns_dp_block_t) (avail : Nat) : Nat :=
  if dp_block.repeating then avail / (dp_block.len.toNat * 2) else 1

/-- The fields of a model instance in block order, repetition order, field
order, for `avail` payload bytes: each block takes its repetitions out of the
bytes the preceding blocks leave. -/
def model_fields : List suns_dp_block_t → Nat → List suns_dp_t
  | [], _ => []
  | b :: rest, avail =>
    block_fields b (repeat_count b avail) ++
      model_fields rest (avail - fields_size (block_fields b (repeat_count b avail)))

/-- The fields of a model in block order, each block taken once. -/
def all_fields (m : suns_model_t) : List suns_dp_t :=
  (m.dp_blocks.map (fun b => b.dp_list)).flatten

/-- The model has no repeating block. -/
def no_repeating_block (m : suns_model_t) : Prop := ∀ b ∈ m.dp_blocks, b.repeating = false

instance (m : suns_model_t) : Decidable (no_repeating_block m) := by
  unfold no_repeating_block
  infer_instance

/-- The bytes of an instance as `suns_decode_data` receives them: identifier,
declared length in registers, payload. -/
def instance_buf (id declared : Nat) (payload : List Byte) : List Byte :=
  htobe16 id ++ htobe16 declared ++ payload

/-! ## Vocabulary of the traversal statements -/

/-- The registers of one model instance `(model_id, payload)`: the identifier,
the length of the payload in registers, the payload. -/
def instance_regs (inst : Nat × List Nat) : List Nat :=
  inst.1 :: inst.2.length :: inst.2

/-- The big-endian bytes of one model instance. -/
def instance_bytes (inst : Nat × List Nat) : List Byte :=
  suns_app_swap_registers (instance_regs inst) (inst.2.length + 2)

/-- The registers of a sequence of model instances, one after the other. -/
def instances_regs (insts : List (Nat × List Nat)) : List Nat :=
  (insts.map instance_regs).flatten

/-- The register space holds the registers `regs` from register number `first`
on. -/
def holds (space : Int → Option Nat) (first : Int) (regs : List Nat) : Prop :=
  ∀ i : Nat, i < regs.length → space (first + (i : Int)) = regs[i]?

/-- The register space holds the signature at the register numbers `r` and
`r + 1`. -/
def holds_signature (space : Int → Option Nat) (r : Int) : Prop :=
  space r = some SUNS_ID_HIGH ∧ space (r + 1) = some SUNS_ID_LOW

/-- An instance the traversal handles without leaving defined behaviour: its
identifier is a 16-bit value other than 0 and 0xFFFF, it fits the array `regs`,
its model is registered and has a last block, no repeating block of the model
has length zero, and a model whose last block repeats has `len ≠ base_len`. -/
def well_formed_instance (did_list : List suns_model_did_t) (inst : Nat × List Nat) : Prop :=
  inst.1 ≠ 0 ∧ inst.1 ≠ 0xFFFF ∧ inst.1 < 65536 ∧ inst.2.length + 2 ≤ 1024 ∧
  ∃ d last, suns_find_did did_list inst.1 = some d ∧
    d.model.dp_blocks.getLast? = some last ∧
    (last.repeating = true → d.model.len ≠ d.model.base_len) ∧
    (∀ b ∈ d.model.dp_blocks, b.repeating = true → toSizeT b.len ≠ 0)

/-- An instance of a model that is not registered, which the traversal skips:
its identifier is a 16-bit value other than 0 and 0xFFFF with no entry in the
registry, and it fits the array `regs`. -/
def unknown_instance (did_list : List suns_model_did_t) (inst : Nat × List Nat) : Prop :=
  inst.1 ≠ 0 ∧ inst.1 ≠ 0xFFFF ∧ inst.1 < 65536 ∧ inst.2.length + 2 ≤ 1024 ∧
  suns_find_did did_list inst.1 = none

/-- The Dataset of one instance: `suns_decode_data` on its big-endian bytes;
`none` for an unknown identifier. -/
def instance_dataset (did_list : List suns_model_did_t) (inst : Nat × List Nat) :
    Option suns_dataset_t :=
  (suns_decode_data did_list (instance_bytes inst) ((inst.2.length + 2) * 2)).join

/-- The register reads of a traversal over a sequence of instances laid out
from the register number `base + offset`: for each instance the two header
registers, then the whole instance, at the address of its first register. -/
def instances_reads (base : Int) : Int → List (Nat × List Nat) → List (Int × Nat)
  | _, [] => []
  | offset, inst :: rest =>
    (base + offset - 1, 2) :: (base + offset - 1, inst.2.length + 2) ::
      instances_reads base (offset + (inst.2.length : Int) + 2) rest

/-- Of a run of the loop with result `r` and register reads `t`: a failed read
is the last read, and the run returned -1. -/
def stops_at_failed_read (mb : modbus_t) (r : run (Int × List suns_dataset_t))
    (t : List (Int × Nat)) : Prop :=
  ∀ pre rd post, t = pre ++ rd :: post → mb rd.1 rd.2 = none →
    post = [] ∧ ∃ ds, r = run.done (-1, ds)

/-- The registers of a data block as the specification words them: two
consecutive bytes per register, the first one in the high half. -/
def pack_registers (data : List Byte) : List Nat :=
  (List.range (data.length / 2)).map
    (fun i => (data.getD (2 * i) 0).val * 256 + (data.getD (2 * i + 1) 0).val)

/-- The register map of the server role over a table of `size` registers: the
signature, the data blocks in order, one end marker, zeros up to the end. -/
def server_register_map (data_block_list : List (List Byte)) (size : Nat) : List Nat :=
  [SUNS_ID_HIGH, SUNS_ID_LOW] ++ (data_block_list.map pack_registers).flatten ++ [0xFFFF] ++
    List.replicate (size - (3 + ((data_block_list.map pack_registers).flatten).length)) 0

/-! ## Sample data of the worked examples -/

/-- A datapoint with the given name and fixed-width type, without explicit
offset. -/
def dp_of (name : String) (ty : suns_type_t) : suns_dp_t :=
  { name := some name, offset := 0, type_pair := { type := ty, sub_len := 0 } }

/-- A resolved model with one Int16 datapoint "A". -/
def model_one_int16 : suns_model_t :=
  (suns_model_fill_offsets
    { suns_model_new with
      dp_blocks := [{ dp_list := [dp_of "A" SUNS_INT16], repeating := false, len := 0 }] }).1

/-- A resolved model with a fixed block of one Int16 datapoint "A" and a
repeating block of one Int16 datapoint "B". -/
def model_fixed_repeating : suns_model_t :=
  (suns_model_fill_offsets
    { suns_model_new with
      dp_blocks := [{ dp_list := [dp_of "A" SUNS_INT16], repeating := false, len := 0 },
                    { dp_list := [dp_of "B" SUNS_INT16], repeating := true, len := 0 }] }).1

/-- A resolved model whose only block is repeating and has no datapoint. -/
def model_empty_repeating : suns_model_t :=
  (suns_model_fill_offsets
    { suns_model_new with
      dp_blocks := [{ dp_list := [], repeating := true, len := 0 }] }).1

/-- A resolved model with one block of a String datapoint "S" of the odd
declared length 3 followed by an Int16 datapoint "A". -/
def model_odd_string : suns_model_t :=
  (suns_model_fill_offsets
    { suns_model_new with
      dp_blocks := [{ dp_list := [{ name := some "S", offset := 0,
                                    type_pair := { type := SUNS_STRING, sub_len := 3 } },
                                  dp_of "A" SUNS_INT16],
                      repeating := false, len := 0 }] }).1

/-- A registry: model 1 is `model_one_int16`, model 2 is `model_fixed_repeating`,
model 3 is `model_empty_repeating`. -/
def sample_registry : List suns_model_did_t :=
  [{ did := 1, model := model_one_int16 },
   { did := 2, model := model_fixed_repeating },
   { did := 3, model := model_empty_repeating }]

/-- The register space of the worked example: the signature at the register
numbers 40001 and 40002, one instance of model 1 with the payload 0x04D2, the
end marker, and one further readable register. -/
def sample_space : Int → Option Nat :=
  space_of 40001 [0x5375, 0x6e53, 1, 1, 0x04D2, 0xFFFF, 0]

/-- The same register space cut after the end marker: the register that
follows the end marker cannot be read. -/
def sample_space_cut : Int → Option Nat :=
  space_of 40001 [0x5375, 0x6e53, 1, 1, 0x04D2, 0xFFFF]

/-- The dataset of the worked example: model 1 with the value Int16(1234) of
status Ok. -/
def sample_dataset : suns_dataset_t :=
  { did := { did := 1, model := model_one_int16 },
    values := [{ name := some "A", tp := { type := SUNS_INT16, sub_len := 0 },
                 meta := SUNS_VALUE_OK,
                 raw := [0x04, 0xD2] ++ List.replicate 14 0,
                 value := { bits := 1234, s := none } }] }

/-- The register space of the worked example with 0x0000 in the place of the
end marker, followed by the length 1, one register, the end marker and one
further readable register: the header read at 0x0000 succeeds, and a traversal
that took 0x0000 for an identifier would go on to the end marker. -/
def sample_space_zero : Int → Option Nat :=
  space_of 40001 [0x5375, 0x6e53, 1, 1, 0x04D2, 0, 1, 0x1111, 0xFFFF, 0]

/-- Modelled from the spec: the type `buffer_t` of the library `trx` (header
`trx/buffer.h`, not among the sources): the storage and the write position
`in`, counted in bytes from the start of the storage. -/
structure buffer_t where
  mem : List Byte
  in_ : Nat
  deriving DecidableEq, Repr

/-- Modelled from the spec: the macro `buffer_space` of the library `trx`: the
bytes of the storage that are free, from the write position to the end. -/
def buffer_space (buf : buffer_t) : Nat := buf.mem.length - buf.in_

/-- The function `suns_value_to_buffer`: the return code and the buffer after
the call. Without enough space it returns 0 and leaves the buffer alone;
otherwise it returns the code of `suns_value_to_buf` and adds `size` to the
write position whatever that code is. -/
def suns_value_to_buffer (buf : buffer_t) (v : suns_value_t) : Option (Int × buffer_t) :=
  let size := if v.tp.type = SUNS_STRING then v.tp.sub_len else suns_type_size v.tp.type
  if buffer_space buf < size then some (0, buf)
  else
    match suns_value_to_buf v (buf.mem.drop buf.in_) (buffer_space buf) with
    | none => none
    | some (rc, mem1) => some (rc, { mem := buf.mem.take buf.in_ ++ mem1, in_ := buf.in_ + size })

/-! ## Vocabulary of the codec statements -/

/-- The C string held by a block of bytes: the bytes before the first NUL. -/
def c_string (s : List Byte) : List Byte := s.takeWhile (fun b => b != 0)

/-- A string truncated to `n` bytes, or padded with zero bytes to `n` bytes. -/
def truncate_or_pad (s : List Byte) (n : Nat) : List Byte :=
  s.take n ++ List.replicate (n - s.length) 0

/-- The 16-bit-wide tags of `suns_value_to_buf`. -/
def is_16bit (t : suns_type_t) : Prop :=
  t = SUNS_INT16 ∨ t = SUNS_UINT16 ∨ t = SUNS_ACC16 ∨ t = SUNS_ENUM16 ∨
    t = SUNS_BITFIELD16 ∨ t = SUNS_SF

/-- The 32-bit-wide tags of `suns_value_to_buf`. -/
def is_32bit (t : suns_type_t) : Prop :=
  t = SUNS_INT32 ∨ t = SUNS_UINT32 ∨ t = SUNS_FLOAT32 ∨ t = SUNS_ACC32 ∨ t = SUNS_BITFIELD32

/-- The tags `suns_value_to_buf` has no case for. -/
def is_unsupported (t : suns_type_t) : Prop :=
  t = SUNS_NULL ∨ t = SUNS_UNDEF ∨ t = SUNS_INT64 ∨ t = SUNS_UINT64 ∨ t = SUNS_FLOAT64

instance (t : suns_type_t) : Decidable (is_16bit t) := by
  unfold is_16bit
  infer_instance

instance (t : suns_type_t) : Decidable (is_32bit t) := by
  unfold is_32bit
  infer_instance

instance (t : suns_type_t) : Decidable (is_unsupported t) := by
  unfold is_unsupported
  infer_instance

/-- The NaN bit patterns of IEEE 754 binary32 as the specification words them,
on the four bytes in wire order: all eight exponent bits set (the low seven
bits of the first byte and the top bit of the second) and a fraction that is
not zero (the low seven bits of the second byte, the third and the fourth
byte); the sign bit is free. -/
def nan_bytes (src : List Byte) : Prop :=
  (src.getD 0 0).val % 128 = 127 ∧ 128 ≤ (src.getD 1 0).val ∧
    ((src.getD 1 0).val % 128 ≠ 0 ∨ (src.getD 2 0).val ≠ 0 ∨ (src.getD 3 0).val ≠ 0)

instance (src : List Byte) : Decidable (nan_bytes src) := by
  unfold nan_bytes
  infer_instance

/-! # Theorems -/

theorem set_u16_u16 (u : suns_value_u) (x : Nat) : (u.set_u16 x).u16 = x % 65536 := by
  simp only [suns_value_u.set_u16, suns_value_u.u16]; omega

theorem set_u32_u32 (u : suns_value_u) (x : Nat) : (u.set_u32 x).u32 = x % 4294967296 := by
  simp only [suns_value_u.set_u32, suns_value_u.u32]; omega

theorem set_u16_mod (u : suns_value_u) (x : Nat) : u.set_u16 (x % 65536) = u.set_u16 x := by
  simp [suns_value_u.set_u16]

theorem set_u32_mod (u : suns_value_u) (x : Nat) :
    u.set_u32 (x % 4294967296) = u.set_u32 x := by
  simp [suns_value_u.set_u32]

theorem toInt16_mod (x : Nat) : toInt16 (x % 65536) = toInt16 x := by
  simp [toInt16]

theorem toInt32_mod (x : Nat) : toInt32 (x % 4294967296) = toInt32 x := by
  simp [toInt32]

theorem set_u16_i16 (u : suns_value_u) (x : Nat) : (u.set_u16 x).i16 = toInt16 x := by
  have h := set_u16_u16 u x
  simp only [suns_value_u.u16] at h
  simp only [suns_value_u.i16, toInt16, h]

theorem set_u32_i32 (u : suns_value_u) (x : Nat) : (u.set_u32 x).i32 = toInt32 x := by
  have h := set_u32_u32 u x
  simp only [suns_value_u.u32] at h
  simp only [suns_value_u.i32, toInt32, h]

theorem isnan_f32_mod (x : Nat) : isnan_f32 (x % 4294967296) = isnan_f32 x := by
  have h : x % 4294967296 % 8388608 = x % 8388608 := by omega
  simp [isnan_f32, h]

theorem be16toh_cons (a b : Byte) (l : List Byte) :
    be16toh (a :: b :: l) = a.val * 256 + b.val := by
  simp [be16toh, byteAt]

theorem be32toh_cons (a b c d : Byte) (l : List Byte) :
    be32toh (a :: b :: c :: d :: l) =
      a.val * 16777216 + b.val * 65536 + c.val * 256 + d.val := by
  simp [be32toh, byteAt]

/-- A non-string type never reaches `realloc`: `suns_buf_to_value` is defined on
every target. -/
theorem suns_buf_to_value_fixed (buf : List Byte) (tp : suns_type_pair_t)
    (v : suns_value_t) (h : tp.type ≠ SUNS_STRING) :
    suns_buf_to_value buf tp v = some (suns_buf_to_value_body buf tp v) := by
  unfold suns_buf_to_value
  split
  · rename_i e
    exact absurd e h
  · rfl

/-- A string is decoded into a target whose pointer is NULL or a block. -/
theorem suns_buf_to_value_string (buf : List Byte) (tp : suns_type_pair_t)
    (v : suns_value_t) (h : tp.type = SUNS_STRING) (hd : realloc_defined v) :
    suns_buf_to_value buf tp v = some (suns_buf_to_value_body buf tp v) := by
  unfold suns_buf_to_value
  rw [h]
  exact if_pos hd

/-- A string decoded into a target that holds a number: `realloc` gets the bits
of the number and the call does not return. -/
theorem suns_buf_to_value_string_fault (buf : List Byte) (tp : suns_type_pair_t)
    (v : suns_value_t) (h : tp.type = SUNS_STRING) (hd : ¬ realloc_defined v) :
    suns_buf_to_value buf tp v = none := by
  unfold suns_buf_to_value
  rw [h]
  exact if_neg hd

/-- The zeroed value the block decoder passes to `suns_buf_to_value` holds a
NULL pointer. -/
theorem realloc_defined_zeroed (name : Option String) :
    realloc_defined { suns_value_set_null suns_value_new with name := name } :=
  Or.inr ⟨rfl, rfl⟩

/-- On the zeroed value of the block decoder `suns_buf_to_value` is defined for
every type. -/
theorem suns_buf_to_value_zeroed (buf : List Byte) (tp : suns_type_pair_t)
    (name : Option String) :
    suns_buf_to_value buf tp { suns_value_set_null suns_value_new with name := name } =
      some (suns_buf_to_value_body buf tp
        { suns_value_set_null suns_value_new with name := name }) := by
  by_cases h : tp.type = SUNS_STRING
  · exact suns_buf_to_value_string buf tp _ h (realloc_defined_zeroed name)
  · exact suns_buf_to_value_fixed buf tp _ h

/-- The return code of the switch of `suns_buf_to_value` is 0 for every tag it
has a case for. -/
theorem suns_buf_to_value_body_rc (buf : List Byte) (tp : suns_type_pair_t)
    (v : suns_value_t) (h : ¬ is_unsupported tp.type) :
    (suns_buf_to_value_body buf tp v).1 = 0 := by
  obtain ⟨ty, n⟩ := tp
  cases ty <;> first
    | rfl
    | exact absurd (by simp [is_unsupported]) h

/-- The call of `suns_buf_to_value` is defined with return code 0: for every
supported tag but String on every target, for String on a target whose pointer
is NULL or a block. -/
theorem suns_buf_to_value_defined (buf : List Byte) (tp : suns_type_pair_t)
    (v : suns_value_t) (h : ¬ is_unsupported tp.type)
    (hd : tp.type = SUNS_STRING → realloc_defined v) :
    suns_buf_to_value buf tp v = some (0, (suns_buf_to_value_body buf tp v).2) := by
  have e : suns_buf_to_value buf tp v = some (suns_buf_to_value_body buf tp v) := by
    by_cases hs : tp.type = SUNS_STRING
    · exact suns_buf_to_value_string buf tp v hs (hd hs)
    · exact suns_buf_to_value_fixed buf tp v hs
  rw [e, ← suns_buf_to_value_body_rc buf tp v h]

theorem take2_eq (a b : Byte) (l : List Byte) (x y : Byte) :
    (a :: b :: l).take 2 = [x, y] ↔ a.val = x.val ∧ b.val = y.val := by
  simp [Fin.ext_iff]

theorem take4_eq (a b c d : Byte) (l : List Byte) (x y z w : Byte) :
    (a :: b :: c :: d :: l).take 4 = [x, y, z, w] ↔
      a.val = x.val ∧ b.val = y.val ∧ c.val = z.val ∧ d.val = w.val := by
  simp [Fin.ext_iff]

/-- The status the switch and the tail of `suns_buf_to_value` leave, for every
type with return code 0 and every source of at least the wire size, with the
test of Float32 as the macro `isnan` on the decoded pattern. -/
theorem sentinel_on_decode_body (src : List Byte) (tp : suns_type_pair_t) (w : suns_value_t)
    (hsup : (suns_buf_to_value_body src tp w).1 = 0)
    (hlen : suns_type_pair_size tp ≤ src.length) :
    ((suns_buf_to_value_body src tp w).2.meta = SUNS_VALUE_NOT_IMPLEMENTED ↔
      (((tp.type = SUNS_INT16 ∨ tp.type = SUNS_SF) ∧ src.take 2 = [0x80, 0x00]) ∨
       (tp.type = SUNS_UINT16 ∧ src.take 2 = [0xFF, 0xFF]) ∨
       (tp.type = SUNS_INT32 ∧ src.take 4 = [0x80, 0x00, 0x00, 0x00]) ∨
       (tp.type = SUNS_UINT32 ∧ src.take 4 = [0xFF, 0xFF, 0xFF, 0xFF]) ∨
       (tp.type = SUNS_FLOAT32 ∧ isnan_f32 (be32toh src) = true))) ∧
    ((suns_buf_to_value_body src tp w).2.meta ≠ SUNS_VALUE_NOT_IMPLEMENTED →
      (suns_buf_to_value_body src tp w).2.meta = SUNS_VALUE_OK) := by
  obtain ⟨ty, n⟩ := tp
  cases ty
  case SUNS_NULL | SUNS_UNDEF | SUNS_INT64 | SUNS_UINT64 | SUNS_FLOAT64 =>
    simp [suns_buf_to_value_body] at hsup
  case SUNS_STRING =>
    simp [suns_buf_to_value_body, suns_buf_to_value_finish, not_implemented]
  case SUNS_INT16 | SUNS_UINT16 | SUNS_ACC16 | SUNS_ENUM16 | SUNS_BITFIELD16 | SUNS_SF =>
    simp only [suns_type_pair_size, suns_type_size] at hlen
    match src, hlen with
    | a :: b :: l, _ =>
      have ha := a.isLt
      have hb := b.isLt
      simp only [suns_buf_to_value_body, suns_buf_to_value_finish, not_implemented, set_u16_i16,
        set_u16_u16, be16toh_cons, take2_eq, toInt16]
      simp
      try omega
  case SUNS_INT32 | SUNS_UINT32 | SUNS_ACC32 | SUNS_BITFIELD32 | SUNS_FLOAT32 =>
    simp only [suns_type_pair_size, suns_type_size] at hlen
    match src, hlen with
    | a :: b :: c :: d :: l, _ =>
      have ha := a.isLt
      have hb := b.isLt
      have hc := c.isLt
      have hd := d.isLt
      simp only [suns_buf_to_value_body, suns_buf_to_value_finish, not_implemented, set_u32_i32,
        set_u32_u32, be32toh_cons, take4_eq, toInt32, toUInt32, isnan_f32_mod]
      simp
      try omega

theorem strncpy_length (src : List Byte) (n : Nat) : (strncpy src n).length = n := by
  have h : ((src.take n).takeWhile (fun b => b != 0)).length ≤ n :=
    le_trans (List.takeWhile_prefix _).length_le (by simp)
  simp only [strncpy, List.length_append, List.length_replicate]
  omega

theorem strncpy_takeWhile (src : List Byte) (n : Nat) :
    (strncpy src n).takeWhile (fun b => b != 0) = (src.take n).takeWhile (fun b => b != 0) := by
  simp only [strncpy]
  rw [List.takeWhile_append_of_pos]
  · cases h : n - ((src.take n).takeWhile (fun b => b != 0)).length with
    | zero => simp
    | succ k => simp [List.replicate_succ]
  · intro a ha
    exact @List.mem_takeWhile_imp _ (fun b => b != 0) _ a ha

theorem strncpy_idem (src rest : List Byte) (n : Nat) :
    strncpy (strncpy src n ++ rest) n = strncpy src n := by
  have h : (strncpy src n ++ rest).take n = strncpy src n := by
    rw [List.take_append_of_le_length (by rw [strncpy_length])]
    exact List.take_of_length_le (by rw [strncpy_length])
  show (((strncpy src n ++ rest).take n).takeWhile (fun b => b != 0)) ++ _ = _
  rw [h, strncpy_takeWhile]
  rfl

theorem toByte_val (n : Nat) : (toByte n).val = n % 256 := rfl

theorem be16toh_store (x : Nat) (buf : List Byte) :
    be16toh (store (htobe16 x) buf) = x % 65536 := by
  simp only [store, htobe16, List.cons_append, List.nil_append, be16toh_cons, toByte_val]
  omega

theorem be32toh_store (x : Nat) (buf : List Byte) :
    be32toh (store (htobe32 x) buf) = x % 4294967296 := by
  simp only [store, htobe32, List.cons_append, List.nil_append, be32toh_cons, toByte_val]
  omega

theorem raw16_store (bs : List Byte) (buf raw : List Byte) (h : bs.length = 2) :
    ((List.range 2).map (fun i => (store bs buf).getD i 0) ++ raw.drop 2).take 2 =
      (store bs buf).take 2 := by
  match bs, h with
  | [a, b], _ => simp [store, List.range_succ]

theorem raw32_store (bs : List Byte) (buf raw : List Byte) (h : bs.length = 4) :
    ((List.range 4).map (fun i => (store bs buf).getD i 0) ++ raw.drop 4).take 4 =
      (store bs buf).take 4 := by
  match bs, h with
  | [a, b, c, d], _ => simp [store, List.range_succ]

theorem round_trip_16 (v w : suns_value_t) (buf : List Byte) (len : Nat)
    (h16 : v.tp.type = SUNS_INT16 ∨ v.tp.type = SUNS_UINT16 ∨ v.tp.type = SUNS_ACC16 ∨
      v.tp.type = SUNS_ENUM16 ∨ v.tp.type = SUNS_BITFIELD16 ∨ v.tp.type = SUNS_SF)
    (hm : v.meta = if not_implemented v.tp v.value then SUNS_VALUE_NOT_IMPLEMENTED
      else SUNS_VALUE_OK) :
    ∃ out, suns_value_to_buf v buf len = some (0, out) ∧
      (suns_buf_to_value_body out v.tp w).1 = 0 ∧
      (suns_buf_to_value_body out v.tp w).2.tp = v.tp ∧
      fixed_payload (suns_buf_to_value_body out v.tp w).2 = fixed_payload v ∧
      (suns_buf_to_value_body out v.tp w).2.meta = v.meta ∧
      (suns_buf_to_value_body out v.tp w).2.raw.take (suns_type_size v.tp.type) =
        out.take (suns_type_size v.tp.type) := by
  refine ⟨store (htobe16 v.value.u16) buf, ?_⟩
  have hni : ∀ u : suns_value_u, not_implemented v.tp (u.set_u16 v.value.u16) ↔
      not_implemented v.tp v.value := by
    intro u
    rcases h16 with h | h | h | h | h | h <;>
      simp only [not_implemented, h, set_u16_i16, set_u16_u16] <;>
      simp [suns_value_u.i16, suns_value_u.u16, toInt16_mod]
  have hmin : min 16 2 = 2 := rfl
  have hpay : ∀ u : suns_value_u, (u.set_u16 v.value.u16).bits % 256 ^ 2 =
      v.value.bits % 256 ^ 2 := by
    intro u
    have e : (256 : Nat) ^ 2 = 65536 := by norm_num
    rw [e]
    simp only [suns_value_u.set_u16, suns_value_u.u16]
    omega
  rcases h16 with h | h | h | h | h | h <;>
    simp only [suns_value_to_buf, suns_buf_to_value_body, suns_buf_to_value_finish, h, hm,
      be16toh_store, fixed_payload, suns_type_size, set_u16_mod, hni, hmin, hpay,
      raw16_store _ _ _ (rfl : (htobe16 _).length = 2), and_self]

theorem round_trip_32 (v w : suns_value_t) (buf : List Byte) (len : Nat)
    (h32 : v.tp.type = SUNS_INT32 ∨ v.tp.type = SUNS_UINT32 ∨ v.tp.type = SUNS_ACC32 ∨
      v.tp.type = SUNS_BITFIELD32 ∨ v.tp.type = SUNS_FLOAT32)
    (hm : v.meta = if not_implemented v.tp v.value then SUNS_VALUE_NOT_IMPLEMENTED
      else SUNS_VALUE_OK) :
    ∃ out, suns_value_to_buf v buf len = some (0, out) ∧
      (suns_buf_to_value_body out v.tp w).1 = 0 ∧
      (suns_buf_to_value_body out v.tp w).2.tp = v.tp ∧
      fixed_payload (suns_buf_to_value_body out v.tp w).2 = fixed_payload v ∧
      (suns_buf_to_value_body out v.tp w).2.meta = v.meta ∧
      (suns_buf_to_value_body out v.tp w).2.raw.take (suns_type_size v.tp.type) =
        out.take (suns_type_size v.tp.type) := by
  refine ⟨store (htobe32 v.value.u32) buf, ?_⟩
  have hni : ∀ u : suns_value_u, not_implemented v.tp (u.set_u32 v.value.u32) ↔
      not_implemented v.tp v.value := by
    intro u
    rcases h32 with h | h | h | h | h <;>
      simp only [not_implemented, h, set_u32_i32, set_u32_u32] <;>
      simp [suns_value_u.i32, suns_value_u.u32, toInt32_mod, isnan_f32_mod]
  have hmin : min 16 4 = 4 := rfl
  have hpay : ∀ u : suns_value_u, (u.set_u32 v.value.u32).bits % 256 ^ 4 =
      v.value.bits % 256 ^ 4 := by
    intro u
    have e : (256 : Nat) ^ 4 = 4294967296 := by norm_num
    rw [e]
    simp only [suns_value_u.set_u32, suns_value_u.u32]
    omega
  rcases h32 with h | h | h | h | h <;>
    simp only [suns_value_to_buf, suns_buf_to_value_body, suns_buf_to_value_finish, h, hm,
      be32toh_store, fixed_payload, suns_type_size, set_u32_mod, hni, hmin, hpay,
      raw32_store _ _ _ (rfl : (htobe32 _).length = 4), and_self]

theorem toInt16_toUInt16 (i : Int) (h1 : -32768 ≤ i) (h2 : i ≤ 32767) :
    toInt16 (toUInt16 i) = i := by
  simp only [toInt16, toUInt16]
  split <;> omega

theorem toInt32_toUInt32 (i : Int) (h1 : -2147483648 ≤ i) (h2 : i ≤ 2147483647) :
    toInt32 (toUInt32 i) = i := by
  simp only [toInt32, toUInt32]
  split <;> omega

theorem in_range_fixed_cases (v : suns_value_t) (hv : in_range_fixed v) :
    ((v.tp.type = SUNS_INT16 ∨ v.tp.type = SUNS_UINT16 ∨ v.tp.type = SUNS_ACC16 ∨
        v.tp.type = SUNS_ENUM16 ∨ v.tp.type = SUNS_BITFIELD16 ∨ v.tp.type = SUNS_SF) ∨
      (v.tp.type = SUNS_INT32 ∨ v.tp.type = SUNS_UINT32 ∨ v.tp.type = SUNS_ACC32 ∨
        v.tp.type = SUNS_BITFIELD32 ∨ v.tp.type = SUNS_FLOAT32)) ∧
    v.meta = (if not_implemented v.tp v.value then SUNS_VALUE_NOT_IMPLEMENTED
      else SUNS_VALUE_OK) := by
  cases hv with
  | int16 v0 i h1 h2 =>
    simp [suns_value_set_int16, not_implemented, set_u16_i16, toInt16_toUInt16 i h1 h2]
  | uint16 v0 x h =>
    simp [suns_value_set_uint16, not_implemented, set_u16_u16, Nat.mod_eq_of_lt h]
  | acc16 v0 x h => simp [suns_value_set_acc16, not_implemented]
  | enum16 v0 x h => simp [suns_value_set_enum16, not_implemented]
  | bitfield16 v0 x h => simp [suns_value_set_bitfield16, not_implemented]
  | sunssf v0 x h hne =>
    have : toInt16 x ≠ -32768 := by
      simp only [toInt16]
      split <;> omega
    simp [suns_value_set_sunssf, not_implemented, set_u16_i16, this]
  | int32 v0 i h1 h2 =>
    simp [suns_value_set_int32, not_implemented, set_u32_i32, toInt32_toUInt32 i h1 h2]
  | uint32 v0 x h =>
    have : toUInt32 (toInt32 x) = x := by
      simp only [toInt32, toUInt32]
      split <;> omega
    simp [suns_value_set_uint32, not_implemented, set_u32_i32, this]
  | acc32 v0 x h => simp [suns_value_set_acc32, not_implemented]
  | bitfield32 v0 x h => simp [suns_value_set_bitfield32, not_implemented]
  | float32 v0 x h =>
    simp [suns_value_set_float32, not_implemented, set_u32_u32, isnan_f32_mod]

/-- The round trip through `suns_value_to_buf` and the switch and tail of
`suns_buf_to_value`, for the fixed-width values and for the strings. -/
theorem round_trip_body (v : suns_value_t) (hv : in_range_fixed v)
    (buf : List Byte) (len : Nat) (w : suns_value_t)
    (v0 : suns_value_t) (str : List Byte) (n : Nat) :
    (∃ out, suns_value_to_buf v buf len = some (0, out) ∧
      (suns_buf_to_value_body out v.tp w).1 = 0 ∧
      (suns_buf_to_value_body out v.tp w).2.tp = v.tp ∧
      fixed_payload (suns_buf_to_value_body out v.tp w).2 = fixed_payload v ∧
      (suns_buf_to_value_body out v.tp w).2.meta = v.meta ∧
      (suns_buf_to_value_body out v.tp w).2.raw.take (suns_type_size v.tp.type) =
        out.take (suns_type_size v.tp.type)) ∧
    (∃ out, suns_value_to_buf (suns_value_set_string v0 str n) buf len = some (0, out) ∧
      out.take n = strncpy str n ∧
      (suns_buf_to_value_body out (suns_value_set_string v0 str n).tp w).1 = 0 ∧
      (suns_buf_to_value_body out (suns_value_set_string v0 str n).tp w).2.tp =
        (suns_value_set_string v0 str n).tp ∧
      (suns_buf_to_value_body out (suns_value_set_string v0 str n).tp w).2.value.s =
        some (strncpy str n ++ [0]) ∧
      (suns_value_set_string v0 str n).value.s.map (List.take n) =
        some (strncpy str n)) := by
  constructor
  · obtain ⟨ht, hm⟩ := in_range_fixed_cases v hv
    rcases ht with h16 | h32
    · exact round_trip_16 v w buf len h16 hm
    · exact round_trip_32 v w buf len h32 hm
  · refine ⟨store (strncpy str n) buf, ?_⟩
    have hl := strncpy_length str n
    have hidem : ∀ rest, strncpy (store (strncpy str n) rest) n = strncpy str n := by
      intro rest
      simp only [store]
      exact strncpy_idem _ _ _
    have htake : ∀ rest, (store (strncpy str n) rest).take n = strncpy str n := by
      intro rest
      simp only [store]
      rw [List.take_append_of_le_length (by rw [hl])]
      exact List.take_of_length_le (by rw [hl])
    simp [suns_value_to_buf, suns_value_set_string, suns_buf_to_value_body,
      suns_buf_to_value_finish, hidem, htake]

/-- The tags of the fixed-width values are not the string tag. -/
theorem in_range_fixed_not_string (v : suns_value_t) (hv : in_range_fixed v) :
    ¬ is_unsupported v.tp.type ∧ v.tp.type ≠ SUNS_STRING := by
  rcases (in_range_fixed_cases v hv).1 with (h | h | h | h | h | h) | (h | h | h | h | h) <;>
    rw [h] <;> decide

/-- A fresh Value holds a NULL pointer. -/
theorem realloc_defined_new : realloc_defined suns_value_new :=
  Or.inr ⟨rfl, rfl⟩

/-- A Value left by `suns_value_set_string` holds a block. -/
theorem realloc_defined_set_string (v : suns_value_t) (string : List Byte) (len : Nat) :
    realloc_defined (suns_value_set_string v string len) :=
  Or.inl ⟨rfl, by simp [suns_value_set_string]⟩

/-- A Value into which `suns_buf_to_value` has decoded a string holds a block. -/
theorem realloc_defined_decoded (buf : List Byte) (tp : suns_type_pair_t)
    (v r : suns_value_t) (rc : Int) (ht : tp.type = SUNS_STRING)
    (h : suns_buf_to_value buf tp v = some (rc, r)) : realloc_defined r := by
  by_cases hd : realloc_defined v
  · rw [suns_buf_to_value_string buf tp v ht hd] at h
    have e : r = (suns_buf_to_value_body buf tp v).2 := by
      have := congrArg (fun o : Option (Int × suns_value_t) => o.map Prod.snd) h
      simpa using this.symm
    rw [e]
    refine Or.inl ?_
    simp [suns_buf_to_value_body, ht, suns_buf_to_value_finish]
  · rw [suns_buf_to_value_string_fault buf tp v ht hd] at h
    exact Option.noConfusion h

/-- A string decoded into the Value `suns_value_set_uint16` has left with the
number 5: the pointer handed to `realloc` is the number, the call does not
return. Into the same Value a 16-bit type is decoded with return code 0. -/
theorem suns_buf_to_value_number_target :
    suns_buf_to_value [97, 98] { type := SUNS_STRING, sub_len := 2 }
      (suns_value_set_uint16 suns_value_new 5) = none ∧
    (suns_buf_to_value [97, 98] { type := SUNS_UINT16, sub_len := 0 }
      (suns_value_set_uint16 suns_value_new 5)).map Prod.fst = some 0 := by
  decide

/-- C1 (amended). Round trip of the codec. For every value `v` of a 16- or
32-bit tag built by its setter with an in-range argument (scale factor: any
pattern but 0x8000) and every target `w`, `suns_value_to_buf` succeeds and
`suns_buf_to_value` on the written bytes returns 0 with the same TypeSpec,
payload and status, and raw bytes equal to the encoded bytes. For every value
built by `suns_value_set_string`, encoding succeeds and writes the `n`
declared bytes, and decoding them into a target `ws` whose pointer is NULL or
a block (a fresh Value, or one that holds a string) returns 0 with the same
TypeSpec and a host string made of the same `n` bytes followed by NUL. -/
theorem C1_round_trip (v : suns_value_t) (hv : in_range_fixed v)
    (buf : List Byte) (len : Nat) (w : suns_value_t)
    (v0 : suns_value_t) (str : List Byte) (n : Nat)
    (ws : suns_value_t) (hws : realloc_defined ws) :
    (∃ out r, suns_value_to_buf v buf len = some (0, out) ∧
      suns_buf_to_value out v.tp w = some (0, r) ∧
      r.tp = v.tp ∧
      fixed_payload r = fixed_payload v ∧
      r.meta = v.meta ∧
      r.raw.take (suns_type_size v.tp.type) = out.take (suns_type_size v.tp.type)) ∧
    (∃ out r, suns_value_to_buf (suns_value_set_string v0 str n) buf len = some (0, out) ∧
      out.take n = strncpy str n ∧
      suns_buf_to_value out (suns_value_set_string v0 str n).tp ws = some (0, r) ∧
      r.tp = (suns_value_set_string v0 str n).tp ∧
      r.value.s = some (strncpy str n ++ [0]) ∧
      (suns_value_set_string v0 str n).value.s.map (List.take n) =
        some (strncpy str n)) := by
  obtain ⟨⟨out, h1, _, h3, h4, h5, h6⟩, _⟩ := round_trip_body v hv buf len w v0 str n
  obtain ⟨_, ⟨outs, g1, g2, _, g4, g5, g6⟩⟩ := round_trip_body v hv buf len ws v0 str n
  have hns := in_range_fixed_not_string v hv
  refine ⟨⟨out, _, h1, suns_buf_to_value_defined out v.tp w hns.1
      (fun e => absurd e hns.2), h3, h4, h5, h6⟩,
    ⟨outs, _, g1, g2, suns_buf_to_value_defined outs _ ws (by simp [suns_value_set_string,
      is_unsupported]) (fun _ => hws), g4, g5, g6⟩⟩

/-- C1, witness: Int16(1234) built on a fresh value, encoded into a 2-byte
buffer and decoded into a fresh value, together with the string "ab" decoded
into a fresh value. -/
theorem C1_round_trip_witness :
    in_range_fixed (suns_value_set_int16 suns_value_new 1234) ∧
    realloc_defined suns_value_new ∧
    (∃ r, suns_value_to_buf (suns_value_set_int16 suns_value_new 1234) [0, 0] 2 =
        some (0, [0x04, 0xD2]) ∧
      suns_buf_to_value [0x04, 0xD2] (suns_value_set_int16 suns_value_new 1234).tp
        suns_value_new = some (0, r) ∧
      r.meta = SUNS_VALUE_OK ∧ fixed_payload r = 1234) ∧
    (∃ r, suns_value_to_buf (suns_value_set_string suns_value_new [97, 98] 2) [0, 0] 2 =
        some (0, [97, 98]) ∧
      suns_buf_to_value [97, 98] (suns_value_set_string suns_value_new [97, 98] 2).tp
        suns_value_new = some (0, r) ∧
      r.value.s = some [97, 98, 0]) := by
  have hv : in_range_fixed (suns_value_set_int16 suns_value_new 1234) :=
    in_range_fixed.int16 suns_value_new 1234 (by decide) (by decide)
  obtain ⟨⟨out, r, h1, h2, _, h4, h5, _⟩, ⟨outs, rs, g1, _, g3, _, g5, _⟩⟩ :=
    C1_round_trip _ hv [0, 0] 2 suns_value_new suns_value_new [97, 98] 2
      suns_value_new realloc_defined_new
  have hout : out = [0x04, 0xD2] := by
    have e : suns_value_to_buf (suns_value_set_int16 suns_value_new 1234) [0, 0] 2 =
        some (0, [0x04, 0xD2]) := by decide
    rw [e] at h1
    simpa using h1.symm
  have houts : outs = [97, 98] := by
    have e : suns_value_to_buf (suns_value_set_string suns_value_new [97, 98] 2) [0, 0] 2 =
        some (0, [97, 98]) := by decide
    rw [e] at g1
    simpa using g1.symm
  subst hout
  subst houts
  exact ⟨hv, realloc_defined_new, ⟨r, h1, h2, h5.trans (by decide), h4.trans (by decide)⟩,
    ⟨rs, g1, g3, g5.trans (by decide)⟩⟩

/-- C1, counterexample. An Int64 value is not encoded (return code -2, nothing
written); the scale factor 0x8000 is Ok after its setter and NotImplemented
after the round trip; a string built on a fresh value has status Null before
and Ok after the round trip, and its bytes are not retained in `raw`. -/
theorem C1_counterexample :
    suns_value_to_buf { suns_value_new with tp := { type := SUNS_INT64, sub_len := 0 } }
        (List.replicate 8 0) 8 = some (-2, List.replicate 8 0) ∧
    (suns_value_to_buf (suns_value_set_sunssf suns_value_new 0x8000) [0, 0] 2 =
        some (0, [0x80, 0x00]) ∧
      (suns_value_set_sunssf suns_value_new 0x8000).meta = SUNS_VALUE_OK ∧
      (suns_buf_to_value [0x80, 0x00] (suns_value_set_sunssf suns_value_new 0x8000).tp
        suns_value_new).map (fun r => r.2.meta) = some SUNS_VALUE_NOT_IMPLEMENTED) ∧
    (suns_value_to_buf (suns_value_set_string suns_value_new [97, 98] 2) [0, 0] 2 =
        some (0, [97, 98]) ∧
      (suns_value_set_string suns_value_new [97, 98] 2).meta = SUNS_VALUE_NULL ∧
      (suns_buf_to_value [97, 98] (suns_value_set_string suns_value_new [97, 98] 2).tp
        suns_value_new).map (fun r => (r.2.meta, r.2.raw.take 2)) =
          some (SUNS_VALUE_OK, [0, 0])) := by
  decide

/-- The macro `isnan` on the decoded member `f32` holds exactly for the four
bytes of `nan_bytes`. -/
theorem isnan_f32_be32toh (src : List Byte) :
    isnan_f32 (be32toh src) = true ↔ nan_bytes src := by
  have h0 := (src.getD 0 0).isLt
  have h1 := (src.getD 1 0).isLt
  have h2 := (src.getD 2 0).isLt
  have h3 := (src.getD 3 0).isLt
  simp only [isnan_f32, be32toh, byteAt, nan_bytes, Bool.and_eq_true, beq_iff_eq,
    bne_iff_ne, ne_eq]
  omega

/-- C2. Sentinel detection on decode. For every TypeSpec `suns_buf_to_value`
has a case for, every source of at least the wire size and every target (for
a String TypeSpec: every target whose pointer is NULL or a block, as that of a
fresh Value), the call returns 0 and the decoded status is NotImplemented
exactly for the five sentinel patterns, the NaN patterns of Float32 being the
four bytes with all exponent bits set and a non-zero fraction, and Ok in
every other case. -/
theorem C2_sentinel_on_decode (src : List Byte) (tp : suns_type_pair_t) (w : suns_value_t)
    (hsup : ¬ is_unsupported tp.type)
    (htarget : tp.type = SUNS_STRING → realloc_defined w)
    (hlen : suns_type_pair_size tp ≤ src.length) :
    ∃ r, suns_buf_to_value src tp w = some (0, r) ∧
      (r.meta = SUNS_VALUE_NOT_IMPLEMENTED ↔
        (((tp.type = SUNS_INT16 ∨ tp.type = SUNS_SF) ∧ src.take 2 = [0x80, 0x00]) ∨
         (tp.type = SUNS_UINT16 ∧ src.take 2 = [0xFF, 0xFF]) ∨
         (tp.type = SUNS_INT32 ∧ src.take 4 = [0x80, 0x00, 0x00, 0x00]) ∨
         (tp.type = SUNS_UINT32 ∧ src.take 4 = [0xFF, 0xFF, 0xFF, 0xFF]) ∨
         (tp.type = SUNS_FLOAT32 ∧ nan_bytes src))) ∧
      (r.meta ≠ SUNS_VALUE_NOT_IMPLEMENTED → r.meta = SUNS_VALUE_OK) := by
  have hb := sentinel_on_decode_body src tp w (suns_buf_to_value_body_rc src tp w hsup) hlen
  rw [isnan_f32_be32toh] at hb
  exact ⟨_, suns_buf_to_value_defined src tp w hsup htarget, hb⟩

/-- C2, witness: decoded into a fresh Value, the quiet NaN 7F C0 00 00 and the
signalling NaN FF 80 00 01 as Float32 are NotImplemented, the infinity
7F 80 00 00 as Float32 is Ok, 80 00 as Int16 is NotImplemented, and FF FF as
Acc16 is Ok. -/
theorem C2_sentinel_on_decode_witness :
    (∃ r, suns_buf_to_value [0x7F, 0xC0, 0x00, 0x00] { type := SUNS_FLOAT32, sub_len := 0 }
        suns_value_new = some (0, r) ∧ r.meta = SUNS_VALUE_NOT_IMPLEMENTED) ∧
    (∃ r, suns_buf_to_value [0xFF, 0x80, 0x00, 0x01] { type := SUNS_FLOAT32, sub_len := 0 }
        suns_value_new = some (0, r) ∧ r.meta = SUNS_VALUE_NOT_IMPLEMENTED) ∧
    (∃ r, suns_buf_to_value [0x7F, 0x80, 0x00, 0x00] { type := SUNS_FLOAT32, sub_len := 0 }
        suns_value_new = some (0, r) ∧ r.meta = SUNS_VALUE_OK) ∧
    (∃ r, suns_buf_to_value [0x80, 0x00] { type := SUNS_INT16, sub_len := 0 }
        suns_value_new = some (0, r) ∧ r.meta = SUNS_VALUE_NOT_IMPLEMENTED) ∧
    (∃ r, suns_buf_to_value [0xFF, 0xFF] { type := SUNS_ACC16, sub_len := 0 }
        suns_value_new = some (0, r) ∧ r.meta = SUNS_VALUE_OK) := by
  refine ⟨?_, ?_, ?_, ?_, ?_⟩
  · obtain ⟨r, h, hiff, _⟩ := C2_sentinel_on_decode [0x7F, 0xC0, 0x00, 0x00]
      { type := SUNS_FLOAT32, sub_len := 0 } suns_value_new (by decide) (by decide) (by decide)
    exact ⟨r, h, hiff.mpr (by decide)⟩
  · obtain ⟨r, h, hiff, _⟩ := C2_sentinel_on_decode [0xFF, 0x80, 0x00, 0x01]
      { type := SUNS_FLOAT32, sub_len := 0 } suns_value_new (by decide) (by decide) (by decide)
    exact ⟨r, h, hiff.mpr (by decide)⟩
  · obtain ⟨r, h, hiff, hok⟩ := C2_sentinel_on_decode [0x7F, 0x80, 0x00, 0x00]
      { type := SUNS_FLOAT32, sub_len := 0 } suns_value_new (by decide) (by decide) (by decide)
    exact ⟨r, h, hok (fun hn => absurd (hiff.mp hn) (by decide))⟩
  · obtain ⟨r, h, hiff, _⟩ := C2_sentinel_on_decode [0x80, 0x00]
      { type := SUNS_INT16, sub_len := 0 } suns_value_new (by decide) (by decide) (by decide)
    exact ⟨r, h, hiff.mpr (by decide)⟩
  · obtain ⟨r, h, hiff, hok⟩ := C2_sentinel_on_decode [0xFF, 0xFF]
      { type := SUNS_ACC16, sub_len := 0 } suns_value_new (by decide) (by decide) (by decide)
    exact ⟨r, h, hok (fun hn => absurd (hiff.mp hn) (by decide))⟩

/-! ## Offset resolver -/

theorem dp_advance_eq_reg_size (tp : suns_type_pair_t) : dp_advance tp = reg_size tp := by
  obtain ⟨ty, n⟩ := tp
  cases ty <;> simp [dp_advance, reg_size, suns_type_pair_size, suns_type_size]
  split <;> omega

theorem fill_dp_list_length (o : Int) (dps : List suns_dp_t) (d : Int) :
    (fill_dp_list o dps d).1.length = dps.length := by
  induction dps generalizing d with
  | nil => rfl
  | cons dp rest ih => simp [fill_dp_list, ih]

theorem fill_dp_list_counter (o : Int) (dps : List suns_dp_t) (d : Int) :
    o + (fill_dp_list o dps d).2.1 = run_counter (o + d) dps := by
  induction dps generalizing d with
  | nil => rfl
  | cons dp rest ih =>
    simp only [fill_dp_list, run_counter, dp_advance_eq_reg_size]
    rw [ih]
    congr 1
    split <;> omega

theorem run_counter_implied (c : Int) (dps : List suns_dp_t)
    (h : ∀ dp ∈ dps, no_explicit_offset dp) :
    run_counter c dps = c + (dps.map (fun dp => reg_size dp.type_pair)).sum := by
  induction dps generalizing c with
  | nil => simp [run_counter]
  | cons dp rest ih =>
    have hdp : ¬ (dp.offset > 0) := h dp (List.mem_cons_self _ _)
    simp only [run_counter, if_neg hdp, List.map_cons, List.sum_cons]
    rw [ih _ (fun x hx => h x (List.mem_cons_of_mem _ hx))]
    omega

theorem fill_dp_list_offsets (o : Int) (dps : List suns_dp_t) (d : Int)
    (h : ∀ dp ∈ dps, no_explicit_offset dp) (i : Nat) (dp : suns_dp_t)
    (hi : dps[i]? = some dp) :
    (fill_dp_list o dps d).1[i]? =
      some { dp with
        offset := o + d + ((dps.take i).map (fun x => reg_size x.type_pair)).sum } := by
  induction dps generalizing d i with
  | nil => simp at hi
  | cons x rest ih =>
    have hx : ¬ (x.offset > 0) := h x (List.mem_cons_self _ _)
    cases i with
    | zero =>
      simp only [List.getElem?_cons_zero, Option.some.injEq] at hi
      subst hi
      simp [fill_dp_list, hx]
    | succ k =>
      simp only [List.getElem?_cons_succ] at hi
      simp only [fill_dp_list, if_neg hx, List.getElem?_cons_succ, List.take_succ_cons,
        List.map_cons, List.sum_cons]
      rw [ih _ (fun y hy => h y (List.mem_cons_of_mem _ hy)) k hi, dp_advance_eq_reg_size]
      congr 2
      omega

/-- The block produced by `suns_model_fill_offsets` for one block. -/
theorem fill_blocks_map (o : Int) (bs : List suns_dp_block_t) (bl l : Int) :
    (fill_blocks o bs bl l).1 =
      bs.map (fun b => { b with dp_list := (fill_dp_list o b.dp_list 0).1,
                                len := (fill_dp_list o b.dp_list 0).2.1 }) := by
  induction bs generalizing bl l with
  | nil => rfl
  | cons b rest ih => simp [fill_blocks, ih]

theorem fill_blocks_len (o : Int) (bs : List suns_dp_block_t) (bl l : Int) :
    (fill_blocks o bs bl l).2.2.1 =
      l + ((fill_blocks o bs bl l).1.map (fun b => b.len)).sum := by
  induction bs generalizing bl l with
  | nil => simp [fill_blocks]
  | cons b rest ih =>
    simp only [fill_blocks, List.map_cons, List.sum_cons]
    rw [ih]
    omega

theorem fill_blocks_base_len (o : Int) (bs : List suns_dp_block_t) (bl l : Int) :
    (fill_blocks o bs bl l).2.1 =
      bl + (((fill_blocks o bs bl l).1.filter (fun b => !b.repeating)).map
        (fun b => b.len)).sum := by
  induction bs generalizing bl l with
  | nil => simp [fill_blocks]
  | cons b rest ih =>
    simp only [fill_blocks]
    rw [ih]
    cases hb : b.repeating <;> simp [List.filter_cons, hb, fill_blocks_map]
    omega

theorem reg_size_nonneg (tp : suns_type_pair_t) : 0 ≤ reg_size tp := by
  simp only [reg_size]
  omega

theorem reg_total_nonneg (dps : List suns_dp_t) : 0 ≤ reg_total dps := by
  apply List.sum_nonneg
  intro x hx
  obtain ⟨dp, _, rfl⟩ := List.mem_map.mp hx
  exact reg_size_nonneg _

theorem fill_dp_list_implied (o : Int) (dps : List suns_dp_t)
    (h : ∀ dp ∈ dps, no_explicit_offset dp) :
    (fill_dp_list o dps 0).1 = with_implied_offsets o dps := by
  apply List.ext_getElem?
  intro i
  cases hi : dps[i]? with
  | none =>
    have h1 : dps.length ≤ i := List.getElem?_eq_none_iff.mp hi
    rw [List.getElem?_eq_none_iff.mpr (by rw [fill_dp_list_length]; exact h1)]
    simp [with_implied_offsets, List.getElem?_enum, hi]
  | some dp =>
    rw [fill_dp_list_offsets o dps 0 h i dp hi]
    simp [with_implied_offsets, List.getElem?_enum, hi]

theorem fill_dp_list_total (o : Int) (dps : List suns_dp_t)
    (h : ∀ dp ∈ dps, no_explicit_offset dp) :
    (fill_dp_list o dps 0).2.1 = reg_total dps := by
  have h1 := fill_dp_list_counter o dps 0
  rw [run_counter_implied _ _ h] at h1
  simp only [reg_total]
  omega

/-- C6. Offset resolution of a single block. For a freshly constructed model
with one non-repeating block whose datapoints carry no explicit offset,
`suns_model_fill_offsets` gives datapoint `i` the offset 3 plus the register
sizes `ceil(bytes / 2)` of datapoints `0 .. i-1`, and sets the block length,
`base_len` and `len` to the sum of all register sizes. -/
theorem C6_single_block_offsets (dps : List suns_dp_t) (len0 : Int)
    (h : ∀ dp ∈ dps, no_explicit_offset dp) :
    (suns_model_fill_offsets
      { suns_model_new with
        dp_blocks := [{ dp_list := dps, repeating := false, len := len0 }] }).1 =
      { dp_blocks := [{ dp_list := with_implied_offsets 3 dps, repeating := false,
                        len := reg_total dps }],
        base_len := reg_total dps,
        len := reg_total dps } := by
  have hnn := reg_total_nonneg dps
  simp only [suns_model_fill_offsets, suns_model_new, fill_blocks, fill_dp_list_implied 3 dps h,
    fill_dp_list_total 3 dps h, Bool.false_eq_true, false_and, if_false, zero_add]
  congr 1
  split <;> omega

/-- C6, witness: datapoints of 2, 4 and 2 bytes get the offsets 3, 4 and 6, and
`base_len = len = 4`. -/
theorem C6_single_block_offsets_witness :
    (∀ dp ∈ [dp_of "A" SUNS_INT16, dp_of "B" SUNS_UINT32, dp_of "C" SUNS_INT16],
      no_explicit_offset dp) ∧
    (suns_model_fill_offsets
      { suns_model_new with
        dp_blocks := [{ dp_list := [dp_of "A" SUNS_INT16, dp_of "B" SUNS_UINT32,
                                    dp_of "C" SUNS_INT16],
                        repeating := false, len := 0 }] }).1 =
      { dp_blocks := [{ dp_list := [{ dp_of "A" SUNS_INT16 with offset := 3 },
                                    { dp_of "B" SUNS_UINT32 with offset := 4 },
                                    { dp_of "C" SUNS_INT16 with offset := 6 }],
                        repeating := false, len := 4 }],
        base_len := 4, len := 4 } :=
  ⟨by decide, (C6_single_block_offsets _ 0 (by decide)).trans (by decide)⟩

/-- C7 (amended). The register counter restarts in every block. For every
model whose datapoints carry no explicit offset, `suns_model_fill_offsets`
gives each datapoint 3 plus the register sizes of the preceding datapoints of
its own block, and each block the sum of its own register sizes as length:
the datapoints of the preceding blocks do not advance the counter. -/
theorem C7_counter_restarts (m : suns_model_t)
    (h : ∀ b ∈ m.dp_blocks, ∀ dp ∈ b.dp_list, no_explicit_offset dp) :
    (suns_model_fill_offsets m).1.dp_blocks =
      m.dp_blocks.map (fun b =>
        { b with dp_list := with_implied_offsets 3 b.dp_list, len := reg_total b.dp_list }) := by
  simp only [suns_model_fill_offsets, fill_blocks_map]
  apply List.map_congr_left
  intro b hb
  rw [fill_dp_list_implied 3 _ (h b hb), fill_dp_list_total 3 _ (h b hb)]

/-- C7, witness: two blocks of one Int16 datapoint each. -/
theorem C7_counter_restarts_witness :
    (∀ b ∈ [({ dp_list := [dp_of "A" SUNS_INT16], repeating := false, len := 0 } :
              suns_dp_block_t),
            { dp_list := [dp_of "B" SUNS_INT16], repeating := true, len := 0 }],
        ∀ dp ∈ b.dp_list, no_explicit_offset dp) ∧
    (suns_model_fill_offsets
      { suns_model_new with
        dp_blocks := [{ dp_list := [dp_of "A" SUNS_INT16], repeating := false, len := 0 },
                      { dp_list := [dp_of "B" SUNS_INT16], repeating := true, len := 0 }]
      }).1.dp_blocks =
      [{ dp_list := [{ dp_of "A" SUNS_INT16 with offset := 3 }], repeating := false, len := 1 },
       { dp_list := [{ dp_of "B" SUNS_INT16 with offset := 3 }], repeating := true, len := 1 }] :=
  ⟨by decide, (C7_counter_restarts _ (by decide)).trans (by decide)⟩

/-- C7, counterexample. In a model of two blocks with one Int16 datapoint each
and no explicit offset, the datapoint of the second block receives the offset
3, not the offset 3 of the last datapoint of the first block plus its register
size 1. -/
theorem C7_counterexample :
    (suns_model_fill_offsets
      { suns_model_new with
        dp_blocks := [{ dp_list := [dp_of "A" SUNS_INT16], repeating := false, len := 0 },
                      { dp_list := [dp_of "B" SUNS_INT16], repeating := true, len := 0 }]
      }).1.dp_blocks.map (fun b => b.dp_list.map (fun dp => dp.offset)) = [[3], [3]] ∧
    (3 : Int) ≠ 3 + reg_size (dp_of "A" SUNS_INT16).type_pair := by
  decide

theorem sum_len_split (bs : List suns_dp_block_t) :
    (bs.map (fun b => b.len)).sum =
      ((bs.filter (fun b => !b.repeating)).map (fun b => b.len)).sum +
      ((bs.filter (fun b => b.repeating)).map (fun b => b.len)).sum := by
  induction bs with
  | nil => rfl
  | cons b rest ih =>
    cases hb : b.repeating <;> simp [List.filter_cons, hb, ih] <;> omega

/-- C8 (amended). Model lengths. For every freshly constructed model
(`len = base_len = 0`), after `suns_model_fill_offsets` the length of each
block is the net advance of the register counter within the block, `base_len`
is the sum of the lengths of the non-repeating blocks, and `len` is the sum of
the lengths of all blocks when that sum is at least 1 and 0 otherwise; in the
first case `len - base_len` is the sum of the lengths of the repeating blocks. -/
theorem C8_model_lengths (m : suns_model_t) (hl : m.len = 0) (hb : m.base_len = 0) :
    (suns_model_fill_offsets m).1.dp_blocks.map (fun b => b.len) =
      m.dp_blocks.map (fun b => run_counter 3 b.dp_list - 3) ∧
    (suns_model_fill_offsets m).1.base_len =
      (((suns_model_fill_offsets m).1.dp_blocks.filter (fun b => !b.repeating)).map
        (fun b => b.len)).sum ∧
    (suns_model_fill_offsets m).1.len =
      (if ((suns_model_fill_offsets m).1.dp_blocks.map (fun b => b.len)).sum < 1 then 0
       else ((suns_model_fill_offsets m).1.dp_blocks.map (fun b => b.len)).sum) ∧
    (1 ≤ ((suns_model_fill_offsets m).1.dp_blocks.map (fun b => b.len)).sum →
      (suns_model_fill_offsets m).1.len - (suns_model_fill_offsets m).1.base_len =
        (((suns_model_fill_offsets m).1.dp_blocks.filter (fun b => b.repeating)).map
          (fun b => b.len)).sum) := by
  obtain ⟨bs, l, bl⟩ := m
  simp only at hl hb
  subst hl hb
  have h1 := fill_blocks_len 3 bs 0 0
  have h2 := fill_blocks_base_len 3 bs 0 0
  have h3 := sum_len_split (fill_blocks 3 bs 0 0).1
  simp only [zero_add] at h1 h2
  refine ⟨?_, ?_, ?_, ?_⟩
  · simp only [suns_model_fill_offsets, fill_blocks_map, List.map_map]
    apply List.map_congr_left
    intro b _
    have := fill_dp_list_counter 3 b.dp_list 0
    simp only [Function.comp_apply, add_zero] at this ⊢
    omega
  · simpa only [suns_model_fill_offsets] using h2
  · simp only [suns_model_fill_offsets, h1, sub_self]
  · intro hpos
    simp only [suns_model_fill_offsets] at hpos ⊢
    rw [h1, if_neg (by omega), h2]
    omega

/-- C8, witness: a fixed block of two Int16 datapoints followed by a
repeating block of one UInt32 datapoint. -/
theorem C8_model_lengths_witness :
    (suns_model_fill_offsets
      { suns_model_new with
        dp_blocks := [{ dp_list := [dp_of "A" SUNS_INT16, dp_of "B" SUNS_INT16],
                        repeating := false, len := 0 },
                      { dp_list := [dp_of "C" SUNS_UINT32], repeating := true, len := 0 }]
      }).1.base_len = 2 ∧
    (suns_model_fill_offsets
      { suns_model_new with
        dp_blocks := [{ dp_list := [dp_of "A" SUNS_INT16, dp_of "B" SUNS_INT16],
                        repeating := false, len := 0 },
                      { dp_list := [dp_of "C" SUNS_UINT32], repeating := true, len := 0 }]
      }).1.len = 4 :=
  ⟨(C8_model_lengths _ rfl rfl).2.1.trans (by decide),
   (C8_model_lengths _ rfl rfl).2.2.1.trans (by decide)⟩

/-- C8, counterexample. A freshly constructed model whose only datapoint is an
Int16 (2 bytes) with the explicit offset 1: the block has length -1, and `len`
is 0, not the sum -1 of the block lengths. -/
theorem C8_counterexample :
    (suns_model_fill_offsets
      { suns_model_new with
        dp_blocks := [{ dp_list := [{ dp_of "A" SUNS_INT16 with offset := 1 }],
                        repeating := false, len := 0 }] }).1.dp_blocks.map (fun b => b.len)
      = [-1] ∧
    (suns_model_fill_offsets
      { suns_model_new with
        dp_blocks := [{ dp_list := [{ dp_of "A" SUNS_INT16 with offset := 1 }],
                        repeating := false, len := 0 }] }).1.len = 0 ∧
    (suns_model_fill_offsets
      { suns_model_new with
        dp_blocks := [{ dp_list := [{ dp_of "A" SUNS_INT16 with offset := 1 }],
                        repeating := false, len := 0 }] }).1.len ≠
      ((suns_model_fill_offsets
        { suns_model_new with
          dp_blocks := [{ dp_list := [{ dp_of "A" SUNS_INT16 with offset := 1 }],
                          repeating := false, len := 0 }] }).1.dp_blocks.map
        (fun b => b.len)).sum := by
  decide

theorem fill_dp_list_log_no_error (o : Int) (dps : List suns_dp_t) (d : Int) :
    (fill_dp_list o dps d).2.2.count fill_log.error_repeating_not_last = 0 := by
  induction dps generalizing d with
  | nil => rfl
  | cons dp rest ih =>
    simp only [fill_dp_list, List.count_append, ih, add_zero, dp_log]
    split <;> simp

theorem fill_blocks_log_errors (o : Int) (bs : List suns_dp_block_t) (bl l : Int) :
    (fill_blocks o bs bl l).2.2.2.count fill_log.error_repeating_not_last =
      (bs.dropLast.filter (fun b => b.repeating)).length := by
  induction bs generalizing bl l with
  | nil => rfl
  | cons b rest ih =>
    simp only [fill_blocks, List.count_append, fill_dp_list_log_no_error, zero_add, ih]
    cases rest with
    | nil => simp
    | cons c cs =>
      cases hb : b.repeating <;> simp [List.dropLast, List.filter_cons, hb]
      omega

/-- C9 (amended). Ordering of the repeating block. `suns_model_fill_offsets`
returns nothing to its caller: for every model it resolves every block, the
repeating flags having no effect on offsets and block lengths, and writes the
error message "repeating marker found on block that is not last" once for
each repeating block other than the last; a model whose only repeating block
is the last one is resolved without that message. -/
theorem C9_ordering_logged (m : suns_model_t) :
    (suns_model_fill_offsets m).1.dp_blocks =
      m.dp_blocks.map (fun b =>
        { b with dp_list := (fill_dp_list 3 b.dp_list 0).1, len := run_counter 3 b.dp_list - 3 }) ∧
    (suns_model_fill_offsets m).2.count fill_log.error_repeating_not_last =
      (m.dp_blocks.dropLast.filter (fun b => b.repeating)).length ∧
    ((∀ b ∈ m.dp_blocks.dropLast, b.repeating = false) →
      fill_log.error_repeating_not_last ∉ (suns_model_fill_offsets m).2) := by
  have hc : (suns_model_fill_offsets m).2.count fill_log.error_repeating_not_last =
      (m.dp_blocks.dropLast.filter (fun b => b.repeating)).length := by
    simp only [suns_model_fill_offsets, fill_blocks_log_errors]
  refine ⟨?_, hc, ?_⟩
  · simp only [suns_model_fill_offsets, fill_blocks_map]
    apply List.map_congr_left
    intro b _
    have := fill_dp_list_counter 3 b.dp_list 0
    simp only [add_zero] at this
    congr 1
    omega
  · intro h
    have h0 : (m.dp_blocks.dropLast.filter (fun b => b.repeating)) = [] := by
      rw [List.filter_eq_nil_iff]
      intro b hb
      simp [h b hb]
    rw [h0] at hc
    exact List.count_eq_zero.mp hc

/-- C9, witness: a fixed block followed by a repeating block resolves without
the ordering message. -/
theorem C9_ordering_logged_witness :
    (∀ b ∈ ([{ dp_list := [dp_of "A" SUNS_INT16], repeating := false, len := 0 },
             { dp_list := [dp_of "B" SUNS_INT16], repeating := true, len := 0 }] :
            List suns_dp_block_t).dropLast, b.repeating = false) ∧
    fill_log.error_repeating_not_last ∉
      (suns_model_fill_offsets
        { suns_model_new with
          dp_blocks := [{ dp_list := [dp_of "A" SUNS_INT16], repeating := false, len := 0 },
                        { dp_list := [dp_of "B" SUNS_INT16], repeating := true, len := 0 }]
        }).2 :=
  ⟨by decide, (C9_ordering_logged _).2.2 (by decide)⟩

/-- C9, counterexample. A model whose first block is repeating and whose
second block is not: the call completes, both blocks are resolved and both
lengths of the model are set; the only trace of the misplaced flag is one
error message. -/
theorem C9_counterexample :
    suns_model_fill_offsets
      { suns_model_new with
        dp_blocks := [{ dp_list := [dp_of "A" SUNS_INT16], repeating := true, len := 0 },
                      { dp_list := [dp_of "B" SUNS_UINT32], repeating := false, len := 0 }] } =
      ({ dp_blocks :=
           [{ dp_list := [{ dp_of "A" SUNS_INT16 with offset := 3 }], repeating := true,
              len := 1 },
            { dp_list := [{ dp_of "B" SUNS_UINT32 with offset := 3 }], repeating := false,
              len := 2 }],
         base_len := 2, len := 3 },
       [fill_log.error_repeating_not_last]) := by
  decide

/-! ## Block decoder -/

theorem getD_of_take_eq (b1 b2 : List Byte) (k i : Nat) (hi : i < k)
    (h : b1.take k = b2.take k) : b1.getD i 0 = b2.getD i 0 := by
  have e : ∀ b : List Byte, b.getD i 0 = (b.take k).getD i 0 := by
    intro b
    simp [List.getElem?_take, hi]
  rw [e b1, e b2, h]

theorem take_eq_of_le (b1 b2 : List Byte) (k n : Nat) (hk : k ≤ n)
    (h : b1.take n = b2.take n) : b1.take k = b2.take k := by
  have e : ∀ b : List Byte, b.take k = (b.take n).take k := by
    intro b
    rw [List.take_take, Nat.min_eq_left hk]
  rw [e b1, e b2, h]

/-- The switch and the tail of `suns_buf_to_value` read only the bytes of the
field. -/
theorem suns_buf_to_value_local (b1 b2 : List Byte) (tp : suns_type_pair_t)
    (v : suns_value_t)
    (h : b1.take (suns_type_pair_size tp) = b2.take (suns_type_pair_size tp)) :
    suns_buf_to_value_body b1 tp v = suns_buf_to_value_body b2 tp v := by
  obtain ⟨ty, n⟩ := tp
  cases ty
  case SUNS_NULL | SUNS_UNDEF | SUNS_INT64 | SUNS_UINT64 | SUNS_FLOAT64 =>
    simp [suns_buf_to_value_body]
  case SUNS_STRING =>
    simp only [suns_type_pair_size, if_true] at h
    simp [suns_buf_to_value_body, suns_buf_to_value_finish, strncpy, h, suns_type_size]
  case SUNS_INT16 | SUNS_UINT16 | SUNS_ACC16 | SUNS_ENUM16 | SUNS_BITFIELD16 | SUNS_SF =>
    simp only [suns_type_pair_size, suns_type_size] at h
    have h0 := getD_of_take_eq b1 b2 2 0 (by omega) h
    have h1 := getD_of_take_eq b1 b2 2 1 (by omega) h
    have hmin : min 16 2 = 2 := rfl
    simp only [suns_buf_to_value_body, suns_buf_to_value_finish, be16toh, byteAt, h0, h1,
      suns_type_size, hmin, List.range_succ, List.range_zero, List.nil_append,
      List.map_append, List.map_cons, List.map_nil]
  case SUNS_INT32 | SUNS_UINT32 | SUNS_ACC32 | SUNS_BITFIELD32 | SUNS_FLOAT32 =>
    simp only [suns_type_pair_size, suns_type_size] at h
    have h0 := getD_of_take_eq b1 b2 4 0 (by omega) h
    have h1 := getD_of_take_eq b1 b2 4 1 (by omega) h
    have h2 := getD_of_take_eq b1 b2 4 2 (by omega) h
    have h3 := getD_of_take_eq b1 b2 4 3 (by omega) h
    have hmin : min 16 4 = 4 := rfl
    simp only [suns_buf_to_value_body, suns_buf_to_value_finish, be32toh, byteAt, h0, h1, h2, h3,
      suns_type_size, hmin, List.range_succ, List.range_zero, List.nil_append,
      List.map_append, List.map_cons, List.map_nil]

/-- One step of the inner loop of `suns_decode_dp_block`: the call of
`suns_buf_to_value` is defined, the alternative for `none` is not taken. -/
theorem decode_dp_list_cons (buf : List Byte) (len : Nat) (dp : suns_dp_t)
    (rest : List suns_dp_t) (bo : Nat) (vl : List suns_value_t) :
    decode_dp_list buf len (dp :: rest) bo vl =
      if bo + suns_type_pair_size dp.type_pair ≤ len then
        decode_dp_list buf len rest (bo + suns_type_pair_size dp.type_pair)
          (vl ++ [(suns_buf_to_value_body (buf.drop bo) dp.type_pair
            { suns_value_set_null suns_value_new with name := dp.name }).2])
      else (bo, vl, true) := by
  simp only [decode_dp_list, suns_buf_to_value_zeroed]

theorem decode_dp_list_local (buf1 buf2 : List Byte) (len : Nat)
    (h : buf1.take len = buf2.take len) (fs : List suns_dp_t) (bo : Nat)
    (vl : List suns_value_t) :
    decode_dp_list buf1 len fs bo vl = decode_dp_list buf2 len fs bo vl := by
  induction fs generalizing bo vl with
  | nil => rfl
  | cons dp rest ih =>
    simp only [decode_dp_list_cons]
    split
    · rename_i hfit
      have e : (buf1.drop bo).take (suns_type_pair_size dp.type_pair) =
          (buf2.drop bo).take (suns_type_pair_size dp.type_pair) := by
        rw [List.take_drop, List.take_drop, take_eq_of_le buf1 buf2 _ len hfit h]
      rw [suns_buf_to_value_local _ _ _ _ e, ih]
    · rfl

theorem decode_dp_list_append (buf : List Byte) (len : Nat) (a b : List suns_dp_t)
    (bo : Nat) (vl : List suns_value_t) :
    decode_dp_list buf len (a ++ b) bo vl =
      if (decode_dp_list buf len a bo vl).2.2 = true then decode_dp_list buf len a bo vl
      else decode_dp_list buf len b (decode_dp_list buf len a bo vl).1
        (decode_dp_list buf len a bo vl).2.1 := by
  induction a generalizing bo vl with
  | nil => simp [decode_dp_list]
  | cons dp rest ih =>
    simp only [List.cons_append, decode_dp_list_cons]
    split
    · exact ih _ _
    · simp

theorem decode_reps_flat (blk : suns_dp_block_t) (buf : List Byte) (len k bo : Nat)
    (vl : List suns_value_t) :
    decode_reps blk buf len k bo vl =
      ((decode_dp_list buf len (block_fields blk k) bo vl).1,
       (decode_dp_list buf len (block_fields blk k) bo vl).2.1) := by
  induction k generalizing bo vl with
  | zero => simp [decode_reps, block_fields, decode_dp_list]
  | succ k ih =>
    have e : block_fields blk (k + 1) = blk.dp_list ++ block_fields blk k := by
      simp [block_fields, List.replicate_succ]
    rw [e, decode_dp_list_append]
    simp only [decode_reps]
    rcases hd : decode_dp_list buf len blk.dp_list bo vl with ⟨bo1, vl1, stop⟩
    cases stop
    · simp [ih]
    · simp

theorem fields_size_take_mono (fs : List suns_dp_t) (a b : Nat) (h : a ≤ b) :
    fields_size (fs.take a) ≤ fields_size (fs.take b) := by
  induction fs generalizing a b with
  | nil => simp
  | cons dp rest ih =>
    cases a with
    | zero => simp [fields_size]
    | succ a =>
      cases b with
      | zero => omega
      | succ b =>
        have := ih a b (by omega)
        simp only [fields_size, List.take_succ_cons, List.map_cons, List.sum_cons] at this ⊢
        omega

theorem decode_dp_list_prefix (buf : List Byte) (len : Nat) (fs : List suns_dp_t)
    (bo : Nat) (vl : List suns_value_t) :
    ∃ k, k ≤ fs.length ∧
      decode_dp_list buf len fs bo vl =
        (bo + fields_size (fs.take k), vl ++ decode_fields buf (fs.take k) bo,
          decide (k < fs.length)) ∧
      (k < fs.length → len < bo + fields_size (fs.take (k + 1))) ∧
      (0 < k → bo + fields_size (fs.take k) ≤ len) := by
  induction fs generalizing bo vl with
  | nil => exact ⟨0, by simp [decode_dp_list, fields_size, decode_fields]⟩
  | cons dp rest ih =>
    by_cases hfit : bo + suns_type_pair_size dp.type_pair ≤ len
    · obtain ⟨k, hk, he, hstop, hle⟩ := ih (bo + suns_type_pair_size dp.type_pair)
        (vl ++ [(suns_buf_to_value_body (buf.drop bo) dp.type_pair
          { suns_value_set_null suns_value_new with name := dp.name }).2])
      refine ⟨k + 1, by simp; omega, ?_, ?_, ?_⟩
      · simp only [decode_dp_list_cons, if_pos hfit, he, fields_size, List.take_succ_cons,
          List.map_cons, List.sum_cons, decode_fields, List.length_cons,
          Nat.add_lt_add_iff_right, List.append_assoc, List.singleton_append]
        simp only [suns_value_set_null, Nat.add_assoc]
      · intro h
        have := hstop (by simpa using h)
        simp only [fields_size, List.take_succ_cons, List.map_cons, List.sum_cons] at this ⊢
        omega
      · intro _
        rcases Nat.eq_zero_or_pos k with h0 | hpos
        · subst h0
          simp [fields_size]
          omega
        · have := hle hpos
          simp only [fields_size, List.take_succ_cons, List.map_cons, List.sum_cons] at this ⊢
          omega
    · refine ⟨0, by simp, ?_, ?_, ?_⟩
      · simp [decode_dp_list_cons, hfit, fields_size, decode_fields]
      · intro _
        simp [fields_size]
        omega
      · intro h
        omega

/-- Truncated block decode, for every block whose repetition count is defined
(`len_multiple` does not divide by zero). From a slice of `n` available bytes
`suns_decode_dp_block` appends exactly the longest prefix of the fields, taken
in repetition order then field order, whose cumulative byte size is at most
`n`; it returns the cumulative size of the appended fields; and its result
depends on no byte of the slice at index `n` or above. -/
theorem decode_dp_block_truncation (blk : suns_dp_block_t) (buf : List Byte) (n : Nat)
    (vl : List suns_value_t) (reps : Nat) (h : len_multiple blk n = some reps) :
    ∃ k, k ≤ (block_fields blk reps).length ∧
      fields_size ((block_fields blk reps).take k) ≤ n ∧
      (∀ j, j ≤ (block_fields blk reps).length →
        fields_size ((block_fields blk reps).take j) ≤ n → j ≤ k) ∧
      suns_decode_dp_block blk buf n vl =
        some (fields_size ((block_fields blk reps).take k),
              vl ++ decode_fields buf ((block_fields blk reps).take k) 0) ∧
      (∀ buf2 : List Byte, buf2.take n = buf.take n →
        suns_decode_dp_block blk buf2 n vl = suns_decode_dp_block blk buf n vl) := by
  obtain ⟨k, hk, he, hstop, hle⟩ := decode_dp_list_prefix buf n (block_fields blk reps) 0 vl
  refine ⟨k, hk, ?_, ?_, ?_, ?_⟩
  · rcases Nat.eq_zero_or_pos k with h0 | hpos
    · subst h0
      simp [fields_size]
    · have := hle hpos
      omega
  · intro j hj hfit
    by_contra hjk
    have hlt : k < (block_fields blk reps).length := by omega
    have h1 := hstop hlt
    have h2 := fields_size_take_mono (block_fields blk reps) (k + 1) j (by omega)
    omega
  · simp only [suns_decode_dp_block, h, decode_reps_flat, he, zero_add]
  · intro buf2 h2
    simp only [suns_decode_dp_block, h, decode_reps_flat,
      decode_dp_list_local buf2 buf n h2]

/-- The worked example of the truncated decode: a block of three 2-byte fields
(6 bytes needed) decoded from a 4-byte slice appends 2 values and returns 4. -/
theorem decode_dp_block_truncation_example :
    (suns_decode_dp_block
      { dp_list := [dp_of "A" SUNS_INT16, dp_of "B" SUNS_INT16, dp_of "C" SUNS_INT16],
        repeating := false, len := 3 }
      [0x00, 0x01, 0x00, 0x02, 0x00, 0x03] 4 []).map (fun r => (r.1, r.2.length)) =
      some (4, 2) := by
  decide

/-- C4, failing input. A repeating block without datapoints, whose resolved
length is 0: `suns_decode_dp_block` divides by zero when it computes
`len_multiple` and returns nothing, where the claim has it append no value and
return 0. The block is the one `suns_model_fill_offsets` produces. -/
theorem C4_zero_length_repeating_block :
    (suns_model_fill_offsets
      { suns_model_new with
        dp_blocks := [{ dp_list := [], repeating := true, len := 0 }] }).1.dp_blocks =
      [{ dp_list := [], repeating := true, len := 0 }] ∧
    suns_decode_dp_block { dp_list := [], repeating := true, len := 0 }
      [0x00, 0x01, 0x00, 0x02] 4 [] = none := by
  decide

/-! ## Dataset decoder -/

theorem decode_fields_append (buf : List Byte) (a b : List suns_dp_t) (pos : Nat) :
    decode_fields buf (a ++ b) pos =
      decode_fields buf a pos ++ decode_fields buf b (pos + fields_size a) := by
  induction a generalizing pos with
  | nil => simp [decode_fields, fields_size]
  | cons dp rest ih =>
    rw [List.cons_append]
    simp only [decode_fields]
    rw [ih]
    simp [fields_size, Nat.add_assoc]

theorem decode_fields_drop (buf : List Byte) (fs : List suns_dp_t) (d pos : Nat) :
    decode_fields (buf.drop d) fs pos = decode_fields buf fs (d + pos) := by
  induction fs generalizing pos with
  | nil => rfl
  | cons dp rest ih =>
    simp only [decode_fields, List.drop_drop, ih, Nat.add_assoc]

theorem fields_size_append (a b : List suns_dp_t) :
    fields_size (a ++ b) = fields_size a + fields_size b := by
  simp [fields_size]

theorem decode_dp_list_all (buf : List Byte) (len : Nat) (fs : List suns_dp_t)
    (vl : List suns_value_t) (hfit : fields_size fs ≤ len) :
    decode_dp_list buf len fs 0 vl = (fields_size fs, vl ++ decode_fields buf fs 0, false) := by
  obtain ⟨k, hk, he, hstop, _⟩ := decode_dp_list_prefix buf len fs 0 vl
  have hkl : k = fs.length := by
    by_contra hne
    have hlt : k < fs.length := by omega
    have h1 := hstop hlt
    have h2 := fields_size_take_mono fs (k + 1) fs.length (by omega)
    simp only [List.take_length] at h2
    omega
  subst hkl
  simpa using he

theorem toSizeT_of_nat (n : Nat) (h : n < 18446744073709551616) : toSizeT (n : Int) = n := by
  simp only [toSizeT]
  omega

theorem toInt32_toNat_of_lt (q : Nat) (h : q < 2147483648) : (toInt32 q).toNat = q := by
  simp only [toInt32]
  split <;> omega

theorem len_multiple_eq (b : suns_dp_block_t) (avail : Nat) (havail : avail < 4294967296)
    (h : b.repeating = true → 0 < b.len ∧ b.len ≤ 2147483647) :
    len_multiple b avail = some (repeat_count b avail) := by
  simp only [len_multiple, repeat_count]
  cases hb : b.repeating
  · simp
  · obtain ⟨h1, h2⟩ := h hb
    have e : toSizeT b.len = b.len.toNat := by
      simp only [toSizeT]
      omega
    have hne : b.len.toNat ≠ 0 := by omega
    have hq : avail / (b.len.toNat * 2) < 2147483648 := by
      have h3 : avail / (b.len.toNat * 2) ≤ avail / 2 := by
        apply Nat.div_le_div_left (by omega) (by omega)
      omega
    have hi := toInt32_toNat_of_lt _ hq
    simp [e, hne, Nat.div_div_eq_div_mul, hi]

theorem decode_blocks_all (buf : List Byte) (did_len : Nat) (hdl : did_len < 65536)
    (blocks : List suns_dp_block_t) (bo : Nat) (vl : List suns_value_t)
    (hbo : bo ≤ did_len * 2)
    (hrep : ∀ b ∈ blocks, b.repeating = true → 0 < b.len ∧ b.len ≤ 2147483647)
    (hfit : fields_size (model_fields blocks (did_len * 2 - bo)) ≤ did_len * 2 - bo) :
    decode_blocks buf did_len blocks bo vl =
      some (vl ++ decode_fields buf (model_fields blocks (did_len * 2 - bo)) (bo + 4)) := by
  induction blocks generalizing bo vl with
  | nil => simp [decode_blocks, model_fields, decode_fields]
  | cons b rest ih =>
    have havail : toSizeT ((did_len * 2 : Nat) - (bo : Int)) = did_len * 2 - bo := by
      simp only [toSizeT]
      omega
    simp only [model_fields, fields_size_append] at hfit
    have hb := len_multiple_eq b (did_len * 2 - bo) (by omega) (hrep b (List.mem_cons_self _ _))
    have hall := decode_dp_list_all (buf.drop (bo + 4)) (did_len * 2 - bo)
      (block_fields b (repeat_count b (did_len * 2 - bo))) vl (by omega)
    have hnot : ¬ (bo + fields_size (block_fields b (repeat_count b (did_len * 2 - bo))) ≥
        did_len * 2 + 4) := by omega
    have hsub : did_len * 2 - (bo + fields_size (block_fields b
        (repeat_count b (did_len * 2 - bo)))) =
        did_len * 2 - bo - fields_size (block_fields b (repeat_count b (did_len * 2 - bo))) := by
      omega
    simp only [decode_blocks, suns_decode_dp_block, havail, hb, decode_reps_flat, hall,
      if_neg hnot]
    have hfit2 : fields_size (model_fields rest (did_len * 2 -
        (bo + fields_size (block_fields b (repeat_count b (did_len * 2 - bo)))))) ≤
        did_len * 2 - (bo + fields_size (block_fields b (repeat_count b (did_len * 2 - bo)))) := by
      rw [hsub]
      omega
    rw [ih _ _ (by omega) (fun x hx => hrep x (List.mem_cons_of_mem _ hx)) hfit2]
    simp only [model_fields, decode_fields_append, decode_fields_drop, hsub, List.append_assoc,
      Nat.add_zero, Nat.add_right_comm bo _ 4]

theorem be16toh_lt (buf : List Byte) : be16toh buf < 65536 := by
  have h0 := (buf.getD 0 0).isLt
  have h1 := (buf.getD 1 0).isLt
  simp only [be16toh, byteAt]
  omega

/-- C3 (amended). Dataset decoding order. For every registry and every buffer
whose identifier is registered, if the repeating blocks of the model have a
length of at least one register and the payload length declared in the header
(bytes 2..3, in registers) covers all fields, the Values list returned by
`suns_decode_data` is the concatenation, over the blocks in order, the
repetitions of each block in order and its datapoints in order, of
`suns_buf_to_value` applied to the bytes at the running position, which starts
at byte 4 and advances by the byte size of each field, with the TypeSpec and
name of the datapoint. -/
theorem C3_dataset_decoding_order (did_list : List suns_model_did_t) (buf : List Byte)
    (len : Nat) (did : suns_model_did_t)
    (hfind : suns_find_did did_list (be16toh buf) = some did)
    (hrep : ∀ b ∈ did.model.dp_blocks, b.repeating = true → 0 < b.len ∧ b.len ≤ 2147483647)
    (hfit : fields_size (model_fields did.model.dp_blocks (be16toh (buf.drop 2) * 2)) ≤
      be16toh (buf.drop 2) * 2) :
    suns_decode_data did_list buf len =
      some (some { did := did,
                   values := decode_fields buf
                     (model_fields did.model.dp_blocks (be16toh (buf.drop 2) * 2)) 4 }) := by
  have h := decode_blocks_all buf (be16toh (buf.drop 2)) (be16toh_lt _) did.model.dp_blocks 0 []
    (by omega) hrep (by simpa using hfit)
  simp only [suns_decode_data, hfind, suns_dataset_new, h]
  simp

/-- C3, witness: model 2 of the sample registry (one fixed Int16, then a
repeating Int16) with a declared length of 3 registers: one fixed value and
two repetitions. -/
theorem C3_dataset_decoding_order_witness :
    (suns_decode_data sample_registry
      [0x00, 0x02, 0x00, 0x03, 0x00, 0x0A, 0x00, 0x0B, 0x00, 0x0C] 10).map
      (fun r => r.map (fun d => d.values.map (fun v => (v.name, v.value.u16)))) =
      some (some [(some "A", 10), (some "B", 11), (some "B", 12)]) := by
  rw [C3_dataset_decoding_order sample_registry _ 10 { did := 2, model := model_fixed_repeating }
    (by decide) (by decide) (by decide)]
  decide

/-- C3, counterexample. Model 1 has one Int16 datapoint. A buffer that holds
the two payload bytes of that field but declares a length of 0 registers
yields a Dataset without values, not the decoded field; for model 3, whose
repeating block has length 0, nothing is returned at all. -/
theorem C3_counterexample :
    suns_decode_data sample_registry [0x00, 0x01, 0x00, 0x00, 0x04, 0xD2] 6 =
      some (some { did := { did := 1, model := model_one_int16 }, values := [] }) ∧
    decode_fields [0x00, 0x01, 0x00, 0x00, 0x04, 0xD2] [dp_of "A" SUNS_INT16] 4 ≠ [] ∧
    suns_decode_data sample_registry [0x00, 0x03, 0x00, 0x00] 4 = none := by
  decide

/-- C5, failing input. Model 1 has one Int16 datapoint. With `buffer_len = 4`
the buffer ends after the header, yet `suns_decode_data` reads the bytes at
indexes 4 and 5: two buffers that agree on every index below `buffer_len`
give different Datasets, and the first holds the value 1234 taken from beyond
the bound. -/
theorem C5_reads_past_buffer_len :
    ([0x00, 0x01, 0x00, 0x01, 0x04, 0xD2] : List Byte).take 4 =
      ([0x00, 0x01, 0x00, 0x01, 0x00, 0x00] : List Byte).take 4 ∧
    suns_decode_data sample_registry [0x00, 0x01, 0x00, 0x01, 0x04, 0xD2] 4 ≠
      suns_decode_data sample_registry [0x00, 0x01, 0x00, 0x01, 0x00, 0x00] 4 ∧
    (suns_decode_data sample_registry [0x00, 0x01, 0x00, 0x01, 0x04, 0xD2] 4).map
      (fun r => r.map (fun d => d.values.map (fun v => (v.name, v.value.u16, v.meta)))) =
      some (some [(some "A", 1234, SUNS_VALUE_OK)]) := by
  decide

theorem suns_decode_dp_block_local (blk : suns_dp_block_t) (buf1 buf2 : List Byte) (n : Nat)
    (vl : List suns_value_t) (h : buf1.take n = buf2.take n) :
    suns_decode_dp_block blk buf1 n vl = suns_decode_dp_block blk buf2 n vl := by
  simp only [suns_decode_dp_block]
  cases len_multiple blk n with
  | none => rfl
  | some k => simp only [decode_reps_flat, decode_dp_list_local buf1 buf2 n h]

theorem suns_decode_dp_block_consumed_le (blk : suns_dp_block_t) (buf : List Byte) (n : Nat)
    (vl : List suns_value_t) (c : Nat) (vl1 : List suns_value_t)
    (h : suns_decode_dp_block blk buf n vl = some (c, vl1)) : c ≤ n := by
  cases hm : len_multiple blk n with
  | none => simp [suns_decode_dp_block, hm] at h
  | some reps =>
    obtain ⟨k, _, hle, _, he, _⟩ := decode_dp_block_truncation blk buf n vl reps hm
    rw [he] at h
    simp only [Option.some.injEq, Prod.mk.injEq] at h
    omega

theorem decode_blocks_local (buf1 buf2 : List Byte) (did_len : Nat) (hdl : did_len < 65536)
    (h : buf1.take (4 + did_len * 2) = buf2.take (4 + did_len * 2))
    (blocks : List suns_dp_block_t) (bo : Nat) (vl : List suns_value_t)
    (hbo : bo ≤ did_len * 2) :
    decode_blocks buf1 did_len blocks bo vl = decode_blocks buf2 did_len blocks bo vl := by
  induction blocks generalizing bo vl with
  | nil => rfl
  | cons b rest ih =>
    have havail : toSizeT ((did_len * 2 : Nat) - (bo : Int)) = did_len * 2 - bo := by
      simp only [toSizeT]
      omega
    have hslice : (buf1.drop (bo + 4)).take (did_len * 2 - bo) =
        (buf2.drop (bo + 4)).take (did_len * 2 - bo) := by
      rw [List.take_drop, List.take_drop]
      have e : bo + 4 + (did_len * 2 - bo) = 4 + did_len * 2 := by omega
      rw [e, h]
    simp only [decode_blocks, havail]
    rw [suns_decode_dp_block_local b _ _ _ vl hslice]
    cases hd : suns_decode_dp_block b (buf2.drop (bo + 4)) (did_len * 2 - bo) vl with
    | none => rfl
    | some r =>
      obtain ⟨c, vl1⟩ := r
      have hc := suns_decode_dp_block_consumed_le _ _ _ _ _ _ hd
      simp only
      split
      · rfl
      · exact ih _ _ (by omega)

/-- The function `suns_decode_data` reads the header and the declared payload
only: bytes 0 to `4 + 2 * did_len - 1`. Its parameter `len` plays no part. -/
theorem suns_decode_data_local (did_list : List suns_model_did_t) (buf1 buf2 : List Byte)
    (len1 len2 : Nat)
    (h : buf1.take (4 + be16toh (buf1.drop 2) * 2) = buf2.take (4 + be16toh (buf1.drop 2) * 2)) :
    suns_decode_data did_list buf1 len1 = suns_decode_data did_list buf2 len2 := by
  have h4 : buf1.take 4 = buf2.take 4 := take_eq_of_le _ _ 4 _ (by omega) h
  have g : ∀ i, i < 4 → buf1.getD i 0 = buf2.getD i 0 :=
    fun i hi => getD_of_take_eq buf1 buf2 4 i hi h4
  have e1 : be16toh buf1 = be16toh buf2 := by
    simp only [be16toh, byteAt, g 0 (by omega), g 1 (by omega)]
  have e2 : be16toh (buf1.drop 2) = be16toh (buf2.drop 2) := by
    have d : ∀ (b : List Byte) (i : Nat), (b.drop 2).getD i 0 = b.getD (2 + i) 0 := by
      intro b i
      simp [List.getElem?_drop]
    simp only [be16toh, byteAt, d, g 2 (by omega), g 3 (by omega)]
  simp only [suns_decode_data, ← e1, ← e2]
  cases suns_find_did did_list (be16toh buf1) with
  | none => rfl
  | some did =>
    simp only
    rw [decode_blocks_local buf1 buf2 _ (be16toh_lt _) h _ 0 _ (by omega)]

theorem decode_dp_block_defined (blk : suns_dp_block_t) (buf : List Byte) (n : Nat)
    (vl : List suns_value_t) (h : blk.repeating = true → toSizeT blk.len ≠ 0) :
    ∃ r, suns_decode_dp_block blk buf n vl = some r := by
  simp only [suns_decode_dp_block, len_multiple]
  cases hb : blk.repeating
  · simp
  · simp [h hb]

theorem decode_blocks_defined (buf : List Byte) (did_len : Nat) (blocks : List suns_dp_block_t)
    (bo : Nat) (vl : List suns_value_t)
    (h : ∀ b ∈ blocks, b.repeating = true → toSizeT b.len ≠ 0) :
    ∃ vs, decode_blocks buf did_len blocks bo vl = some vs := by
  induction blocks generalizing bo vl with
  | nil => exact ⟨vl, rfl⟩
  | cons b rest ih =>
    obtain ⟨r, hr⟩ := decode_dp_block_defined b (buf.drop (bo + 4))
      (toSizeT ((did_len * 2 : Nat) - (bo : Int))) vl (h b (List.mem_cons_self _ _))
    obtain ⟨c, vl1⟩ := r
    simp only [decode_blocks, hr]
    split
    · exact ⟨vl1, rfl⟩
    · exact ih _ _ (fun x hx => h x (List.mem_cons_of_mem _ hx))

/-! ## Discovery traversal -/

theorem read_space_holds (space : Int → Option Nat) (first : Int) (regs : List Nat)
    (h : holds space first regs) (o nb : Nat) (hle : o + nb ≤ regs.length) :
    read_space space (first + (o : Int) - 1) nb = some ((regs.drop o).take nb) := by
  have hs : ∀ i : Nat, i < nb →
      space (first + (o : Int) - 1 + 1 + (i : Int)) = some (regs.getD (o + i) 0) := by
    intro i hi
    have e : first + (o : Int) - 1 + 1 + (i : Int) = first + ((o + i : Nat) : Int) := by
      push_cast
      omega
    rw [e, h (o + i) (by omega)]
    simp [List.getElem?_eq_getElem (show o + i < regs.length by omega)]
  have hall : (List.range nb).all
      (fun (i : Nat) => (space (first + (o : Int) - 1 + 1 + (i : Int))).isSome) = true := by
    rw [List.all_eq_true]
    intro i hi
    rw [hs i (List.mem_range.mp hi)]
    rfl
  simp only [read_space, hall, if_true, Option.some.injEq]
  apply List.ext_getElem?
  intro i
  by_cases hi : i < nb
  · rw [List.getElem?_map, List.getElem?_range hi, Option.map_some', hs i hi, Option.getD_some,
      List.getElem?_take_of_lt hi, List.getElem?_drop]
    simp [List.getElem?_eq_getElem (show o + i < regs.length by omega)]
  · rw [List.getElem?_eq_none_iff.mpr (by simp; omega),
      List.getElem?_eq_none_iff.mpr (by simp; omega)]

theorem read_space_two (space : Int → Option Nat) (r : Int) :
    (∃ a b, read_space space (r - 1) 2 = some [a, b] ∧ space r = some a ∧
      space (r + 1) = some b) ∨
    (read_space space (r - 1) 2 = none ∧ (space r = none ∨ space (r + 1) = none)) := by
  have e0 : r - 1 + 1 + ((0 : Nat) : Int) = r := by omega
  have e1 : r - 1 + 1 + ((1 : Nat) : Int) = r + 1 := by omega
  cases h0 : space r with
  | none =>
    right
    simp [read_space, List.range_succ, e0, e1, h0]
  | some a =>
    cases h1 : space (r + 1) with
    | none =>
      right
      simp [read_space, List.range_succ, e0, e1, h0, h1]
    | some b =>
      left
      exact ⟨a, b, by simp [read_space, List.range_succ, e0, e1, h0, h1], rfl, rfl⟩

theorem find_base_step_hit (space : Int → Option Nat) (r : Int) (rest : List Int)
    (h : holds_signature space r) :
    find_base_register (read_space space) (r :: rest) = r := by
  rcases read_space_two space r with ⟨a, b, hr, ha, hb⟩ | ⟨_, hn⟩
  · rw [h.1] at ha
    rw [h.2] at hb
    simp only [Option.some.injEq] at ha hb
    subst ha hb
    simp [find_base_register, hr]
  · rcases hn with hn | hn
    · rw [h.1] at hn
      exact absurd hn (by simp)
    · rw [h.2] at hn
      exact absurd hn (by simp)

theorem find_base_step_miss (space : Int → Option Nat) (r : Int) (rest : List Int)
    (h : ¬ holds_signature space r) :
    find_base_register (read_space space) (r :: rest) =
      find_base_register (read_space space) rest := by
  rcases read_space_two space r with ⟨a, b, hr, ha, hb⟩ | ⟨hr, _⟩
  · have hne : ¬ (a = SUNS_ID_HIGH ∧ b = SUNS_ID_LOW) := by
      rintro ⟨rfl, rfl⟩
      exact h ⟨ha, hb⟩
    simp [find_base_register, hr, hne]
  · simp [find_base_register, hr]

theorem find_base_first (space : Int → Option Nat) (base : Int)
    (hbase : base ∈ search_registers) (hsig : holds_signature space base)
    (hfirst : ∀ c ∈ search_registers, c < base → ¬ holds_signature space c) :
    find_base_register (read_space space) search_registers = base := by
  simp only [search_registers, List.mem_cons, List.mem_singleton, List.not_mem_nil,
    or_false] at hbase hfirst
  rcases hbase with rfl | rfl | rfl
  · exact find_base_step_hit _ _ _ hsig
  · rw [search_registers, find_base_step_miss _ _ _ (hfirst 1 (by simp) (by decide))]
    exact find_base_step_hit _ _ _ hsig
  · rw [search_registers, find_base_step_miss _ _ _ (hfirst 1 (by simp) (by decide)),
      find_base_step_miss _ _ _ (hfirst 40001 (by simp) (by decide))]
    exact find_base_step_hit _ _ _ hsig

theorem swap_registers_cons (a : Nat) (rest : List Nat) (n : Nat) :
    suns_app_swap_registers (a :: rest) (n + 1) = htobe16 a ++ suns_app_swap_registers rest n := by
  simp [suns_app_swap_registers, List.range_succ_eq_map, List.map_map, Function.comp_def]

theorem swap_registers_length (reg : List Nat) (n : Nat) :
    (suns_app_swap_registers reg n).length = 2 * n := by
  simp only [suns_app_swap_registers, List.length_flatten, List.map_map, Function.comp_def,
    htobe16, List.length_cons, List.length_nil, List.map_const', List.sum_replicate,
    List.length_range, smul_eq_mul]
  omega

theorem instance_bytes_eq (inst : Nat × List Nat) :
    instance_bytes inst =
      htobe16 inst.1 ++ (htobe16 inst.2.length ++
        suns_app_swap_registers inst.2 inst.2.length) := by
  simp only [instance_bytes, instance_regs, swap_registers_cons]

theorem instance_bytes_length (inst : Nat × List Nat) :
    (instance_bytes inst).length = 4 + inst.2.length * 2 := by
  simp only [instance_bytes, swap_registers_length]
  omega

theorem instance_header (inst : Nat × List Nat) (rest : List Byte) :
    be16toh (instance_bytes inst ++ rest) = inst.1 % 65536 ∧
    be16toh ((instance_bytes inst ++ rest).drop 2) = inst.2.length % 65536 := by
  rw [instance_bytes_eq]
  simp only [htobe16, List.cons_append, List.nil_append, List.drop_succ_cons, List.drop_zero,
    be16toh_cons, toByte_val]
  omega

theorem decode_instance_in_buf (did_list : List suns_model_did_t) (inst : Nat × List Nat)
    (buf : List Byte) (n1 n2 : Nat) (hlen : inst.2.length < 65536) :
    suns_decode_data did_list (store (instance_bytes inst) buf) n1 =
      suns_decode_data did_list (instance_bytes inst) n2 := by
  apply suns_decode_data_local
  have hh := (instance_header inst (buf.drop (instance_bytes inst).length)).2
  simp only [store]
  rw [hh, Nat.mod_eq_of_lt hlen, ← instance_bytes_length]
  simp

theorem decode_instance_defined (did_list : List suns_model_did_t) (inst : Nat × List Nat)
    (n : Nat) (d : suns_model_did_t) (hid : inst.1 < 65536)
    (hfind : suns_find_did did_list inst.1 = some d)
    (hrep : ∀ b ∈ d.model.dp_blocks, b.repeating = true → toSizeT b.len ≠ 0) :
    ∃ ds, suns_decode_data did_list (instance_bytes inst) n = some (some ds) := by
  have hh := (instance_header inst []).1
  rw [List.append_nil, Nat.mod_eq_of_lt hid] at hh
  obtain ⟨vs, hvs⟩ := decode_blocks_defined (instance_bytes inst)
    (be16toh ((instance_bytes inst).drop 2)) d.model.dp_blocks 0 (suns_dataset_new d).values hrep
  exact ⟨{ did := d, values := vs }, by simp only [suns_decode_data, hh, hfind, hvs]⟩

theorem length_check_defined (d : suns_model_did_t) (len : Nat) (last : suns_dp_block_t)
    (hlast : d.model.dp_blocks.getLast? = some last)
    (hrep : last.repeating = true → d.model.len ≠ d.model.base_len) :
    ∃ b, length_check d len = some b := by
  simp only [length_check, hlast]
  split
  · cases hr : last.repeating
    · exact ⟨false, by simp⟩
    · have hne := hrep hr
      have : ¬ (d.model.len - d.model.base_len = 0) := by omega
      simp only [if_true, if_neg this]
      exact ⟨_, rfl⟩
  · exact ⟨false, rfl⟩

theorem holds_drop (space : Int → Option Nat) (first : Int) (a b : List Nat)
    (h : holds space first (a ++ b)) : holds space (first + (a.length : Int)) b := by
  intro i hi
  have := h (a.length + i) (by simp; omega)
  rw [List.getElem?_append_right (by omega)] at this
  simp only [Nat.add_sub_cancel_left] at this
  rw [← this]
  congr 1
  push_cast
  omega

theorem read_at_offset (space : Int → Option Nat) (base offset : Int) (regs : List Nat)
    (h : holds space (base + offset) regs) (nb : Nat) (hle : nb ≤ regs.length) :
    read_space space (base + offset - 1) nb = some (regs.take nb) := by
  have := read_space_holds space (base + offset) regs h 0 nb (by omega)
  simpa using this

theorem takeWhile_take_comm (p : Byte → Bool) (l : List Byte) (n : Nat) :
    (l.take n).takeWhile p = (l.takeWhile p).take n := by
  induction l generalizing n with
  | nil => simp
  | cons a rest ih =>
    cases n with
    | zero => simp
    | succ n =>
      simp only [List.take_succ_cons, List.takeWhile_cons]
      split
      · simp [ih]
      · simp

theorem strncpy_eq_truncate_or_pad (s : List Byte) (n : Nat) :
    strncpy s n = truncate_or_pad (c_string s) n := by
  simp only [strncpy, truncate_or_pad, c_string, takeWhile_take_comm, List.length_take]
  congr 2
  omega

/-- C20. Unsupported types in the codec. For every Value whose tag is Null,
Undefined, Int64, UInt64 or Float64, `suns_value_to_buf` returns -2 and leaves
the destination as it was; for every byte string and every target Value,
`suns_buf_to_value` with a Null or Undefined TypeSpec returns -2 and leaves the
target Value unchanged. -/
theorem C20_unsupported_types (v : suns_value_t) (buf : List Byte) (len : Nat)
    (src : List Byte) (tp : suns_type_pair_t) (w : suns_value_t)
    (hv : is_unsupported v.tp.type)
    (htp : tp.type = SUNS_NULL ∨ tp.type = SUNS_UNDEF) :
    suns_value_to_buf v buf len = some (-2, buf) ∧
      suns_buf_to_value src tp w = some (-2, w) := by
  constructor
  · rcases hv with h | h | h | h | h <;> simp [suns_value_to_buf, h]
  · rcases htp with h | h <;> simp [suns_buf_to_value, suns_buf_to_value_body, h]

/-- C20, witness: an Int64 value on an 8-byte destination, and a decode with
the Null TypeSpec. -/
theorem C20_unsupported_types_witness :
    is_unsupported SUNS_INT64 ∧
    suns_value_to_buf { suns_value_new with tp := { type := SUNS_INT64, sub_len := 0 } }
      [1, 2, 3, 4, 5, 6, 7, 8] 8 = some (-2, [1, 2, 3, 4, 5, 6, 7, 8]) ∧
    suns_buf_to_value [0x12, 0x34] { type := SUNS_NULL, sub_len := 0 } suns_value_new =
      some (-2, suns_value_new) :=
  ⟨by decide,
   (C20_unsupported_types { suns_value_new with tp := { type := SUNS_INT64, sub_len := 0 } }
      [1, 2, 3, 4, 5, 6, 7, 8] 8 [0x12, 0x34] { type := SUNS_NULL, sub_len := 0 } suns_value_new
      (by decide) (Or.inl rfl)).1,
   (C20_unsupported_types { suns_value_new with tp := { type := SUNS_INT64, sub_len := 0 } }
      [1, 2, 3, 4, 5, 6, 7, 8] 8 [0x12, 0x34] { type := SUNS_NULL, sub_len := 0 } suns_value_new
      (by decide) (Or.inl rfl)).2⟩

theorem toByte_mod (n : Nat) : toByte (n % 256) = toByte n := by
  apply Fin.ext
  simp [toByte_val]

theorem and_255 (x : Nat) : x &&& 0xFF = x % 256 :=
  Nat.and_pow_two_sub_one_eq_mod x 8

theorem htobe16_bits (x : Nat) : htobe16 x = [toByte (x >>> 8), toByte (x &&& 0xFF)] := by
  simp only [htobe16, Nat.shiftRight_eq_div_pow, and_255, toByte_mod]

theorem htobe32_bits (x : Nat) :
    htobe32 x = [toByte (x >>> 24), toByte ((x >>> 16) &&& 0xFF), toByte ((x >>> 8) &&& 0xFF),
      toByte (x &&& 0xFF)] := by
  simp only [htobe32, Nat.shiftRight_eq_div_pow, and_255, toByte_mod]

theorem store_eq (bs buf : List Byte) (n : Nat) (h : bs.length = n) :
    store bs buf = bs ++ buf.drop n := by
  simp [store, h]

/-- C17. Big-endian encoding. With payload bits `x`, `suns_value_to_buf` writes
the 2 bytes `[x >> 8, x & 0xFF]` for a 16-bit-wide tag and the 4 bytes
`[x >> 24, (x >> 16) & 0xFF, (x >> 8) & 0xFF, x & 0xFF]` for a 32-bit-wide tag;
for a String of declared length `n` it writes `n` bytes, the source string
truncated to `n` or padded with zero bytes to `n`, without terminator; the
bytes of the destination beyond that width are unchanged. -/
theorem C17_big_endian_encoding (v : suns_value_t) (buf : List Byte) (len : Nat)
    (s : List Byte) :
    (is_16bit v.tp.type →
      suns_value_to_buf v buf len =
        some ((0 : Int),
          [toByte (v.value.u16 >>> 8), toByte (v.value.u16 &&& 0xFF)] ++ buf.drop 2)) ∧
    (is_32bit v.tp.type →
      suns_value_to_buf v buf len =
        some ((0 : Int),
          [toByte (v.value.u32 >>> 24), toByte ((v.value.u32 >>> 16) &&& 0xFF),
            toByte ((v.value.u32 >>> 8) &&& 0xFF), toByte (v.value.u32 &&& 0xFF)] ++
          buf.drop 4)) ∧
    (v.tp.type = SUNS_STRING → v.value.s = some s →
      suns_value_to_buf v buf len =
        some ((0 : Int),
          truncate_or_pad (c_string s) v.tp.sub_len ++ buf.drop v.tp.sub_len) ∧
      (truncate_or_pad (c_string s) v.tp.sub_len).length = v.tp.sub_len) := by
  refine ⟨?_, ?_, ?_⟩
  · intro h
    rw [← htobe16_bits, ← store_eq (htobe16 v.value.u16) buf 2 rfl]
    rcases h with h | h | h | h | h | h <;> simp [suns_value_to_buf, h]
  · intro h
    rw [← htobe32_bits, ← store_eq (htobe32 v.value.u32) buf 4 rfl]
    rcases h with h | h | h | h | h <;> simp [suns_value_to_buf, h]
  · intro h hs
    rw [← strncpy_eq_truncate_or_pad, ← store_eq _ _ _ (strncpy_length s v.tp.sub_len)]
    exact ⟨by simp [suns_value_to_buf, h, hs], strncpy_length _ _⟩

/-- C17, witness: Int16(1234), UInt32(0x01020304), and the string "ab" with the
declared lengths 1 and 4, each on a destination of six bytes 0xEE. -/
theorem C17_big_endian_encoding_witness :
    suns_value_to_buf (suns_value_set_int16 suns_value_new 1234)
      (List.replicate 6 0xEE) 6 = some (0, [0x04, 0xD2, 0xEE, 0xEE, 0xEE, 0xEE]) ∧
    suns_value_to_buf (suns_value_set_uint32 suns_value_new 0x01020304)
      (List.replicate 6 0xEE) 6 = some (0, [0x01, 0x02, 0x03, 0x04, 0xEE, 0xEE]) ∧
    suns_value_to_buf (suns_value_set_string suns_value_new [97, 98, 0] 4)
      (List.replicate 6 0xEE) 6 = some (0, [97, 98, 0, 0, 0xEE, 0xEE]) ∧
    suns_value_to_buf
      { suns_value_new with
        tp := { type := SUNS_STRING, sub_len := 1 }, value := { bits := 0, s := some [97, 98, 0] } }
      (List.replicate 6 0xEE) 6 = some (0, [97, 0xEE, 0xEE, 0xEE, 0xEE, 0xEE]) :=
  ⟨((C17_big_endian_encoding (suns_value_set_int16 suns_value_new 1234)
      (List.replicate 6 0xEE) 6 []).1 (by decide)).trans (by decide),
   ((C17_big_endian_encoding (suns_value_set_uint32 suns_value_new 0x01020304)
      (List.replicate 6 0xEE) 6 []).2.1 (by decide)).trans (by decide),
   ((C17_big_endian_encoding (suns_value_set_string suns_value_new [97, 98, 0] 4)
      (List.replicate 6 0xEE) 6 [97, 98, 0, 0]).2.2 (by decide) (by decide)).1.trans (by decide),
   ((C17_big_endian_encoding
      { suns_value_new with
        tp := { type := SUNS_STRING, sub_len := 1 }, value := { bits := 0, s := some [97, 98, 0] } }
      (List.replicate 6 0xEE) 6 [97, 98, 0]).2.2 (by decide) (by decide)).1.trans (by decide)⟩

/-! ## Codec: return codes of the encoders -/

/-- The parameter `len` of `suns_value_to_buf` only feeds the debug messages. -/
theorem suns_value_to_buf_len_unused (v : suns_value_t) (buf : List Byte) (len len2 : Nat) :
    suns_value_to_buf v buf len = suns_value_to_buf v buf len2 := by
  unfold suns_value_to_buf
  rfl

theorem suns_value_to_buf_rc (v : suns_value_t) (buf : List Byte) (len : Nat) (rc : Int)
    (out : List Byte) (h : suns_value_to_buf v buf len = some (rc, out)) :
    rc = 0 ∨ (rc = -2 ∧ out = buf) := by
  unfold suns_value_to_buf at h
  split at h
  all_goals first
    | (simp only [Option.some.injEq, Prod.mk.injEq] at h
       exact Or.inr ⟨h.1.symm, h.2.symm⟩)
    | (simp only [Option.some.injEq, Prod.mk.injEq] at h
       exact Or.inl h.1.symm)
    | (split at h
       · cases h
       · simp only [Option.some.injEq, Prod.mk.injEq] at h
         exact Or.inl h.1.symm)

/-- With enough free space, `suns_value_to_buffer` hands back the return code of
`suns_value_to_buf`, which is 0 for every 16-bit and 32-bit tag, and moves the
write position by the wire size. -/
theorem suns_value_to_buffer_fixed (buf : buffer_t) (v : suns_value_t)
    (ht : is_16bit v.tp.type ∨ is_32bit v.tp.type)
    (hspace : suns_type_size v.tp.type ≤ buffer_space buf) :
    ∃ mem, suns_value_to_buffer buf v =
      some (0, { mem := mem, in_ := buf.in_ + suns_type_size v.tp.type }) := by
  have hns : v.tp.type ≠ SUNS_STRING := by
    rcases ht with h | h
    · rcases h with h | h | h | h | h | h <;> simp [h]
    · rcases h with h | h | h | h | h <;> simp [h]
  have hlt : ¬ buffer_space buf < suns_type_size v.tp.type := by omega
  unfold suns_value_to_buffer
  simp only [if_neg hns, if_neg hlt]
  rcases ht with h | h
  · rcases h with h | h | h | h | h | h <;> simp [suns_value_to_buf, h]
  · rcases h with h | h | h | h | h <;> simp [suns_value_to_buf, h]

/-- C18, at the failing input: Int16(1234) written to an empty buffer of four
bytes. Two bytes are added and the write position moves by 2, but the value
returned is 0, the return code of `suns_value_to_buf`, not the count 2. -/
theorem C18_to_buffer_returns_rc :
    suns_value_to_buffer { mem := List.replicate 4 0, in_ := 0 }
      (suns_value_set_int16 suns_value_new 1234) =
      some (0, { mem := [0x04, 0xD2, 0, 0], in_ := 2 }) := by
  decide

/-- C19, at the failing inputs: Int16(1234) with one byte declared free.
`suns_value_to_buf` called with `len = 1` still writes both bytes and returns 0;
`suns_value_to_buffer` on a buffer with one free byte writes nothing and returns
0, the value it also returns after the successful write of the third line. -/
theorem C19_insufficient_space_unreported :
    suns_value_to_buf (suns_value_set_int16 suns_value_new 1234) [0xEE, 0xEE, 0xEE] 1 =
      some (0, [0x04, 0xD2, 0xEE]) ∧
    suns_value_to_buffer { mem := [0xEE, 0xEE, 0xEE], in_ := 2 }
      (suns_value_set_int16 suns_value_new 1234) =
      some (0, { mem := [0xEE, 0xEE, 0xEE], in_ := 2 }) ∧
    suns_value_to_buffer { mem := [0xEE, 0xEE, 0xEE], in_ := 1 }
      (suns_value_set_int16 suns_value_new 1234) =
      some (0, { mem := [0xEE, 0x04, 0xD2], in_ := 3 }) := by
  decide

/-! ## Dataset decoder: lookup of the model -/

theorem suns_find_did_none (did_list : List suns_model_did_t) (id : Nat) :
    suns_find_did did_list id = none ↔ ∀ d ∈ did_list, d.did ≠ id := by
  simp [suns_find_did]

theorem suns_find_did_first (did_list : List suns_model_did_t) (id : Nat)
    (d : suns_model_did_t) :
    suns_find_did did_list id = some d ↔
      d.did = id ∧ ∃ pre post, did_list = pre ++ d :: post ∧ ∀ e ∈ pre, e.did ≠ id := by
  simp [suns_find_did, List.find?_eq_some]

/-- The function `suns_decode_data` returns NULL exactly when the identifier in
bytes 0..1 is not registered. -/
theorem suns_decode_data_null_iff (did_list : List suns_model_did_t) (buf : List Byte)
    (len : Nat) :
    suns_decode_data did_list buf len = some none ↔
      suns_find_did did_list (be16toh buf) = none := by
  simp only [suns_decode_data]
  cases suns_find_did did_list (be16toh buf) with
  | none => simp
  | some did =>
    simp only
    cases decode_blocks buf (be16toh (buf.drop 2)) did.model.dp_blocks 0
      (suns_dataset_new did).values <;> simp

/-- For a registered identifier whose model has no repeating block of length
zero, `suns_decode_data` returns a Dataset that references the entry found by
`suns_find_did`. -/
theorem suns_decode_data_dataset (did_list : List suns_model_did_t) (buf : List Byte)
    (len : Nat) (did : suns_model_did_t)
    (hfind : suns_find_did did_list (be16toh buf) = some did)
    (h : ∀ b ∈ did.model.dp_blocks, b.repeating = true → toSizeT b.len ≠ 0) :
    ∃ values, suns_decode_data did_list buf len = some (some { did := did, values := values }) := by
  obtain ⟨vs, hvs⟩ := decode_blocks_defined buf (be16toh (buf.drop 2)) did.model.dp_blocks 0
    (suns_dataset_new did).values h
  exact ⟨vs, by simp only [suns_decode_data, hfind, hvs]⟩

/-- C15, at the failing input: the identifier 3 is registered (third entry of
the sample registry, a model whose only block repeats and has length 0), the
buffer holds the header (3, 1) and one register of payload, and
`suns_decode_data` returns neither NULL nor a Dataset: the division
`len / dp_block->len / 2` in `suns_decode_dp_block` is a division by zero. With
the identifier 1 the Dataset references the first entry, with the unregistered
identifier 7 the result is NULL. -/
theorem C15_registered_id_without_dataset :
    suns_find_did sample_registry 3 = some { did := 3, model := model_empty_repeating } ∧
    suns_decode_data sample_registry [0x00, 0x03, 0x00, 0x01, 0x04, 0xD2] 6 = none ∧
    (suns_decode_data sample_registry [0x00, 0x01, 0x00, 0x01, 0x04, 0xD2] 6).map
      (fun r => r.map (fun d => d.did)) =
      some (some { did := 1, model := model_one_int16 }) ∧
    suns_decode_data sample_registry [0x00, 0x07, 0x00, 0x01, 0x04, 0xD2] 6 = some none := by
  decide

/-! ## Dataset decoder: the declared length -/

theorem model_fields_no_repeating (blocks : List suns_dp_block_t) (avail : Nat)
    (h : ∀ b ∈ blocks, b.repeating = false) :
    model_fields blocks avail = (blocks.map (fun b => b.dp_list)).flatten := by
  induction blocks generalizing avail with
  | nil => rfl
  | cons b rest ih =>
    have hb := h b (List.mem_cons_self _ _)
    simp only [model_fields, repeat_count, hb, block_fields, List.map_cons, List.flatten_cons]
    rw [ih _ (fun c hc => h c (List.mem_cons_of_mem _ hc))]
    simp

theorem be16toh_instance_buf (id d : Nat) (payload : List Byte) (hid : id < 65536) :
    be16toh (instance_buf id d payload) = id := by
  simp only [instance_buf, htobe16, List.cons_append, List.nil_append, be16toh_cons, toByte_val]
  omega

theorem be16toh_instance_buf_len (id d : Nat) (payload : List Byte) (hd : d < 65536) :
    be16toh ((instance_buf id d payload).drop 2) = d := by
  simp only [instance_buf, htobe16, List.cons_append, List.nil_append, List.drop_succ_cons,
    List.drop_zero, be16toh_cons, toByte_val]
  omega

theorem suns_decode_data_no_repeating (did_list : List suns_model_did_t)
    (did : suns_model_did_t) (id d : Nat) (payload : List Byte) (len : Nat)
    (hid : id < 65536) (hd : d < 65536)
    (hfind : suns_find_did did_list id = some did)
    (hnorep : no_repeating_block did.model)
    (hfit : fields_size (all_fields did.model) ≤ d * 2) :
    suns_decode_data did_list (instance_buf id d payload) len =
      some (some { did := did, values := decode_fields payload (all_fields did.model) 0 }) := by
  have h := decode_blocks_all (instance_buf id d payload) d hd did.model.dp_blocks 0 []
    (by omega) (fun b hb hr => by rw [hnorep b hb] at hr; cases hr)
    (by rw [model_fields_no_repeating _ _ hnorep]; simpa [all_fields] using hfit)
  rw [model_fields_no_repeating _ _ hnorep] at h
  have e : decode_fields (instance_buf id d payload) (all_fields did.model) 4 =
      decode_fields payload (all_fields did.model) 0 := by
    have := decode_fields_drop (instance_buf id d payload) (all_fields did.model) 4 0
    simpa [instance_buf, htobe16] using this.symm
  simp only [suns_decode_data, be16toh_instance_buf _ _ _ hid, be16toh_instance_buf_len _ _ _ hd,
    hfind, suns_dataset_new, h]
  simp only [all_fields] at e
  simp [e, all_fields]

/-- C16 (amended). Declared length and the model's own geometry. For every
registered model without a repeating block and every payload, the Values
returned by `suns_decode_data` are the same for any two declared lengths that
cover the fields of the model (twice the declared length is at least the byte
size of all fields), whether larger or smaller than the model's `len`: they are
the fields of the model decoded one after the other from the payload. -/
theorem C16_declared_length (did_list : List suns_model_did_t) (did : suns_model_did_t)
    (id d1 d2 : Nat) (payload : List Byte) (len1 len2 : Nat)
    (hid : id < 65536) (hd1 : d1 < 65536) (hd2 : d2 < 65536)
    (hfind : suns_find_did did_list id = some did)
    (hnorep : no_repeating_block did.model)
    (hfit1 : fields_size (all_fields did.model) ≤ d1 * 2)
    (hfit2 : fields_size (all_fields did.model) ≤ d2 * 2) :
    suns_decode_data did_list (instance_buf id d1 payload) len1 =
      suns_decode_data did_list (instance_buf id d2 payload) len2 ∧
    suns_decode_data did_list (instance_buf id d1 payload) len1 =
      some (some { did := did, values := decode_fields payload (all_fields did.model) 0 }) := by
  rw [suns_decode_data_no_repeating did_list did id d1 payload len1 hid hd1 hfind hnorep hfit1,
    suns_decode_data_no_repeating did_list did id d2 payload len2 hid hd2 hfind hnorep hfit2]
  exact ⟨rfl, rfl⟩

/-- C16, witness: model 1 of the sample registry (one Int16 field, `len = 1`)
with the payload 0x04D2 0x0000, declared length 2 against declared length 1. -/
theorem C16_declared_length_witness :
    model_one_int16.len = 1 ∧ model_one_int16.base_len = 1 ∧
    suns_decode_data sample_registry (instance_buf 1 2 [0x04, 0xD2, 0x00, 0x00]) 8 =
      suns_decode_data sample_registry (instance_buf 1 1 [0x04, 0xD2, 0x00, 0x00]) 8 ∧
    suns_decode_data sample_registry (instance_buf 1 2 [0x04, 0xD2, 0x00, 0x00]) 8 =
      some (some { did := { did := 1, model := model_one_int16 },
                   values := decode_fields [0x04, 0xD2, 0x00, 0x00]
                     (all_fields model_one_int16) 0 }) :=
  ⟨by decide, by decide,
   C16_declared_length sample_registry { did := 1, model := model_one_int16 } 1 2 1
     [0x04, 0xD2, 0x00, 0x00] 8 8 (by decide) (by decide) (by decide) (by decide) (by decide)
     (by decide) (by decide)⟩

/-- C16, counterexample. Model 1 of the sample registry has no repeating block
and `base_len = len = 1`; the buffer holds one register of payload. With the
declared length 0 the Dataset has no Value, with the declared length 1 it has
the Value Int16(1234): the decoder bounds every block by the declared length,
not by the model's `len`. -/
theorem C16_counterexample :
    model_one_int16.base_len = model_one_int16.len ∧
    (suns_decode_data sample_registry (instance_buf 1 0 [0x04, 0xD2]) 6).map
      (fun r => r.map (fun d => d.values.map (fun v => (v.name, v.value.u16)))) =
      some (some []) ∧
    (suns_decode_data sample_registry (instance_buf 1 1 [0x04, 0xD2]) 6).map
      (fun r => r.map (fun d => d.values.map (fun v => (v.name, v.value.u16)))) =
      some (some [(some "A", 1234)]) := by
  decide

/-! ## Discovery traversal: the register reads -/

theorem find_base_register_traced_fst (mb : modbus_t) (l : List Int) :
    (find_base_register_traced mb l).1 = find_base_register mb l := by
  induction l with
  | nil => rfl
  | cons r rest ih =>
    simp only [find_base_register_traced, find_base_register]
    cases mb (r - 1) 2 with
    | none => exact ih
    | some regs =>
      simp only
      split
      · rfl
      · exact ih

theorem read_device_loop_traced_fst (did_list : List suns_model_did_t) (mb : modbus_t)
    (base : Int) (fuel : Nat) :
    ∀ (offset : Int) (buf : List Byte) (out : List suns_dataset_t),
      (read_device_loop_traced did_list mb base fuel offset buf out).1 =
        read_device_loop did_list mb base fuel offset buf out := by
  induction fuel with
  | zero =>
    intro offset buf out
    rfl
  | succ n ih =>
    intro offset buf out
    simp only [read_device_loop_traced, read_device_loop]
    cases mb (base + offset - 1) 2 with
    | none => rfl
    | some regs =>
      simp only
      split
      · rfl
      split
      · rfl
      cases hdid : suns_find_did did_list (regs.getD 0 0) with
      | none =>
        simp only
        cases mb (base + offset - 1) (regs.getD 1 0 + 2) with
        | none => rfl
        | some regs2 =>
          simp only
          split
          · rfl
          · exact ih _ _ _
      | some d =>
        simp only
        cases length_check d (regs.getD 1 0) with
        | none => rfl
        | some c =>
          simp only
          cases mb (base + offset - 1) (regs.getD 1 0 + 2) with
          | none => rfl
          | some regs2 =>
            simp only
            split
            · rfl
            · cases suns_decode_data did_list
                (store (suns_app_swap_registers regs2 (regs.getD 1 0 + 2)) buf)
                ((regs.getD 1 0 + 2) * 2) with
              | none => rfl
              | some r =>
                cases r with
                | none => rfl
                | some data => exact ih _ _ _

theorem suns_app_read_device_traced_result (did_list : List suns_model_did_t) (mb : modbus_t)
    (buf0 : List Byte) (fuel : Nat) :
    (suns_app_read_device_traced did_list mb buf0 fuel).result =
      suns_app_read_device did_list mb buf0 fuel := by
  simp only [suns_app_read_device_traced, suns_app_read_device, find_base_register_traced_fst,
    read_device_loop_traced_fst]
  split
  · rfl
  · cases read_device_loop did_list mb (find_base_register mb search_registers) fuel 2 buf0 [] with
    | done r => rfl
    | fault => rfl
    | out_of_fuel => rfl

theorem cons_eq_split {α : Type} (a : α) (t pre : List α) (rd : α) (post : List α)
    (h : a :: t = pre ++ rd :: post) :
    (pre = [] ∧ a = rd ∧ t = post) ∨ ∃ pre2, pre = a :: pre2 ∧ t = pre2 ++ rd :: post := by
  cases pre with
  | nil =>
    left
    simpa using h
  | cons b pre2 =>
    right
    simp only [List.cons_append, List.cons.injEq] at h
    exact ⟨pre2, by rw [h.1], h.2⟩

theorem stops_nil (mb : modbus_t) (r : run (Int × List suns_dataset_t)) :
    stops_at_failed_read mb r [] := by
  intro pre rd post h
  simp at h

theorem stops_cons (mb : modbus_t) (r : run (Int × List suns_dataset_t)) (a : Int × Nat)
    (t : List (Int × Nat)) (ha : mb a.1 a.2 ≠ none) (ht : stops_at_failed_read mb r t) :
    stops_at_failed_read mb r (a :: t) := by
  intro pre rd post h hf
  rcases cons_eq_split a t pre rd post h with ⟨_, rfl, _⟩ | ⟨pre2, _, h2⟩
  · exact absurd hf ha
  · exact ht pre2 rd post h2 hf

theorem stops_last (mb : modbus_t) (out : List suns_dataset_t) (a : Int × Nat) :
    stops_at_failed_read mb (run.done (-1, out)) [a] := by
  intro pre rd post h _
  rcases cons_eq_split a [] pre rd post h with ⟨_, _, h2⟩ | ⟨pre2, _, h2⟩
  · exact ⟨h2.symm, out, rfl⟩
  · simp at h2

/-- In the loop over the instances a failed read is the last read issued, and
the loop ends with the return code -1. -/
theorem read_device_loop_stops (did_list : List suns_model_did_t) (mb : modbus_t)
    (base : Int) (fuel : Nat) :
    ∀ (offset : Int) (buf : List Byte) (out : List suns_dataset_t),
      stops_at_failed_read mb
        (read_device_loop_traced did_list mb base fuel offset buf out).1
        (read_device_loop_traced did_list mb base fuel offset buf out).2 := by
  induction fuel with
  | zero =>
    intro offset buf out
    exact stops_nil _ _
  | succ n ih =>
    intro offset buf out
    simp only [read_device_loop_traced]
    cases h1 : mb (base + offset - 1) 2 with
    | none => exact stops_last _ _ _
    | some regs =>
      have ok1 : mb ((base + offset - 1, 2) : Int × Nat).1 ((base + offset - 1, 2) : Int × Nat).2
          ≠ none := by simp [h1]
      simp only
      split
      · exact stops_cons _ _ _ _ ok1 (stops_nil _ _)
      split
      · exact stops_cons _ _ _ _ ok1 (stops_nil _ _)
      cases hdid : suns_find_did did_list (regs.getD 0 0) with
      | none =>
        simp only
        cases h2 : mb (base + offset - 1) (regs.getD 1 0 + 2) with
        | none => exact stops_cons _ _ _ _ ok1 (stops_last _ _ _)
        | some regs2 =>
          have ok2 : mb ((base + offset - 1, regs.getD 1 0 + 2) : Int × Nat).1
              ((base + offset - 1, regs.getD 1 0 + 2) : Int × Nat).2 ≠ none :=
            fun h => Option.noConfusion (h2.symm.trans h)
          simp only
          split
          · exact stops_cons _ _ _ _ ok1 (stops_cons _ _ _ _ ok2 (stops_nil _ _))
          · exact stops_cons _ _ _ _ ok1 (stops_cons _ _ _ _ ok2 (ih _ _ _))
      | some d =>
        simp only
        cases length_check d (regs.getD 1 0) with
        | none => exact stops_cons _ _ _ _ ok1 (stops_nil _ _)
        | some c =>
          simp only
          cases h2 : mb (base + offset - 1) (regs.getD 1 0 + 2) with
          | none => exact stops_cons _ _ _ _ ok1 (stops_last _ _ _)
          | some regs2 =>
            have ok2 : mb ((base + offset - 1, regs.getD 1 0 + 2) : Int × Nat).1
                ((base + offset - 1, regs.getD 1 0 + 2) : Int × Nat).2 ≠ none :=
            fun h => Option.noConfusion (h2.symm.trans h)
            simp only
            split
            · exact stops_cons _ _ _ _ ok1 (stops_cons _ _ _ _ ok2 (stops_nil _ _))
            · cases suns_decode_data did_list
                (store (suns_app_swap_registers regs2 (regs.getD 1 0 + 2)) buf)
                ((regs.getD 1 0 + 2) * 2) with
              | none => exact stops_cons _ _ _ _ ok1 (stops_cons _ _ _ _ ok2 (stops_nil _ _))
              | some r =>
                cases r with
                | none => exact stops_cons _ _ _ _ ok1 (stops_cons _ _ _ _ ok2 (stops_nil _ _))
                | some data =>
                  exact stops_cons _ _ _ _ ok1 (stops_cons _ _ _ _ ok2 (ih _ _ _))

theorem find_base_traced_nonempty (mb : modbus_t) (r : Int) (rest : List Int) :
    (find_base_register_traced mb (r :: rest)).2 ≠ [] := by
  simp only [find_base_register_traced]
  cases mb (r - 1) 2 with
  | none => simp
  | some regs =>
    simp only
    split <;> simp

/-- The reads of the search for the signature are the candidates in order, up
to the one that shows the signature. -/
theorem find_base_traced_reads (mb : modbus_t) (l : List Int) :
    (find_base_register_traced mb l).2 =
      (l.take (find_base_register_traced mb l).2.length).map (fun r => (r - 1, 2)) := by
  induction l with
  | nil => rfl
  | cons r rest ih =>
    simp only [find_base_register_traced]
    cases mb (r - 1) 2 with
    | none =>
      simp only [List.length_cons, List.take_succ_cons, List.map_cons, List.cons.injEq, true_and]
      exact ih
    | some regs =>
      simp only
      split
      · rfl
      · simp only [List.length_cons, List.take_succ_cons, List.map_cons, List.cons.injEq,
          true_and]
        exact ih

/-- In the search for the signature a failed read is followed by the read of
the next candidate; when it is the last read, the candidates are used up and no
base register was found. -/
theorem find_base_traced_failed (mb : modbus_t) (l : List Int) :
    ∀ pre rd post, (find_base_register_traced mb l).2 = pre ++ rd :: post →
      mb rd.1 rd.2 = none → post = [] →
      (find_base_register_traced mb l).1 = -1 ∧ pre.length + 1 = l.length := by
  induction l with
  | nil =>
    intro pre rd post h
    simp [find_base_register_traced] at h
  | cons r rest ih =>
    intro pre rd post h hf hp
    simp only [find_base_register_traced] at h ⊢
    cases h1 : mb (r - 1) 2 with
    | none =>
      rw [h1] at h
      simp only at h ⊢
      rcases cons_eq_split _ _ pre rd post h with ⟨rfl, _, h2⟩ | ⟨pre2, rfl, h2⟩
      · rw [hp] at h2
        cases rest with
        | nil => exact ⟨rfl, rfl⟩
        | cons a b => exact absurd h2 (find_base_traced_nonempty mb a b)
      · obtain ⟨e1, e2⟩ := ih pre2 rd post h2 hf hp
        exact ⟨e1, by simp only [List.length_cons]; omega⟩
    | some regs =>
      rw [h1] at h
      simp only at h ⊢
      split at h
      · rcases cons_eq_split _ _ pre rd post h with ⟨_, rfl, _⟩ | ⟨pre2, _, h2⟩
        · exact absurd hf (fun hh => Option.noConfusion (h1.symm.trans hh))
        · simp at h2
      · rename_i hns
        rw [if_neg hns]
        rcases cons_eq_split _ _ pre rd post h with ⟨_, rfl, _⟩ | ⟨pre2, rfl, h2⟩
        · exact absurd hf (fun hh => Option.noConfusion (h1.symm.trans hh))
        · obtain ⟨e1, e2⟩ := ih pre2 rd post h2 hf hp
          exact ⟨e1, by simp only [List.length_cons]; omega⟩

/-- C14 (amended). Read failure. For every registry, transport and failed read
`rd`: if `rd` is a read of the scan of the instances, it is the last read
issued and `suns_app_read_device` returns -1; if `rd` is a read of the probe of
the candidate base addresses, the traversal does not stop there: either the
next read is the probe of the next candidate, or `rd` was the probe of the
last candidate, and then no scan read is issued and the traversal returns -1
without a base register. -/
theorem C14_read_failure (did_list : List suns_model_did_t) (mb : modbus_t)
    (buf0 : List Byte) (fuel : Nat) (pre : List (Int × Nat)) (rd : Int × Nat)
    (post : List (Int × Nat)) (hfail : mb rd.1 rd.2 = none) :
    ((suns_app_read_device_traced did_list mb buf0 fuel).scan = pre ++ rd :: post →
      post = [] ∧
      ∃ res, suns_app_read_device did_list mb buf0 fuel = run.done res ∧ res.rc = -1) ∧
    ((suns_app_read_device_traced did_list mb buf0 fuel).probe = pre ++ rd :: post →
      (∃ c, search_registers[pre.length + 1]? = some c ∧ post.head? = some (c - 1, 2)) ∨
      (post = [] ∧ pre.length + 1 = search_registers.length ∧
        (suns_app_read_device_traced did_list mb buf0 fuel).scan = [] ∧
        suns_app_read_device did_list mb buf0 fuel =
          run.done { rc := -1, base_register := -1, datasets := [] })) := by
  constructor
  · intro h
    rw [← suns_app_read_device_traced_result]
    have hs := read_device_loop_stops did_list mb
      (find_base_register_traced mb search_registers).1 fuel 2 buf0 []
    simp only [suns_app_read_device_traced] at h ⊢
    split at h
    · simp at h
    · rename_i hb
      rw [if_neg hb]
      revert h hs
      cases read_device_loop_traced did_list mb
        (find_base_register_traced mb search_registers).1 fuel 2 buf0 [] with
      | mk r t =>
        cases r with
        | done p =>
          intro hs h
          obtain ⟨hp, ds, hds⟩ := hs pre rd post h hfail
          simp only [run.done.injEq] at hds
          exact ⟨hp, _, rfl, by rw [hds]⟩
        | fault =>
          intro hs h
          obtain ⟨_, ds, hds⟩ := hs pre rd post h hfail
          cases hds
        | out_of_fuel =>
          intro hs h
          obtain ⟨_, ds, hds⟩ := hs pre rd post h hfail
          cases hds
  · intro h
    have hp : (suns_app_read_device_traced did_list mb buf0 fuel).probe =
        (find_base_register_traced mb search_registers).2 := by
      simp only [suns_app_read_device_traced]
      split
      · rfl
      · split <;> rfl
    rw [hp] at h
    cases hpost : post with
    | nil =>
      right
      obtain ⟨e1, e2⟩ := find_base_traced_failed mb search_registers pre rd post h hfail hpost
      refine ⟨rfl, e2, ?_, ?_⟩
      · simp [suns_app_read_device_traced, e1]
      · simp [suns_app_read_device, ← find_base_register_traced_fst, e1]
    | cons a rest =>
      left
      have hr := find_base_traced_reads mb search_registers
      rw [h, hpost] at hr
      have hget := congrArg (fun l => l[pre.length + 1]?) hr
      simp only [List.getElem?_append_right (Nat.le_succ _), Nat.add_sub_cancel_left,
        List.getElem?_cons_succ, List.getElem?_cons_zero, List.getElem?_map] at hget
      cases hc : search_registers[pre.length + 1]? with
      | none =>
        rw [List.getElem?_take] at hget
        simp [hc] at hget
      | some c =>
        refine ⟨c, rfl, ?_⟩
        have hlt : pre.length + 1 < (pre ++ rd :: a :: rest).length := by simp
        rw [List.getElem?_take_of_lt hlt, hc] at hget
        simp only [Option.map_some'] at hget
        simp [← hget]

/-- C14, witness: in the register space cut after the end marker, the read of
two registers at the end marker (address 40005) fails: it is the last scan
read and the traversal returns -1. The probe of the candidate 1 (address 0)
fails as well and is followed by the probe of the candidate 40001. -/
theorem C14_read_failure_witness :
    read_space sample_space_cut 40005 2 = none ∧
    read_space sample_space_cut 0 2 = none ∧
    (suns_app_read_device_traced sample_registry (read_space sample_space_cut) [] 2).scan =
      [(40002, 2), (40002, 3)] ++ (40005, 2) :: [] ∧
    (suns_app_read_device_traced sample_registry (read_space sample_space_cut) [] 2).probe =
      [] ++ (0, 2) :: [(40000, 2)] ∧
    (([] : List (Int × Nat)) = [] ∧
      ∃ res, suns_app_read_device sample_registry (read_space sample_space_cut) [] 2 =
        run.done res ∧ res.rc = -1) ∧
    ((∃ c, search_registers[([] : List (Int × Nat)).length + 1]? = some c ∧
        ([(40000, 2)] : List (Int × Nat)).head? = some (c - 1, 2)) ∨
      (([(40000, 2)] : List (Int × Nat)) = [] ∧
        ([] : List (Int × Nat)).length + 1 = search_registers.length ∧
        (suns_app_read_device_traced sample_registry (read_space sample_space_cut) [] 2).scan
          = [] ∧
        suns_app_read_device sample_registry (read_space sample_space_cut) [] 2 =
          run.done { rc := -1, base_register := -1, datasets := [] })) :=
  ⟨by decide, by decide, by decide, by decide,
   (C14_read_failure sample_registry (read_space sample_space_cut) [] 2
      [(40002, 2), (40002, 3)] (40005, 2) [] (by decide)).1 (by decide),
   (C14_read_failure sample_registry (read_space sample_space_cut) [] 2
      [] (0, 2) [(40000, 2)] (by decide)).2 (by decide)⟩

/-- C14, counterexample. In the sample register space the first read issued,
the probe of the candidate 1 at address 0, fails; the traversal goes on with
five more reads and returns 0 with the Dataset of the instance. -/
theorem C14_counterexample :
    read_space sample_space 0 2 = none ∧
    (suns_app_read_device_traced sample_registry (read_space sample_space) [] 2).probe =
      [(0, 2), (40000, 2)] ∧
    (suns_app_read_device_traced sample_registry (read_space sample_space) [] 2).scan =
      [(40002, 2), (40002, 3), (40005, 2)] ∧
    suns_app_read_device sample_registry (read_space sample_space) [] 2 =
      run.done { rc := 0, base_register := 40001, datasets := [sample_dataset] } := by
  decide

theorem instance_regs_length (inst : Nat × List Nat) :
    (instance_regs inst).length = inst.2.length + 2 := by
  simp [instance_regs]

theorem instances_regs_cons (inst : Nat × List Nat) (rest : List (Nat × List Nat)) :
    instances_regs (inst :: rest) = instance_regs inst ++ instances_regs rest := by
  simp [instances_regs]

theorem instance_dataset_well_formed (did_list : List suns_model_did_t)
    (inst : Nat × List Nat) (h : well_formed_instance did_list inst) :
    ∃ ds, suns_decode_data did_list (instance_bytes inst) ((inst.2.length + 2) * 2) =
        some (some ds) ∧ instance_dataset did_list inst = some ds := by
  obtain ⟨_, _, hid, _, d, last, hfind, _, _, hrep⟩ := h
  obtain ⟨ds, hds⟩ := decode_instance_defined did_list inst ((inst.2.length + 2) * 2) d hid
    hfind hrep
  exact ⟨ds, hds, by simp [instance_dataset, hds]⟩

theorem instance_dataset_unknown (did_list : List suns_model_did_t)
    (inst : Nat × List Nat) (h : unknown_instance did_list inst) :
    instance_dataset did_list inst = none := by
  obtain ⟨_, _, hid, _, hfind⟩ := h
  have hh := (instance_header inst []).1
  rw [List.append_nil, Nat.mod_eq_of_lt hid] at hh
  simp [instance_dataset, suns_decode_data, hh, hfind]

/-- The loop over a sequence of instances, each well formed or unknown: it
issues the reads of the instances, puts out the Datasets of the known ones, and
goes on at the register that follows the last instance. -/
theorem read_device_loop_traced_instances (did_list : List suns_model_did_t)
    (space : Int → Option Nat) (base : Int) (extra : Nat) (insts : List (Nat × List Nat)) :
    ∀ (offset : Int) (buf : List Byte) (out : List suns_dataset_t),
      holds space (base + offset) (instances_regs insts) →
      (∀ inst ∈ insts, well_formed_instance did_list inst ∨ unknown_instance did_list inst) →
      ∃ buf1, read_device_loop_traced did_list (read_space space) base (insts.length + extra)
            offset buf out =
          ((read_device_loop_traced did_list (read_space space) base extra
              (offset + ((instances_regs insts).length : Int)) buf1
              (out ++ insts.filterMap (instance_dataset did_list))).1,
           instances_reads base offset insts ++
            (read_device_loop_traced did_list (read_space space) base extra
              (offset + ((instances_regs insts).length : Int)) buf1
              (out ++ insts.filterMap (instance_dataset did_list))).2) := by
  induction insts with
  | nil =>
    intro offset buf out _ _
    exact ⟨buf, by simp [instances_regs, instances_reads]⟩
  | cons inst rest ih =>
    intro offset buf out h hwf
    have hf : (inst :: rest).length + extra = (rest.length + extra) + 1 := by
      simp only [List.length_cons]
      omega
    rw [instances_regs_cons] at h
    have hilen := instance_regs_length inst
    have hr2 := read_at_offset space base offset _ h 2
      (by rw [List.length_append, hilen]; omega)
    have hrn := read_at_offset space base offset _ h (inst.2.length + 2)
      (by rw [List.length_append, hilen]; omega)
    rw [List.take_append_of_le_length (by rw [hilen]; omega)] at hr2
    rw [List.take_append_of_le_length (by rw [hilen]), List.take_of_length_le (by rw [hilen])]
      at hrn
    have hr2' : (instance_regs inst).take 2 = [inst.1, inst.2.length] := by
      simp [instance_regs]
    rw [hr2'] at hr2
    have hnext := holds_drop space (base + offset) _ _ h
    rw [hilen] at hnext
    have hoff : base + offset + ((inst.2.length + 2 : Nat) : Int) =
        base + (offset + (inst.2.length : Int) + 2) := by
      push_cast
      omega
    rw [hoff] at hnext
    have hend : offset + (inst.2.length : Int) + 2 + ((instances_regs rest).length : Int) =
        offset + ((instances_regs (inst :: rest)).length : Int) := by
      rw [instances_regs_cons, List.length_append, hilen]
      push_cast
      omega
    have hb : suns_app_swap_registers (instance_regs inst) (inst.2.length + 2) =
        instance_bytes inst := rfl
    rcases hwf inst (List.mem_cons_self _ _) with hk | hu
    · obtain ⟨ds, hds, hid⟩ := instance_dataset_well_formed did_list inst hk
      obtain ⟨hid0, hidF, hid16, hcap, d, last, hfind, hlast, hlen, hrep⟩ := hk
      obtain ⟨cb, hcb⟩ := length_check_defined d inst.2.length last hlast hlen
      have hdec := decode_instance_in_buf did_list inst buf ((inst.2.length + 2) * 2)
        ((inst.2.length + 2) * 2) (by omega)
      obtain ⟨buf1, hrun⟩ := ih (offset + (inst.2.length : Int) + 2)
        (store (instance_bytes inst) buf) (out ++ [ds]) hnext
        (fun i hi => hwf i (List.mem_cons_of_mem _ hi))
      refine ⟨buf1, ?_⟩
      rw [hf]
      have hnot : ¬ (1024 < inst.2.length + 2) := by omega
      simp only [read_device_loop_traced, hr2, List.getD_cons_zero, List.getD_cons_succ, hidF,
        hid0, if_false, hfind, hcb, hrn, hnot]
      rw [hb, hdec, hds]
      simp only
      rw [hrun, hend]
      simp [instances_reads, List.filterMap_cons, hid]
    · have hid := instance_dataset_unknown did_list inst hu
      obtain ⟨hid0, hidF, hid16, hcap, hfind⟩ := hu
      obtain ⟨buf1, hrun⟩ := ih (offset + (inst.2.length : Int) + 2)
        (store (instance_bytes inst) buf) out hnext
        (fun i hi => hwf i (List.mem_cons_of_mem _ hi))
      refine ⟨buf1, ?_⟩
      rw [hf]
      have hnot : ¬ (1024 < inst.2.length + 2) := by omega
      simp only [read_device_loop_traced, hr2, List.getD_cons_zero, List.getD_cons_succ, hidF,
        hid0, if_false, hfind, hrn, hnot]
      rw [hb, hrun, hend]
      simp [instances_reads, List.filterMap_cons, hid]

/-- The loop at a register that holds 0x0000: one read of two registers, the
return code -1. -/
theorem read_device_loop_traced_zero (did_list : List suns_model_did_t)
    (space : Int → Option Nat) (base offset : Int) (fuel : Nat) (buf : List Byte)
    (out : List suns_dataset_t) (h : space (base + offset) = some 0) :
    read_device_loop_traced did_list (read_space space) base (fuel + 1) offset buf out =
      (run.done (-1, out), [(base + offset - 1, 2)]) := by
  rcases read_space_two space (base + offset) with ⟨a, b, hr, ha, _⟩ | ⟨hr, _⟩
  · rw [h] at ha
    simp only [Option.some.injEq] at ha
    subst ha
    simp [read_device_loop_traced, hr]
  · simp [read_device_loop_traced, hr]

theorem holds_left (space : Int → Option Nat) (first : Int) (a b : List Nat)
    (h : holds space first (a ++ b)) : holds space first a := by
  intro i hi
  have := h i (by simp; omega)
  rw [List.getElem?_append_left hi] at this
  exact this

/-- A traversal over a register space that holds the signature at the first
candidate `base` that shows it, then a sequence of instances, each well formed
or unknown, then registers at which the loop ends with the return code `rc`
after one read. -/
theorem read_device_traced_layout (did_list : List suns_model_did_t)
    (space : Int → Option Nat) (base : Int) (insts : List (Nat × List Nat))
    (tail : List Nat) (buf0 : List Byte) (extra : Nat) (rc : Int)
    (hbase : base ∈ search_registers)
    (hsig : holds_signature space base)
    (hfirst : ∀ c ∈ search_registers, c < base → ¬ holds_signature space c)
    (hlay : holds space (base + 2) (instances_regs insts ++ tail))
    (hwf : ∀ inst ∈ insts, well_formed_instance did_list inst ∨ unknown_instance did_list inst)
    (htail : ∀ buf out, read_device_loop_traced did_list (read_space space) base (extra + 1)
        (2 + ((instances_regs insts).length : Int)) buf out =
      (run.done (rc, out), [(base + (2 + ((instances_regs insts).length : Int)) - 1, 2)])) :
    suns_app_read_device_traced did_list (read_space space) buf0 (insts.length + 1 + extra) =
      { result := run.done { rc := rc, base_register := base,
                             datasets := insts.filterMap (instance_dataset did_list) },
        probe := (find_base_register_traced (read_space space) search_registers).2,
        scan := instances_reads base 2 insts ++
          [(base + (2 + ((instances_regs insts).length : Int)) - 1, 2)] } := by
  have hb : (find_base_register_traced (read_space space) search_registers).1 = base := by
    rw [find_base_register_traced_fst]
    exact find_base_first space base hbase hsig hfirst
  have hnn : ¬ base < 0 := by
    simp only [search_registers, List.mem_cons, List.mem_singleton, List.not_mem_nil,
      or_false] at hbase
    rcases hbase with rfl | rfl | rfl <;> decide
  have hfuel : insts.length + 1 + extra = insts.length + (extra + 1) := by omega
  obtain ⟨buf1, hrun⟩ := read_device_loop_traced_instances did_list space base (extra + 1)
    insts 2 buf0 [] (holds_left _ _ _ _ hlay) hwf
  rw [htail] at hrun
  simp only [suns_app_read_device_traced, hb, if_neg hnn, hfuel, hrun, List.nil_append]

/-- The traversal at 0x0000 in the place of a model identifier. Let a register
space hold the signature at a candidate base address and at no smaller
candidate, then from `base + 2` zero or more instances, each of an unknown
model or of a registered model that the decoder handles (`well_formed_instance`:
among others no repeating block of length zero), then a register that holds
0x0000. Then `suns_app_read_device`, given one loop iteration per instance plus
one, returns the failure code -1 with the Datasets of the instances that
precede that register, and the last register read it issues is the read of the
two header registers at that register. -/
theorem missing_end_marker_stops (did_list : List suns_model_did_t)
    (space : Int → Option Nat) (base : Int) (insts : List (Nat × List Nat))
    (buf0 : List Byte) (extra : Nat)
    (hbase : base ∈ search_registers)
    (hsig : holds_signature space base)
    (hfirst : ∀ c ∈ search_registers, c < base → ¬ holds_signature space c)
    (hlay : holds space (base + 2) (instances_regs insts ++ [0]))
    (hwf : ∀ inst ∈ insts,
      well_formed_instance did_list inst ∨ unknown_instance did_list inst) :
    suns_app_read_device did_list (read_space space) buf0 (insts.length + 1 + extra) =
      run.done { rc := -1, base_register := base,
                 datasets := insts.filterMap (instance_dataset did_list) } ∧
    (suns_app_read_device_traced did_list (read_space space) buf0
        (insts.length + 1 + extra)).scan =
      instances_reads base 2 insts ++
        [(base + (2 + ((instances_regs insts).length : Int)) - 1, 2)] ∧
    (∀ inst ∈ insts, well_formed_instance did_list inst →
      ∃ ds, instance_dataset did_list inst = some ds) := by
  have hz : space (base + (2 + ((instances_regs insts).length : Int))) = some 0 := by
    have h := holds_drop space (base + 2) _ _ hlay 0 (by simp)
    have e : base + 2 + ((instances_regs insts).length : Int) + ((0 : Nat) : Int) =
        base + (2 + ((instances_regs insts).length : Int)) := by
      push_cast
      omega
    rw [e] at h
    simpa using h
  have hT := read_device_traced_layout did_list space base insts [0] buf0 extra (-1) hbase hsig
    hfirst hlay hwf
    (fun buf out => read_device_loop_traced_zero did_list space base _ extra buf out hz)
  refine ⟨?_, ?_, ?_⟩
  · rw [← suns_app_read_device_traced_result, hT]
  · rw [hT]
  · intro inst _ hk
    obtain ⟨ds, _, hds⟩ := instance_dataset_well_formed did_list inst hk
    exact ⟨ds, hds⟩

/-- The traversal over `sample_space_zero`: the signature at 40001/40002, the
instance `[1][1][0x04D2]`, then 0x0000 with readable registers after it. The
header read at the register 40006 (address 40005) succeeds, the test of the
identifier against 0 gives the return code -1, the Dataset of the instance is
put out, and nothing is read after that header. -/
theorem missing_end_marker_example :
    holds_signature sample_space_zero 40001 ∧
    holds sample_space_zero (40001 + 2) (instances_regs [(1, [0x04D2])] ++ [0]) ∧
    well_formed_instance sample_registry (1, [0x04D2]) ∧
    suns_app_read_device sample_registry (read_space sample_space_zero) [] 2 =
      run.done { rc := -1, base_register := 40001, datasets := [sample_dataset] } ∧
    (suns_app_read_device_traced sample_registry (read_space sample_space_zero) [] 2).scan =
      [(40002, 2), (40002, 3), (40005, 2)] := by
  have hsig : holds_signature sample_space_zero 40001 := ⟨by decide, by decide⟩
  have hfirst : ∀ c ∈ search_registers, c < 40001 → ¬ holds_signature sample_space_zero c := by
    intro c hc hlt hs
    simp only [search_registers, List.mem_cons, List.mem_singleton, List.not_mem_nil,
      or_false] at hc
    rcases hc with rfl | rfl | rfl
    · exact absurd hs.1 (by decide)
    · exact absurd hlt (by decide)
    · exact absurd hlt (by decide)
  have hlay : holds sample_space_zero (40001 + 2)
      (instances_regs [(1, [0x04D2])] ++ [0]) := by
    intro i hi
    have h4 : i < 4 := hi
    interval_cases i <;> decide
  have hwf : well_formed_instance sample_registry (1, [0x04D2]) :=
    ⟨by decide, by decide, by decide, by decide,
      { did := 1, model := model_one_int16 },
      { dp_list := [{ dp_of "A" SUNS_INT16 with offset := 3 }], repeating := false, len := 1 },
      by decide, by decide, by decide, by decide⟩
  have h := missing_end_marker_stops sample_registry sample_space_zero 40001
    [(1, [0x04D2])] [] 0 (by decide) hsig hfirst hlay
    (by intro inst hi; rw [List.mem_singleton.mp hi]; exact Or.inl hwf)
  exact ⟨hsig, hlay, hwf, h.1.trans (by decide), h.2.1.trans (by decide)⟩

theorem read_space_some_first (space : Int → Option Nat) (addr : Int) (nb : Nat)
    (regs : List Nat) (h : read_space space addr (nb + 1) = some regs) :
    space (addr + 1) ≠ none := by
  simp only [read_space] at h
  split at h
  · rename_i hall
    rw [List.all_eq_true] at hall
    have := hall 0 (by simp)
    simp only [Nat.cast_zero, add_zero] at this
    intro hn
    rw [hn] at this
    cases this
  · cases h

/-- Over a register space without readable register from `B` on, the loop of
`suns_app_read_device` ends within `B - (base + offset)` iterations, plus one. -/
theorem read_device_loop_terminates (did_list : List suns_model_did_t)
    (space : Int → Option Nat) (base B : Int) (hB : ∀ n, B ≤ n → space n = none)
    (fuel : Nat) :
    ∀ (offset : Int) (buf : List Byte) (out : List suns_dataset_t),
      (B - (base + offset)).toNat < fuel →
      read_device_loop did_list (read_space space) base fuel offset buf out ≠
        run.out_of_fuel := by
  induction fuel with
  | zero =>
    intro offset buf out h
    omega
  | succ n ih =>
    intro offset buf out h
    simp only [read_device_loop]
    cases h1 : read_space space (base + offset - 1) 2 with
    | none => simp
    | some regs =>
      have hs := read_space_some_first space _ 1 regs h1
      have hlt : base + offset < B := by
        by_contra hge
        exact hs (hB _ (by omega))
      have hrec : ∀ len : Nat, (B - (base + (offset + (len : Int) + 2))).toNat < n := by
        intro len
        omega
      simp only
      split
      · simp
      split
      · simp
      cases hdid : suns_find_did did_list (regs.getD 0 0) with
      | none =>
        simp only
        cases read_space space (base + offset - 1) (regs.getD 1 0 + 2) with
        | none => simp
        | some regs2 =>
          simp only
          split
          · simp
          · exact ih _ _ _ (hrec _)
      | some d =>
        simp only
        cases length_check d (regs.getD 1 0) with
        | none => simp
        | some c =>
          simp only
          cases read_space space (base + offset - 1) (regs.getD 1 0 + 2) with
          | none => simp
          | some regs2 =>
            simp only
            split
            · simp
            · cases suns_decode_data did_list
                (store (suns_app_swap_registers regs2 (regs.getD 1 0 + 2)) buf)
                ((regs.getD 1 0 + 2) * 2) with
              | none => simp
              | some r =>
                cases r with
                | none => simp
                | some data => exact ih _ _ _ (hrec _)

theorem find_base_register_ge (mb : modbus_t) (l : List Int) (h : ∀ c ∈ l, 0 ≤ c) :
    -1 ≤ find_base_register mb l := by
  induction l with
  | nil => simp [find_base_register]
  | cons r rest ih =>
    have hr := h r (List.mem_cons_self _ _)
    have ih2 := ih (fun c hc => h c (List.mem_cons_of_mem _ hc))
    simp only [find_base_register]
    cases mb (r - 1) 2 with
    | none => exact ih2
    | some regs =>
      simp only
      split
      · omega
      · exact ih2

/-- Over a register space without readable register from `B` on,
`suns_app_read_device` does not use up `B + 1` loop iterations: it returns or
reaches a fault. -/
theorem read_device_terminates (did_list : List suns_model_did_t)
    (space : Int → Option Nat) (B : Int) (hB : ∀ n, B ≤ n → space n = none)
    (buf0 : List Byte) (fuel : Nat) (hfuel : B.toNat < fuel) :
    suns_app_read_device did_list (read_space space) buf0 fuel ≠ run.out_of_fuel := by
  simp only [suns_app_read_device]
  split
  · simp
  · rename_i hb
    have hl := read_device_loop_terminates did_list space
      (find_base_register (read_space space) search_registers) B hB fuel 2 buf0 [] (by omega)
    revert hl
    cases read_device_loop did_list (read_space space)
      (find_base_register (read_space space) search_registers) fuel 2 buf0 [] with
    | done r => simp
    | fault => simp
    | out_of_fuel => simp

/-- Over a register space with finitely many readable registers,
`suns_app_read_device` needs only a bounded number of loop iterations. -/
theorem read_device_terminates_finite (did_list : List suns_model_did_t)
    (space : Int → Option Nat) (hfin : Set.Finite {n : Int | space n ≠ none})
    (buf0 : List Byte) :
    ∃ fuel0, ∀ fuel, fuel0 ≤ fuel →
      suns_app_read_device did_list (read_space space) buf0 fuel ≠ run.out_of_fuel := by
  obtain ⟨M, hM⟩ := hfin.bddAbove
  refine ⟨(M + 1).toNat + 1, fun fuel hf => ?_⟩
  apply read_device_terminates did_list space (M + 1) _ buf0 fuel (by omega)
  intro n hn
  by_contra hne
  have := hM hne
  omega

/-- The return code of the loop of `suns_app_read_device` is 0 or -1. -/
theorem read_device_loop_rc (did_list : List suns_model_did_t) (mb : modbus_t) (base : Int)
    (fuel : Nat) :
    ∀ (offset : Int) (buf : List Byte) (out : List suns_dataset_t) (r : Int × List suns_dataset_t),
      read_device_loop did_list mb base fuel offset buf out = run.done r →
      r.1 = 0 ∨ r.1 = -1 := by
  induction fuel with
  | zero =>
    intro offset buf out r h
    cases h
  | succ n ih =>
    intro offset buf out r h
    simp only [read_device_loop] at h
    revert h
    cases mb (base + offset - 1) 2 with
    | none =>
      intro h
      cases h
      exact Or.inr rfl
    | some regs =>
      simp only
      split
      · intro h
        cases h
        exact Or.inl rfl
      split
      · intro h
        cases h
        exact Or.inr rfl
      cases hdid : suns_find_did did_list (regs.getD 0 0) with
      | none =>
        simp only
        cases mb (base + offset - 1) (regs.getD 1 0 + 2) with
        | none =>
          intro h
          cases h
          exact Or.inr rfl
        | some regs2 =>
          simp only
          split
          · intro h
            cases h
          · exact ih _ _ _ _
      | some d =>
        simp only
        cases length_check d (regs.getD 1 0) with
        | none =>
          intro h
          cases h
        | some c =>
          simp only
          cases mb (base + offset - 1) (regs.getD 1 0 + 2) with
          | none =>
            intro h
            cases h
            exact Or.inr rfl
          | some regs2 =>
            simp only
            split
            · intro h
              cases h
            · cases suns_decode_data did_list
                (store (suns_app_swap_registers regs2 (regs.getD 1 0 + 2)) buf)
                ((regs.getD 1 0 + 2) * 2) with
              | none =>
                intro h
                cases h
              | some r2 =>
                cases r2 with
                | none =>
                  intro h
                  cases h
                | some data => exact ih _ _ _ _

/-- C12, at the failing input: the sample registry, whose model 3 has a
repeating block of length 0, and the register space that holds the signature,
the instance `[3][0]`, the end marker and one more register. Whatever the
number of loop iterations allowed, `suns_app_read_device` returns neither
success nor failure: the decoding of the instance divides by zero. -/
theorem C12_traversal_crashes (fuel : Nat) :
    suns_app_read_device sample_registry
        (read_space (space_of 40001 [0x5375, 0x6e53, 3, 0, 0xFFFF, 0])) [] (fuel + 1) =
      run.fault := by
  rfl

/-- The setters of Int16, UInt16, Int32 and UInt32 mark the sentinel pattern of
their type, and only it, as not implemented; they set their own tag and store
the argument. -/
theorem setters_sentinel (v : suns_value_t) :
    (∀ i : Int, -32768 ≤ i → i ≤ 32767 →
      ((suns_value_set_int16 v i).meta = SUNS_VALUE_NOT_IMPLEMENTED ↔ toUInt16 i = 0x8000) ∧
      ((suns_value_set_int16 v i).meta = SUNS_VALUE_OK ↔ toUInt16 i ≠ 0x8000) ∧
      (suns_value_set_int16 v i).tp.type = SUNS_INT16 ∧
      (suns_value_set_int16 v i).value.i16 = i) ∧
    (∀ x : Nat, x < 65536 →
      ((suns_value_set_uint16 v x).meta = SUNS_VALUE_NOT_IMPLEMENTED ↔ x = 0xFFFF) ∧
      ((suns_value_set_uint16 v x).meta = SUNS_VALUE_OK ↔ x ≠ 0xFFFF) ∧
      (suns_value_set_uint16 v x).tp.type = SUNS_UINT16 ∧
      (suns_value_set_uint16 v x).value.u16 = x) ∧
    (∀ i : Int, -2147483648 ≤ i → i ≤ 2147483647 →
      ((suns_value_set_int32 v i).meta = SUNS_VALUE_NOT_IMPLEMENTED ↔
        toUInt32 i = 0x80000000) ∧
      ((suns_value_set_int32 v i).meta = SUNS_VALUE_OK ↔ toUInt32 i ≠ 0x80000000) ∧
      (suns_value_set_int32 v i).tp.type = SUNS_INT32 ∧
      (suns_value_set_int32 v i).value.i32 = i) ∧
    (∀ x : Nat, x < 4294967296 →
      ((suns_value_set_uint32 v x).meta = SUNS_VALUE_NOT_IMPLEMENTED ↔ x = 0xFFFFFFFF) ∧
      ((suns_value_set_uint32 v x).meta = SUNS_VALUE_OK ↔ x ≠ 0xFFFFFFFF) ∧
      (suns_value_set_uint32 v x).tp.type = SUNS_UINT32 ∧
      (suns_value_set_uint32 v x).value.u32 = x) := by
  refine ⟨?_, ?_, ?_, ?_⟩
  · intro i h1 h2
    have e : toUInt16 i = 0x8000 ↔ i = -32768 := by
      simp only [toUInt16]
      omega
    refine ⟨?_, ?_, rfl, ?_⟩
    · rw [e]
      by_cases h : i = -32768 <;> simp [suns_value_set_int16, h]
    · rw [Ne, e]
      by_cases h : i = -32768 <;> simp [suns_value_set_int16, h]
    · simp only [suns_value_set_int16, set_u16_i16]
      exact toInt16_toUInt16 i h1 h2
  · intro x hx
    refine ⟨?_, ?_, rfl, ?_⟩
    · by_cases h : x = 0xFFFF <;> simp [suns_value_set_uint16, h]
    · by_cases h : x = 0xFFFF <;> simp [suns_value_set_uint16, h]
    · simp only [suns_value_set_uint16, set_u16_u16]
      exact Nat.mod_eq_of_lt hx
  · intro i h1 h2
    have e : toUInt32 i = 0x80000000 ↔ i = -2147483648 := by
      simp only [toUInt32]
      omega
    refine ⟨?_, ?_, rfl, ?_⟩
    · rw [e]
      by_cases h : i = -2147483648 <;> simp [suns_value_set_int32, h]
    · rw [Ne, e]
      by_cases h : i = -2147483648 <;> simp [suns_value_set_int32, h]
    · simp only [suns_value_set_int32, set_u32_i32]
      exact toInt32_toUInt32 i h1 h2
  · intro x hx
    refine ⟨?_, ?_, rfl, ?_⟩
    · by_cases h : x = 0xFFFFFFFF <;> simp [suns_value_set_uint32, h]
    · by_cases h : x = 0xFFFFFFFF <;> simp [suns_value_set_uint32, h]
    · simp only [suns_value_set_uint32, set_u32_u32]
      exact Nat.mod_eq_of_lt hx

/-- The setter of the scale factor gives the status Ok for every argument, sets
the tag `SUNS_SF` and stores the argument. -/
theorem suns_value_set_sunssf_ok (v : suns_value_t) (x : Nat) (hx : x < 65536) :
    (suns_value_set_sunssf v x).meta = SUNS_VALUE_OK ∧
    (suns_value_set_sunssf v x).tp.type = SUNS_SF ∧
    (suns_value_set_sunssf v x).value.u16 = x := by
  refine ⟨rfl, rfl, ?_⟩
  simp only [suns_value_set_sunssf, set_u16_u16]
  exact Nat.mod_eq_of_lt hx

/-- C21, at the failing input: the scale factor with the raw pattern 0x8000.
`suns_value_set_sunssf` gives the status Ok, where `suns_value_set_int16` with
the same pattern and `suns_buf_to_value` with the bytes 80 00 and the tag
`SUNS_SF` give the status not implemented. -/
theorem C21_sunssf_sentinel_undetected :
    (suns_value_set_sunssf suns_value_new 0x8000).meta = SUNS_VALUE_OK ∧
    (suns_value_set_sunssf suns_value_new 0x8000).value.u16 = 0x8000 ∧
    (suns_value_set_int16 suns_value_new (-32768)).meta = SUNS_VALUE_NOT_IMPLEMENTED ∧
    (suns_value_set_int16 suns_value_new (-32768)).value.u16 = 0x8000 ∧
    (suns_buf_to_value [0x80, 0x00] { type := SUNS_SF, sub_len := 0 } suns_value_new).map
      (fun r => (r.1, r.2.meta)) = some (0, SUNS_VALUE_NOT_IMPLEMENTED) := by
  decide

/-- The function `suns_value_set_string` sets the tag String and the declared
length, stores in the first `len` bytes of the block the source string
truncated or padded with zero bytes, and leaves the status as it was. -/
theorem suns_value_set_string_spec (v : suns_value_t) (string : List Byte) (len : Nat) :
    (suns_value_set_string v string len).tp = { type := SUNS_STRING, sub_len := len } ∧
    (∃ block, (suns_value_set_string v string len).value.s = some block ∧
      block.take len = truncate_or_pad (c_string string) len) ∧
    (suns_value_set_string v string len).meta = v.meta := by
  refine ⟨rfl, ⟨_, rfl, ?_⟩, rfl⟩
  rw [← strncpy_eq_truncate_or_pad]
  simp only [store]
  rw [List.take_append_of_le_length (by rw [strncpy_length]),
    List.take_of_length_le (by rw [strncpy_length])]

/-- C22, at the failing input: a freshly initialised Value, the source string
"ab" and the declared length 4. The Value has the tag String, the declared
length 4 and the bytes 61 62 00 00, but its status is still the one of
`suns_value_init`, `SUNS_VALUE_NULL`, not Ok. -/
theorem C22_string_status_not_set :
    (suns_value_set_string suns_value_new [97, 98, 0] 4).meta = SUNS_VALUE_NULL ∧
    (suns_value_set_string suns_value_new [97, 98, 0] 4).tp =
      { type := SUNS_STRING, sub_len := 4 } ∧
    (suns_value_set_string suns_value_new [97, 98, 0] 4).value.s = some [97, 98, 0, 0] ∧
    (suns_value_set_string (suns_value_set_uint16 suns_value_new 0xFFFF) [97, 98, 0] 4).meta =
      SUNS_VALUE_NOT_IMPLEMENTED := by
  decide

/-- The getters other than `suns_value_get_int32` fail on a Value whose tag is
not the one of their type; for `suns_value_get_sunssf` the tag is the constant
`SUNS_SUNSSF` of its assertion. -/
theorem getters_type_mismatch (v : suns_value_t) (SUNS_SUNSSF : suns_type_t) :
    (v.tp.type ≠ SUNS_UINT16 → suns_value_get_uint16 v = none) ∧
    (v.tp.type ≠ SUNS_INT16 → suns_value_get_int16 v = none) ∧
    (v.tp.type ≠ SUNS_ACC16 → suns_value_get_acc16 v = none) ∧
    (v.tp.type ≠ SUNS_UINT32 → suns_value_get_uint32 v = none) ∧
    (v.tp.type ≠ SUNS_ACC32 → suns_value_get_acc32 v = none) ∧
    (v.tp.type ≠ SUNS_FLOAT32 → suns_value_get_float32 v = none) ∧
    (v.tp.type ≠ SUNS_ENUM16 → suns_value_get_enum16 v = none) ∧
    (v.tp.type ≠ SUNS_BITFIELD16 → suns_value_get_bitfield16 v = none) ∧
    (v.tp.type ≠ SUNS_BITFIELD32 → suns_value_get_bitfield32 v = none) ∧
    (v.tp.type ≠ SUNS_SUNSSF → suns_value_get_sunssf SUNS_SUNSSF v = none) ∧
    (v.tp.type ≠ SUNS_STRING → suns_value_get_string v = none) := by
  refine ⟨?_, ?_, ?_, ?_, ?_, ?_, ?_, ?_, ?_, ?_, ?_⟩ <;> intro h
  · simp [suns_value_get_uint16, h]
  · simp [suns_value_get_int16, h]
  · simp [suns_value_get_acc16, h]
  · simp [suns_value_get_uint32, h]
  · simp [suns_value_get_acc32, h]
  · simp [suns_value_get_float32, h]
  · simp [suns_value_get_enum16, h]
  · simp [suns_value_get_bitfield16, h]
  · simp [suns_value_get_bitfield32, h]
  · simp [suns_value_get_sunssf, h]
  · simp [suns_value_get_string, h]

/-- The getter `suns_value_get_int32` returns the member `i32` exactly for the
Values with the tag `SUNS_UINT32`. -/
theorem suns_value_get_int32_tag (v : suns_value_t) :
    (v.tp.type = SUNS_UINT32 → suns_value_get_int32 v = some v.value.i32) ∧
    (v.tp.type ≠ SUNS_UINT32 → suns_value_get_int32 v = none) := by
  constructor <;> intro h <;> simp [suns_value_get_int32, h]

/-- C23, at the failing input: the Value UInt32(7), whose tag is not
`SUNS_INT32`. The accessor `suns_value_get_int32` does not fail: its assertion
names `SUNS_UINT32`, and it returns the payload 7. -/
theorem C23_get_int32_accepts_uint32 :
    (suns_value_set_uint32 suns_value_new 7).tp.type = SUNS_UINT32 ∧
    (suns_value_set_uint32 suns_value_new 7).tp.type ≠ SUNS_INT32 ∧
    suns_value_get_int32 (suns_value_set_uint32 suns_value_new 7) = some 7 := by
  decide

/-- The getters other than `suns_value_get_int32` return the argument of the
setter of their type; for the scale factor this takes the constant
`SUNS_SUNSSF` to be the tag `SUNS_SF`. -/
theorem getters_after_setters (v : suns_value_t) :
    (∀ x : Nat, x < 65536 →
      suns_value_get_uint16 (suns_value_set_uint16 v x) = some x ∧
      suns_value_get_acc16 (suns_value_set_acc16 v x) = some x ∧
      suns_value_get_enum16 (suns_value_set_enum16 v x) = some x ∧
      suns_value_get_bitfield16 (suns_value_set_bitfield16 v x) = some x ∧
      suns_value_get_sunssf SUNS_SF (suns_value_set_sunssf v x) = some x) ∧
    (∀ i : Int, -32768 ≤ i → i ≤ 32767 →
      suns_value_get_int16 (suns_value_set_int16 v i) = some i) ∧
    (∀ x : Nat, x < 4294967296 →
      suns_value_get_uint32 (suns_value_set_uint32 v x) = some x ∧
      suns_value_get_acc32 (suns_value_set_acc32 v x) = some x ∧
      suns_value_get_bitfield32 (suns_value_set_bitfield32 v x) = some x ∧
      suns_value_get_float32 (suns_value_set_float32 v x) = some x) := by
  refine ⟨?_, ?_, ?_⟩
  · intro x hx
    have e := Nat.mod_eq_of_lt hx
    refine ⟨?_, ?_, ?_, ?_, ?_⟩
    · simp [suns_value_get_uint16, suns_value_set_uint16, set_u16_u16, e]
    · simp [suns_value_get_acc16, suns_value_set_acc16, set_u16_u16, e]
    · simp [suns_value_get_enum16, suns_value_set_enum16, set_u16_u16, e]
    · simp [suns_value_get_bitfield16, suns_value_set_bitfield16, set_u16_u16, e]
    · simp [suns_value_get_sunssf, suns_value_set_sunssf, set_u16_u16, e]
  · intro i h1 h2
    simp [suns_value_get_int16, suns_value_set_int16, set_u16_i16, toInt16_toUInt16 i h1 h2]
  · intro x hx
    have e := Nat.mod_eq_of_lt hx
    refine ⟨?_, ?_, ?_, ?_⟩
    · simp [suns_value_get_uint32, suns_value_set_uint32, set_u32_u32, e]
    · simp [suns_value_get_acc32, suns_value_set_acc32, set_u32_u32, e]
    · simp [suns_value_get_bitfield32, suns_value_set_bitfield32, set_u32_u32, e]
    · simp [suns_value_get_float32, suns_value_set_float32, set_u32_u32, e]

/-- C30, at the failing input: `suns_value_set_int32` with the raw value 5
gives a Value with the tag `SUNS_INT32`, on which the assertion of
`suns_value_get_int32`, which names `SUNS_UINT32`, fails: nothing is returned.
This holds for every argument of the setter. -/
theorem C30_get_int32_after_set_int32 :
    suns_value_get_int32 (suns_value_set_int32 suns_value_new 5) = none ∧
    (suns_value_set_int32 suns_value_new 5).value.i32 = 5 ∧
    ∀ (v : suns_value_t) (i : Int), suns_value_get_int32 (suns_value_set_int32 v i) = none := by
  refine ⟨by decide, by decide, ?_⟩
  intro v i
  simp [suns_value_get_int32, suns_value_set_int32]

/-! ## Codec: raw bytes and strings on decode -/

theorem range_map_getD_eq_take (buf : List Byte) (n : Nat) (h : n ≤ buf.length) :
    (List.range n).map (fun i => buf.getD i 0) = buf.take n := by
  apply List.ext_getElem?
  intro i
  by_cases hi : i < n
  · rw [List.getElem?_map, List.getElem?_range hi, Option.map_some',
      List.getElem?_take_of_lt hi]
    simp [List.getElem?_eq_getElem (show i < buf.length by omega)]
  · rw [List.getElem?_eq_none_iff.mpr (by simp; omega),
      List.getElem?_eq_none_iff.mpr (by simp; omega)]

theorem finish_raw (buf : List Byte) (tp : suns_type_pair_t) (v : suns_value_t) :
    (suns_buf_to_value_finish buf tp v).raw =
      (List.range (min 16 (suns_type_size tp.type))).map (fun i => buf.getD i 0) ++
        v.raw.drop (min 16 (suns_type_size tp.type)) := rfl

/-- The raw field after the switch and the tail of `suns_buf_to_value`: the
first bytes of the source for a fixed-width tag, unchanged for a string. -/
theorem raw_retention_body (buf : List Byte) (tp : suns_type_pair_t) (v : suns_value_t) :
    (is_16bit tp.type ∨ is_32bit tp.type → suns_type_size tp.type ≤ buf.length →
      ((suns_buf_to_value_body buf tp v).2.raw).take (suns_type_size tp.type) =
        buf.take (suns_type_size tp.type)) ∧
    (tp.type = SUNS_STRING → (suns_buf_to_value_body buf tp v).2.raw = v.raw) := by
  constructor
  · intro ht hlen
    have key : ∀ w : suns_value_t, suns_type_size tp.type ≤ 16 →
        ((suns_buf_to_value_finish buf tp w).raw).take (suns_type_size tp.type) =
          buf.take (suns_type_size tp.type) := by
      intro w h16
      rw [finish_raw, Nat.min_eq_right h16, range_map_getD_eq_take buf _ hlen,
        List.take_append_of_le_length (by simp; omega), List.take_take, Nat.min_self]
    have hw : ∃ w, (suns_buf_to_value_body buf tp v).2 = suns_buf_to_value_finish buf tp w := by
      rcases ht with h | h
      · rcases h with h | h | h | h | h | h <;>
          simp only [suns_buf_to_value_body, h] <;> exact ⟨_, rfl⟩
      · rcases h with h | h | h | h | h <;>
          simp only [suns_buf_to_value_body, h] <;> exact ⟨_, rfl⟩
    have h16 : suns_type_size tp.type ≤ 16 := by
      rcases ht with h | h
      · rcases h with h | h | h | h | h | h <;> rw [h] <;> decide
      · rcases h with h | h | h | h | h <;> rw [h] <;> decide
    obtain ⟨w, hw⟩ := hw
    rw [hw]
    exact key w h16
  · intro h
    simp [suns_buf_to_value_body, h, finish_raw, suns_type_size]

/-- The fixed-width tags are supported and are not the string tag. -/
theorem fixed_width_supported (t : suns_type_t) (h : is_16bit t ∨ is_32bit t) :
    ¬ is_unsupported t ∧ t ≠ SUNS_STRING := by
  rcases h with (h | h | h | h | h | h) | (h | h | h | h | h) <;> rw [h] <;> decide

/-- C24 (amended). Raw byte retention. For every TypeSpec with a fixed-width
tag of wire size `n` (2 or 4), every source byte string of at least `n` bytes
and every target, `suns_buf_to_value` returns 0 and the first `n` bytes of the
raw field equal the first `n` source bytes. For a String TypeSpec and a target
whose pointer is NULL or a block (a fresh Value, or one that holds a string),
`suns_buf_to_value` returns 0 and no raw byte is copied: the raw field is the
one the Value had before. -/
theorem C24_raw_retention (buf : List Byte) (tp : suns_type_pair_t) (v : suns_value_t) :
    (is_16bit tp.type ∨ is_32bit tp.type → suns_type_size tp.type ≤ buf.length →
      ∃ r, suns_buf_to_value buf tp v = some (0, r) ∧
        r.raw.take (suns_type_size tp.type) = buf.take (suns_type_size tp.type)) ∧
    (tp.type = SUNS_STRING → realloc_defined v →
      ∃ r, suns_buf_to_value buf tp v = some (0, r) ∧ r.raw = v.raw) := by
  constructor
  · intro ht hlen
    have hs := fixed_width_supported tp.type ht
    exact ⟨_, suns_buf_to_value_defined buf tp v hs.1 (fun e => absurd e hs.2),
      (raw_retention_body buf tp v).1 ht hlen⟩
  · intro ht hd
    exact ⟨_, suns_buf_to_value_defined buf tp v (by rw [ht]; decide) (fun _ => hd),
      (raw_retention_body buf tp v).2 ht⟩

/-- C24, witness: the bytes 04 D2 with the tag Int16 and 01 02 03 04 with the
tag UInt32 are found again at the start of the raw field; the raw field of a
fresh Value is unchanged after the bytes 61 62 are decoded as a string. -/
theorem C24_raw_retention_witness :
    (∃ r, suns_buf_to_value [0x04, 0xD2, 0xEE] { type := SUNS_INT16, sub_len := 0 }
        suns_value_new = some (0, r) ∧ r.raw.take 2 = [0x04, 0xD2]) ∧
    (∃ r, suns_buf_to_value [0x01, 0x02, 0x03, 0x04] { type := SUNS_UINT32, sub_len := 0 }
        suns_value_new = some (0, r) ∧ r.raw.take 4 = [0x01, 0x02, 0x03, 0x04]) ∧
    (∃ r, suns_buf_to_value [97, 98] { type := SUNS_STRING, sub_len := 2 }
        suns_value_new = some (0, r) ∧ r.raw = suns_value_new.raw) :=
  ⟨(C24_raw_retention [0x04, 0xD2, 0xEE] { type := SUNS_INT16, sub_len := 0 }
      suns_value_new).1 (by decide) (by decide),
   (C24_raw_retention [0x01, 0x02, 0x03, 0x04] { type := SUNS_UINT32, sub_len := 0 }
      suns_value_new).1 (by decide) (by decide),
   (C24_raw_retention [97, 98] { type := SUNS_STRING, sub_len := 2 }
      suns_value_new).2 (by decide) (by decide)⟩

/-- C24, counterexample. The String TypeSpec of declared length 2 and the
source bytes 61 62: after `suns_buf_to_value` on a fresh Value (return code 0)
the raw field holds sixteen zero bytes, its first two bytes are not the source
bytes. The size passed to `memcpy` is `suns_type_size`, which is 0 for a
String. -/
theorem C24_counterexample :
    (suns_buf_to_value [97, 98] { type := SUNS_STRING, sub_len := 2 } suns_value_new).map
      (fun r => (r.1, r.2.raw)) = some (0, List.replicate 16 0) ∧
    (List.replicate 16 (0 : Byte)).take 2 ≠ [97, 98] ∧
    suns_type_size SUNS_STRING = 0 := by
  decide

theorem takeWhile_nonzero_append_zeros (c : List Byte) (k : Nat) (hc : ∀ b ∈ c, b ≠ 0) :
    (c ++ List.replicate k 0).takeWhile (fun b => b != 0) = c := by
  induction c with
  | nil =>
    cases k with
    | zero => rfl
    | succ k => simp [List.replicate_succ]
  | cons a rest ih =>
    have ha : a ≠ 0 := hc a (List.mem_cons_self _ _)
    have ih2 := ih (fun b hb => hc b (List.mem_cons_of_mem _ hb))
    simp [List.takeWhile_cons, ha, ih2]

/-- When the first `n` source bytes are non-zero bytes followed by zero bytes,
`strncpy` stores them as they are. -/
theorem strncpy_eq_take (buf : List Byte) (n : Nat) (c : List Byte) (k : Nat)
    (hn : n ≤ buf.length) (hsrc : buf.take n = c ++ List.replicate k 0)
    (hc : ∀ b ∈ c, b ≠ 0) : strncpy buf n = buf.take n := by
  have hlen : c.length + k = n := by
    have := congrArg List.length hsrc
    simp only [List.length_take, List.length_append, List.length_replicate] at this
    omega
  simp only [strncpy]
  rw [hsrc, takeWhile_nonzero_append_zeros c k hc]
  have : n - c.length = k := by omega
  rw [this]

theorem not_implemented_string (tp : suns_type_pair_t) (u : suns_value_u)
    (ht : tp.type = SUNS_STRING) : ¬ not_implemented tp u := by
  simp [not_implemented, ht]

/-- The host string the switch and the tail of `suns_buf_to_value` leave for a
String TypeSpec, once `realloc` has returned. -/
theorem string_decode_body (buf : List Byte) (tp : suns_type_pair_t) (v : suns_value_t)
    (ht : tp.type = SUNS_STRING) :
    (suns_buf_to_value_body buf tp v).1 = 0 ∧
    (suns_buf_to_value_body buf tp v).2.meta = SUNS_VALUE_OK ∧
    (suns_buf_to_value_body buf tp v).2.tp = tp ∧
    ∃ block, (suns_buf_to_value_body buf tp v).2.value.s = some block ∧
      block.length = tp.sub_len + 1 ∧
      block.take tp.sub_len = truncate_or_pad (c_string buf) tp.sub_len ∧
      block[tp.sub_len]? = some 0 ∧
      (∀ (c : List Byte) (k : Nat), tp.sub_len ≤ buf.length →
        buf.take tp.sub_len = c ++ List.replicate k 0 → (∀ b ∈ c, b ≠ 0) →
        block.take tp.sub_len = buf.take tp.sub_len) := by
  have hl := strncpy_length buf tp.sub_len
  have htake : (strncpy buf tp.sub_len ++ [0]).take tp.sub_len = strncpy buf tp.sub_len := by
    rw [List.take_append_of_le_length (by omega), List.take_of_length_le (by omega)]
  have hni := not_implemented_string tp
  refine ⟨by simp [suns_buf_to_value_body, ht], ?_, by simp [suns_buf_to_value_body, ht,
    suns_buf_to_value_finish], strncpy buf tp.sub_len ++ [0], by simp [suns_buf_to_value_body, ht,
    suns_buf_to_value_finish], by simp [hl], ?_, ?_, ?_⟩
  · simp [suns_buf_to_value_body, ht, suns_buf_to_value_finish, hni _ ht]
  · rw [htake, strncpy_eq_truncate_or_pad]
  · rw [List.getElem?_append_right (by omega), hl]
    simp
  · intro c k hn hsrc hc
    rw [htake]
    exact strncpy_eq_take buf tp.sub_len c k hn hsrc hc

/-- C25 (amended). String decode. For every String TypeSpec of declared length
`n`, every source byte string and every target Value whose pointer is NULL or
a block (a fresh Value, or one that holds a string), `suns_buf_to_value`
returns 0 and produces a host string of `n + 1` bytes whose first `n` bytes are
the source bytes before the first zero byte (of the first `n` source bytes),
followed by zero bytes, and whose byte at index `n` is NUL, with status Ok and
declared length `n`. When the first `n` source bytes are non-zero bytes
followed by zero bytes, the first `n` bytes of the host string equal them. -/
theorem C25_string_decode (buf : List Byte) (tp : suns_type_pair_t) (v : suns_value_t)
    (ht : tp.type = SUNS_STRING) (hd : realloc_defined v) :
    ∃ r block, suns_buf_to_value buf tp v = some (0, r) ∧
      r.meta = SUNS_VALUE_OK ∧
      r.tp = tp ∧
      r.value.s = some block ∧
      block.length = tp.sub_len + 1 ∧
      block.take tp.sub_len = truncate_or_pad (c_string buf) tp.sub_len ∧
      block[tp.sub_len]? = some 0 ∧
      (∀ (c : List Byte) (k : Nat), tp.sub_len ≤ buf.length →
        buf.take tp.sub_len = c ++ List.replicate k 0 → (∀ b ∈ c, b ≠ 0) →
        block.take tp.sub_len = buf.take tp.sub_len) := by
  obtain ⟨_, h2, h3, block, h4, h5⟩ := string_decode_body buf tp v ht
  exact ⟨_, block, suns_buf_to_value_defined buf tp v (by rw [ht]; decide) (fun _ => hd),
    h2, h3, h4, h5⟩

/-- C25, witness: decoded into a fresh Value, the source bytes 61 62 63 with
the declared length 3 give the host string 61 62 63 00 with status Ok; decoded
into the Value that holds this string, the source bytes 61 62 with the
declared length 1 give 61 00. -/
theorem C25_string_decode_witness :
    realloc_defined suns_value_new ∧
    (∃ r, suns_buf_to_value [97, 98, 99] { type := SUNS_STRING, sub_len := 3 }
        suns_value_new = some (0, r) ∧
      r.meta = SUNS_VALUE_OK ∧ r.value.s = some [97, 98, 99, 0] ∧
      ∃ r2, suns_buf_to_value [97, 98] { type := SUNS_STRING, sub_len := 1 } r =
          some (0, r2) ∧
        r2.value.s.map List.length = some 2) := by
  obtain ⟨r, block, h, hm, _, hs, _, _, _, heq⟩ :=
    C25_string_decode [97, 98, 99] { type := SUNS_STRING, sub_len := 3 } suns_value_new
      rfl realloc_defined_new
  have hb : r.value.s = some [97, 98, 99, 0] := by
    have e : suns_buf_to_value [97, 98, 99] { type := SUNS_STRING, sub_len := 3 }
        suns_value_new = some (suns_buf_to_value_body [97, 98, 99]
          { type := SUNS_STRING, sub_len := 3 } suns_value_new) := by decide
    rw [e] at h
    have hr : r = (suns_buf_to_value_body [97, 98, 99]
        { type := SUNS_STRING, sub_len := 3 } suns_value_new).2 := by
      have := congrArg (fun o : Option (Int × suns_value_t) => o.map Prod.snd) h
      simpa using this.symm
    rw [hr]
    decide
  obtain ⟨r2, block2, h2, _, _, hs2, hl2, _⟩ :=
    C25_string_decode [97, 98] { type := SUNS_STRING, sub_len := 1 } r rfl
      (realloc_defined_decoded _ _ _ _ _ rfl h)
  exact ⟨realloc_defined_new, r, h, hm, hb, r2, h2, by rw [hs2]; simp [hl2]⟩

/-- C25, counterexample. The source bytes 61 00 62 with the declared length 3
hold a zero byte before position 3. Decoded into a fresh Value (return code
0), the host string is 61 00 00 00: its first three bytes are not the three
source bytes, the byte 62 that follows the zero byte is lost. -/
theorem C25_counterexample :
    (suns_buf_to_value [97, 0, 98] { type := SUNS_STRING, sub_len := 3 }
      suns_value_new).map (fun r => (r.1, r.2.value.s)) = some (0, some [97, 0, 0, 0]) ∧
    ([97, 0, 0, 0] : List Byte).take 3 ≠ [97, 0, 98] := by
  decide

/-! ## Offset resolver: explicit offsets -/

theorem fill_dp_list_explicit (o : Int) (dps : List suns_dp_t) :
    ∀ (d : Int) (j : Nat) (e : suns_dp_t), dps[j]? = some e → e.offset > 0 →
      (fill_dp_list o dps d).1[j]? = some e ∧
      ∀ n, dps[j + 1]? = some n → ¬ (n.offset > 0) →
        (fill_dp_list o dps d).1[j + 1]? =
          some { n with offset := e.offset + dp_advance e.type_pair } := by
  induction dps with
  | nil =>
    intro d j e he
    simp at he
  | cons dp rest ih =>
    intro d j e he hoff
    cases j with
    | zero =>
      simp only [List.getElem?_cons_zero, Option.some.injEq] at he
      subst he
      refine ⟨by simp [fill_dp_list, hoff], ?_⟩
      intro n hn hno
      simp only [zero_add, List.getElem?_cons_succ] at hn
      cases rest with
      | nil => simp at hn
      | cons n2 rest2 =>
        simp only [List.getElem?_cons_zero, Option.some.injEq] at hn
        subst hn
        simp only [fill_dp_list, hoff, if_true, zero_add, List.getElem?_cons_succ,
          List.getElem?_cons_zero, if_neg hno, Option.some.injEq]
        congr 1
        omega
    | succ j =>
      simp only [List.getElem?_cons_succ] at he
      obtain ⟨h1, h2⟩ := ih ((if dp.offset > 0 then dp.offset - o else d) + dp_advance dp.type_pair)
        j e he hoff
      refine ⟨by simpa [fill_dp_list] using h1, ?_⟩
      intro n hn hno
      simp only [List.getElem?_cons_succ] at hn
      simpa [fill_dp_list] using h2 n hn hno

/-- C27. Explicit offsets are authoritative. For every model, a datapoint that
carries an explicit offset (> 0) keeps exactly that offset after
`suns_model_fill_offsets`, and the next datapoint of the same block, if it
carries no explicit offset, receives that explicit offset plus the register
size of the explicit datapoint, whatever precedes them in the block. -/
theorem C27_explicit_offsets (m : suns_model_t) (i j : Nat) (blk : suns_dp_block_t)
    (e : suns_dp_t)
    (hblk : m.dp_blocks[i]? = some blk) (he : blk.dp_list[j]? = some e)
    (hoff : e.offset > 0) :
    ∃ blk2, (suns_model_fill_offsets m).1.dp_blocks[i]? = some blk2 ∧
      blk2.dp_list[j]? = some e ∧
      ∀ n, blk.dp_list[j + 1]? = some n → no_explicit_offset n →
        blk2.dp_list[j + 1]? = some { n with offset := e.offset + reg_size e.type_pair } := by
  obtain ⟨h1, h2⟩ := fill_dp_list_explicit 3 blk.dp_list 0 j e he hoff
  refine ⟨{ blk with dp_list := (fill_dp_list 3 blk.dp_list 0).1,
                      len := (fill_dp_list 3 blk.dp_list 0).2.1 }, ?_, h1, ?_⟩
  · simp only [suns_model_fill_offsets, fill_blocks_map, List.getElem?_map, hblk,
      Option.map_some']
  · intro n hn hno
    rw [← dp_advance_eq_reg_size]
    exact h2 n hn hno

/-- C27, witness: a block with the datapoints A (Int16, no offset), B (UInt32,
explicit offset 10) and C (Int16, no offset): B keeps the offset 10 and C
receives 10 + 2 = 12, where the counter of the block stood at 4. -/
theorem C27_explicit_offsets_witness :
    ∃ blk2, (suns_model_fill_offsets
        { suns_model_new with
          dp_blocks := [{ dp_list := [dp_of "A" SUNS_INT16,
                                      { dp_of "B" SUNS_UINT32 with offset := 10 },
                                      dp_of "C" SUNS_INT16],
                          repeating := false, len := 0 }] }).1.dp_blocks[0]? = some blk2 ∧
      blk2.dp_list[1]? = some { dp_of "B" SUNS_UINT32 with offset := 10 } ∧
      blk2.dp_list[2]? = some { dp_of "C" SUNS_INT16 with offset := 12 } := by
  obtain ⟨blk2, h1, h2, h3⟩ := C27_explicit_offsets
    { suns_model_new with
      dp_blocks := [{ dp_list := [dp_of "A" SUNS_INT16,
                                  { dp_of "B" SUNS_UINT32 with offset := 10 },
                                  dp_of "C" SUNS_INT16],
                      repeating := false, len := 0 }] }
    0 1 _ { dp_of "B" SUNS_UINT32 with offset := 10 } rfl rfl (by decide)
  exact ⟨blk2, h1, h2, (h3 (dp_of "C" SUNS_INT16) rfl (by decide)).trans (by decide)⟩

/-! ## Block decoder: the repetition count -/

/-- The quotient `len / dp_block->len / 2` in `size_t` arithmetic is the floor
of `len / (dp_block->len * 2)`, for every `len`. -/
theorem len_quotient_eq (blen : Int) (n : Nat) (h1 : 1 ≤ blen) (h2 : blen ≤ 2147483647) :
    n / toSizeT blen / 2 = n / (blen.toNat * 2) := by
  have e : toSizeT blen = blen.toNat := by
    simp only [toSizeT]
    omega
  rw [e, Nat.div_div_eq_div_mul]

/-- C28 (amended). Repeat count. For every repeating block with resolved length
`block.len >= 1` registers (an `int`) and every number `n` of available bytes
below 2^32, the number of repetitions that `suns_decode_dp_block` attempts,
computed as `n / block.len / 2`, equals `floor(n / (block.len * 2))`; for every
non-repeating block it is 1. -/
theorem C28_repeat_count (b : suns_dp_block_t) (n : Nat) (buf : List Byte)
    (vl : List suns_value_t) (hn : n < 4294967296)
    (hlen : b.repeating = true → 1 ≤ b.len ∧ b.len ≤ 2147483647) :
    len_multiple b n = some (repeat_count b n) ∧
    suns_decode_dp_block b buf n vl = some (decode_reps b buf n (repeat_count b n) 0 vl) ∧
    (b.repeating = true →
      repeat_count b n = n / (b.len.toNat * 2) ∧
      n / toSizeT b.len / 2 = n / (b.len.toNat * 2)) ∧
    (b.repeating = false → repeat_count b n = 1) := by
  have h := len_multiple_eq b n hn (fun hr => ⟨by have := (hlen hr).1; omega, (hlen hr).2⟩)
  refine ⟨h, by simp only [suns_decode_dp_block, h], ?_, ?_⟩
  · intro hr
    exact ⟨by simp [repeat_count, hr], len_quotient_eq b.len n (hlen hr).1 (hlen hr).2⟩
  · intro hr
    simp [repeat_count, hr]

/-- C28, witness: a repeating block of length 2 registers with 10 available
bytes is attempted twice; a non-repeating block once. -/
theorem C28_repeat_count_witness :
    len_multiple { dp_list := [dp_of "B" SUNS_UINT32], repeating := true, len := 2 } 10 =
      some 2 ∧
    len_multiple { dp_list := [dp_of "A" SUNS_INT16], repeating := false, len := 1 } 10 =
      some 1 :=
  ⟨(C28_repeat_count { dp_list := [dp_of "B" SUNS_UINT32], repeating := true, len := 2 } 10
      [] [] (by decide) (fun _ => ⟨by decide, by decide⟩)).1.trans (by decide),
   (C28_repeat_count { dp_list := [dp_of "A" SUNS_INT16], repeating := false, len := 1 } 10
      [] [] (by decide) (fun h => by cases h)).1.trans (by decide)⟩

/-- C28, counterexample. A repeating block of length 1 register with 2^32
available bytes: the quotient `n / block.len / 2` is 2^31, which the variable
`int len_multiple` does not hold; the loop over the repetitions is not entered,
where `floor(n / (block.len * 2))` is 2^31. -/
theorem C28_counterexample :
    len_multiple { dp_list := [dp_of "B" SUNS_INT16], repeating := true, len := 1 }
      4294967296 = some 0 ∧
    repeat_count { dp_list := [dp_of "B" SUNS_INT16], repeating := true, len := 1 }
      4294967296 = 2147483648 ∧
    toInt32 (4294967296 / toSizeT 1 / 2) = -2147483648 := by
  decide

/-! ## The two length checks -/

/-- For a model whose last block repeats and whose `len` differs from
`base_len`, the length test of the traversal writes its error exactly when
`suns_decode_data` writes its warning. -/
theorem length_checks_agree_repeating (d : suns_model_did_t) (len : Nat)
    (last : suns_dp_block_t) (hlast : d.model.dp_blocks.getLast? = some last)
    (hrep : last.repeating = true) (hne : d.model.base_len ≠ d.model.len) :
    length_check d len = some (suns_decode_data_length_check d.model len) := by
  have hz : ¬ (d.model.len - d.model.base_len = 0) := by omega
  simp only [length_check, hlast, hrep, if_true, if_neg hz, suns_decode_data_length_check,
    if_pos hne]
  by_cases h : d.model.len = (len : Int)
  · have : Int.tmod ((len : Int) - d.model.base_len) (d.model.len - d.model.base_len) = 0 := by
      rw [h]
      exact Int.tmod_self
    simp [h, this]
  · simp [h]

/-- C29, at the failing input: model 1 of the sample registry, without
repeating block and with `len = base_len = 1`, and the declared length 2. The
rule of `suns_decode_data` reports the mismatch (the declared length differs
from `len`); the test of `suns_app_read_device` does not, because its second
operand asks for a repeating last block. -/
theorem C29_length_checks_differ :
    model_one_int16.len = 1 ∧ model_one_int16.base_len = 1 ∧
    suns_decode_data_length_check model_one_int16 2 = true ∧
    length_check { did := 1, model := model_one_int16 } 2 = some false := by
  decide

/-! ## Test server: the register map -/

theorem tab_store_at_end (w : List Nat) (k x : Nat) (hx : x < 65536) :
    tab_store (w ++ List.replicate (k + 1) 0) w.length x =
      some (w ++ [x] ++ List.replicate k 0) := by
  have hlt : w.length < (w ++ List.replicate (k + 1) 0).length := by simp
  simp only [tab_store, if_pos hlt, Nat.mod_eq_of_lt hx, Option.some.injEq]
  rw [List.set_append_right _ _ (Nat.le_refl _)]
  simp [List.replicate_succ]

theorem mapping_store_at_end (w : List Nat) (k x : Nat) (hx : x < 65536) :
    mapping_store { tab_registers := w ++ List.replicate (k + 1) 0,
                    tab_input_registers := w ++ List.replicate (k + 1) 0 } w.length x =
      some { tab_registers := w ++ [x] ++ List.replicate k 0,
             tab_input_registers := w ++ [x] ++ List.replicate k 0 } := by
  simp only [mapping_store, tab_store_at_end w k x hx]

/-- The register values one run of the inner loop stores: `k` registers from
the byte index `r` on. -/
theorem byte_pair_lt (data : List Byte) (r : Nat) :
    byteAt data r * 256 + byteAt data (r + 1) < 65536 := by
  have h0 := (data.getD r 0).isLt
  have h1 := (data.getD (r + 1) 0).isLt
  simp only [byteAt]
  omega

theorem copy_data_block_spec (data : List Byte) (k : Nat) :
    ∀ (r : Nat) (w : List Nat) (room : Nat), k ≤ room →
      copy_data_block data k r
          { tab_registers := w ++ List.replicate room 0,
            tab_input_registers := w ++ List.replicate room 0 } w.length =
        some ({ tab_registers :=
                  w ++ (List.range k).map
                    (fun i => byteAt data (r + 2 * i) * 256 + byteAt data (r + 2 * i + 1)) ++
                    List.replicate (room - k) 0,
                tab_input_registers :=
                  w ++ (List.range k).map
                    (fun i => byteAt data (r + 2 * i) * 256 + byteAt data (r + 2 * i + 1)) ++
                    List.replicate (room - k) 0 }, w.length + k) := by
  induction k with
  | zero =>
    intro r w room _
    simp [copy_data_block]
  | succ k ih =>
    intro r w room hk
    obtain ⟨room2, rfl⟩ : ∃ room2, room = room2 + 1 := ⟨room - 1, by omega⟩
    have hs := mapping_store_at_end w room2 _ (byte_pair_lt data r)
    simp only [copy_data_block, hs]
    have hih := ih (r + 2) (w ++ [byteAt data r * 256 + byteAt data (r + 1)]) room2 (by omega)
    simp only [List.length_append, List.length_singleton] at hih
    rw [hih]
    have e : ∀ i, r + 2 + 2 * i = r + 2 * (i + 1) := by
      intro i
      omega
    simp only [List.range_succ_eq_map, List.map_cons, List.map_map, Function.comp_def,
      Nat.mul_zero, Nat.add_zero, e, List.append_assoc, List.singleton_append,
      Nat.add_sub_add_right, Nat.add_assoc, Nat.add_comm 1 k]

theorem pack_registers_even (data : List Byte) (h : data.length % 2 = 0) :
    (List.range ((data.length + 1) / 2)).map
      (fun i => byteAt data (0 + 2 * i) * 256 + byteAt data (0 + 2 * i + 1)) =
      pack_registers data := by
  have e : (data.length + 1) / 2 = data.length / 2 := by omega
  simp only [pack_registers, e, byteAt, Nat.zero_add]

theorem pack_registers_length (data : List Byte) :
    (pack_registers data).length = data.length / 2 := by
  simp [pack_registers]

theorem copy_data_blocks_spec (blocks : List (List Byte)) :
    ∀ (w : List Nat) (room : Nat), (∀ d ∈ blocks, d.length % 2 = 0) →
      ((blocks.map pack_registers).flatten).length ≤ room →
      copy_data_blocks blocks
          { tab_registers := w ++ List.replicate room 0,
            tab_input_registers := w ++ List.replicate room 0 } w.length =
        some ({ tab_registers :=
                  w ++ (blocks.map pack_registers).flatten ++
                    List.replicate (room - ((blocks.map pack_registers).flatten).length) 0,
                tab_input_registers :=
                  w ++ (blocks.map pack_registers).flatten ++
                    List.replicate (room - ((blocks.map pack_registers).flatten).length) 0 },
              w.length + ((blocks.map pack_registers).flatten).length) := by
  induction blocks with
  | nil =>
    intro w room _ _
    simp [copy_data_blocks]
  | cons d rest ih =>
    intro w room heven hfit
    have hd := heven d (List.mem_cons_self _ _)
    simp only [List.map_cons, List.flatten_cons, List.length_append,
      pack_registers_length] at hfit ⊢
    have hk : (d.length + 1) / 2 = d.length / 2 := by omega
    have hb := copy_data_block_spec d ((d.length + 1) / 2) 0 w room (by omega)
    rw [pack_registers_even d hd] at hb
    simp only [copy_data_blocks, hb]
    have hih := ih (w ++ pack_registers d) (room - (d.length + 1) / 2)
      (fun x hx => heven x (List.mem_cons_of_mem _ hx)) (by omega)
    simp only [List.length_append, pack_registers_length] at hih
    rw [hk] at hih ⊢
    rw [hih]
    simp only [List.append_assoc, Nat.add_assoc, Nat.sub_sub]

theorem mapping_store_room (w : List Nat) (room k x : Nat) (hroom : room = k + 1)
    (hx : x < 65536) :
    mapping_store { tab_registers := w ++ List.replicate room 0,
                    tab_input_registers := w ++ List.replicate room 0 } w.length x =
      some { tab_registers := w ++ [x] ++ List.replicate k 0,
             tab_input_registers := w ++ [x] ++ List.replicate k 0 } := by
  subst hroom
  exact mapping_store_at_end w k x hx

/-- The register mapping of the test server for data blocks of even length
that leave room for the end marker: both tables are the register map of the
server role. -/
theorem suns_app_test_server_spec (blocks : List (List Byte))
    (heven : ∀ d ∈ blocks, d.length % 2 = 0)
    (hfit : 3 + ((blocks.map pack_registers).flatten).length ≤ 4096) :
    suns_app_test_server blocks =
      some { tab_registers := server_register_map blocks 4096,
             tab_input_registers := server_register_map blocks 4096 } := by
  have h0 : mapping_store (modbus_mapping_new 4096 4096) 0 SUNS_ID_HIGH =
      some { tab_registers := SUNS_ID_HIGH :: List.replicate 4095 0,
             tab_input_registers := SUNS_ID_HIGH :: List.replicate 4095 0 } :=
    mapping_store_room [] 4096 4095 SUNS_ID_HIGH rfl (by decide)
  have h1 : mapping_store
      { tab_registers := SUNS_ID_HIGH :: List.replicate 4095 0,
        tab_input_registers := SUNS_ID_HIGH :: List.replicate 4095 0 } 1 SUNS_ID_LOW =
      some { tab_registers := SUNS_ID_HIGH :: SUNS_ID_LOW :: List.replicate 4094 0,
             tab_input_registers := SUNS_ID_HIGH :: SUNS_ID_LOW :: List.replicate 4094 0 } :=
    mapping_store_room [SUNS_ID_HIGH] 4095 4094 SUNS_ID_LOW rfl (by decide)
  have h2 : copy_data_blocks blocks
      { tab_registers := SUNS_ID_HIGH :: SUNS_ID_LOW :: List.replicate 4094 0,
        tab_input_registers := SUNS_ID_HIGH :: SUNS_ID_LOW :: List.replicate 4094 0 } 2 =
      some ({ tab_registers := [SUNS_ID_HIGH, SUNS_ID_LOW] ++
                (blocks.map pack_registers).flatten ++
                List.replicate (4094 - ((blocks.map pack_registers).flatten).length) 0,
              tab_input_registers := [SUNS_ID_HIGH, SUNS_ID_LOW] ++
                (blocks.map pack_registers).flatten ++
                List.replicate (4094 - ((blocks.map pack_registers).flatten).length) 0 },
            2 + ((blocks.map pack_registers).flatten).length) :=
    copy_data_blocks_spec blocks [SUNS_ID_HIGH, SUNS_ID_LOW] 4094 heven (by omega)
  have h3 := mapping_store_room
    ([SUNS_ID_HIGH, SUNS_ID_LOW] ++ (blocks.map pack_registers).flatten)
    (4094 - ((blocks.map pack_registers).flatten).length)
    (4096 - (3 + ((blocks.map pack_registers).flatten).length)) 0xFFFF (by omega) (by decide)
  have hl : ([SUNS_ID_HIGH, SUNS_ID_LOW] ++ (blocks.map pack_registers).flatten).length =
      2 + ((blocks.map pack_registers).flatten).length := by
    rw [List.length_append]
    rfl
  rw [hl] at h3
  unfold suns_app_test_server
  simp only []
  rw [h0]
  simp only []
  rw [h1]
  simp only []
  rw [h2]
  simp only []
  rw [h3]
  rfl
/-- C26 (amended). Server register map layout. For every list of data blocks,
each of even byte length, that leaves room for the end marker in the 4096
registers of a table, the register table built by `suns_app_test_server` has
the signature in registers 0 and 1, then the blocks in definition order from
register 2 on, each register holding two consecutive block bytes packed
big-endian, then one register equal to 0xFFFF; the register after it, like all
that follow, holds 0; the holding-register table and the input-register table
are identical. -/
theorem C26_server_register_map (blocks : List (List Byte))
    (heven : ∀ d ∈ blocks, d.length % 2 = 0)
    (hfit : 3 + ((blocks.map pack_registers).flatten).length ≤ 4096) :
    ∃ mapping, suns_app_test_server blocks = some mapping ∧
      mapping.tab_registers = server_register_map blocks 4096 ∧
      mapping.tab_input_registers = mapping.tab_registers ∧
      mapping.tab_registers.take 2 = [SUNS_ID_HIGH, SUNS_ID_LOW] ∧
      (mapping.tab_registers.drop 2).take ((blocks.map pack_registers).flatten).length =
        (blocks.map pack_registers).flatten ∧
      mapping.tab_registers[2 + ((blocks.map pack_registers).flatten).length]? =
        some 0xFFFF ∧
      ∀ i, 3 + ((blocks.map pack_registers).flatten).length ≤ i → i < 4096 →
        mapping.tab_registers[i]? = some 0 := by
  refine ⟨_, suns_app_test_server_spec blocks heven hfit, rfl, rfl, ?_, ?_, ?_, ?_⟩
  · simp [server_register_map]
  · simp [server_register_map]
  · simp only [server_register_map, List.append_assoc, List.cons_append, List.nil_append]
    rw [show 2 + ((blocks.map pack_registers).flatten).length =
      ((blocks.map pack_registers).flatten).length + 1 + 1 by omega]
    rw [List.getElem?_cons_succ, List.getElem?_cons_succ,
      List.getElem?_append_right (Nat.le_refl _)]
    simp
  · intro i h1 h2
    simp only [server_register_map]
    rw [List.getElem?_append_right (by
      simp only [List.length_append, List.length_cons, List.length_nil]
      omega)]
    rw [List.getElem?_replicate]
    simp only [List.length_append, List.length_cons, List.length_nil, List.length_singleton]
    rw [if_pos (by omega)]

/-- C26, witness: the data block 00 01 00 01 04 D2 gives a table that starts
with the signature, the registers 1, 1 and 0x04D2, one end marker and a zero. -/
theorem C26_server_register_map_witness :
    ∃ mapping, suns_app_test_server [[0x00, 0x01, 0x00, 0x01, 0x04, 0xD2]] = some mapping ∧
      mapping.tab_registers.take 7 = [0x5375, 0x6e53, 1, 1, 0x04D2, 0xFFFF, 0] ∧
      mapping.tab_input_registers = mapping.tab_registers := by
  obtain ⟨mapping, h1, h2, h3, _⟩ := C26_server_register_map
    [[0x00, 0x01, 0x00, 0x01, 0x04, 0xD2]] (by decide) (by decide)
  refine ⟨mapping, h1, ?_, h3⟩
  rw [h2]
  decide

/-- C26, counterexample. Without data block, the table built by
`suns_app_test_server` starts with the signature, 0xFFFF and 0: of the two
registers after the last block only the first equals 0xFFFF. -/
theorem C26_counterexample :
    ∃ mapping, suns_app_test_server [] = some mapping ∧
      mapping.tab_registers.take 4 = [0x5375, 0x6e53, 0xFFFF, 0] ∧
      mapping.tab_input_registers.take 4 = [0x5375, 0x6e53, 0xFFFF, 0] := by
  refine ⟨_, suns_app_test_server_spec [] (by decide) (by decide), ?_, ?_⟩
  · show (server_register_map [] 4096).take 4 = [0x5375, 0x6e53, 0xFFFF, 0]
    decide
  · show (server_register_map [] 4096).take 4 = [0x5375, 0x6e53, 0xFFFF, 0]
    decide

/-! ## Codec: a failed encode into a buffer -/

/-- What `suns_value_to_buffer` does when it does not encode. Without enough
free space it returns 0 and leaves the buffer as it was. For a tag without
encoding it returns -2 and leaves the contents as they were, but adds the size
of the tag to the write position: 0 for Null and Undefined, 8 for the 64-bit
tags. -/
theorem suns_value_to_buffer_not_encoded (buf : buffer_t) (v : suns_value_t) :
    (buffer_space buf <
        (if v.tp.type = SUNS_STRING then v.tp.sub_len else suns_type_size v.tp.type) →
      suns_value_to_buffer buf v = some (0, buf)) ∧
    (is_unsupported v.tp.type → ¬ buffer_space buf < suns_type_size v.tp.type →
      suns_value_to_buffer buf v =
        some (-2, { mem := buf.mem, in_ := buf.in_ + suns_type_size v.tp.type })) ∧
    (v.tp.type = SUNS_NULL ∨ v.tp.type = SUNS_UNDEF →
      suns_value_to_buffer buf v = some (-2, buf)) := by
  refine ⟨?_, ?_, ?_⟩
  · intro h
    simp only [suns_value_to_buffer, if_pos h]
  · intro hu hs
    have hns : v.tp.type ≠ SUNS_STRING := by
      rcases hu with h | h | h | h | h <;> simp [h]
    have hb : suns_value_to_buf v (buf.mem.drop buf.in_) (buffer_space buf) =
        some (-2, buf.mem.drop buf.in_) := by
      rcases hu with h | h | h | h | h <;> simp [suns_value_to_buf, h]
    simp only [suns_value_to_buffer, if_neg hns, if_neg hs, hb, List.take_append_drop]
  · intro hu
    have hns : v.tp.type ≠ SUNS_STRING := by
      rcases hu with h | h <;> simp [h]
    have hz : suns_type_size v.tp.type = 0 := by
      rcases hu with h | h <;> simp [h, suns_type_size]
    have hb : suns_value_to_buf v (buf.mem.drop buf.in_) (buffer_space buf) =
        some (-2, buf.mem.drop buf.in_) := by
      rcases hu with h | h <;> simp [suns_value_to_buf, h]
    simp only [suns_value_to_buffer, if_neg hns, hz, Nat.not_lt_zero, if_false, hb,
      List.take_append_drop, Nat.add_zero]

/-- C31, at the failing input: a Value with the tag Int64 and a buffer of eight
free bytes at the write position 0. `suns_value_to_buffer` does not encode (it
returns -2 and the contents are unchanged), but the write position is 8 after
the call. With the tag Null, and with a buffer of four free bytes, the buffer
is the same after the call. -/
theorem C31_failed_encode_moves_position :
    suns_value_to_buffer { mem := [1, 2, 3, 4, 5, 6, 7, 8], in_ := 0 }
      { suns_value_new with tp := { type := SUNS_INT64, sub_len := 0 } } =
      some (-2, { mem := [1, 2, 3, 4, 5, 6, 7, 8], in_ := 8 }) ∧
    suns_value_to_buffer { mem := [1, 2, 3, 4, 5, 6, 7, 8], in_ := 0 } suns_value_new =
      some (-2, { mem := [1, 2, 3, 4, 5, 6, 7, 8], in_ := 0 }) ∧
    suns_value_to_buffer { mem := [1, 2, 3, 4], in_ := 0 }
      { suns_value_new with tp := { type := SUNS_INT64, sub_len := 0 } } =
      some (0, { mem := [1, 2, 3, 4], in_ := 0 }) := by
  decide

/-! ## Dataset decoder: the overrun test -/

theorem decode_blocks_traced_fst (buf : List Byte) (did_len : Nat)
    (blocks : List suns_dp_block_t) :
    ∀ (bo : Nat) (vs : List suns_value_t),
      (decode_blocks_traced buf did_len blocks bo vs).map (fun r => r.1) =
        decode_blocks buf did_len blocks bo vs := by
  induction blocks with
  | nil =>
    intro bo vs
    rfl
  | cons b rest ih =>
    intro bo vs
    simp only [decode_blocks_traced, decode_blocks]
    cases suns_decode_dp_block b (buf.drop (bo + 4))
        (toSizeT ((did_len * 2 : Nat) - (bo : Int))) vs with
    | none => rfl
    | some r =>
      obtain ⟨n, vs1⟩ := r
      simp only
      split
      · rfl
      · rw [← ih (bo + n) vs1]
        cases decode_blocks_traced buf did_len rest (bo + n) vs1 with
        | none => rfl
        | some q => rfl

theorem toSizeT_ne_zero (i : Int) (h1 : -2147483648 ≤ i) (h2 : i ≤ 2147483647)
    (h : i ≠ 0) : toSizeT i ≠ 0 := by
  simp only [toSizeT]
  omega

/-- When no repeating block divides by zero, the cumulative `byte_offset` of
`suns_decode_data` stays within the declared payload after every block, and
the overrun error is not written. -/
theorem decode_blocks_traced_no_overrun (buf : List Byte) (did_len : Nat)
    (hdl : did_len < 65536) (blocks : List suns_dp_block_t)
    (h : ∀ b ∈ blocks, b.repeating = true → toSizeT b.len ≠ 0) :
    ∀ (bo : Nat) (vs : List suns_value_t), bo ≤ did_len * 2 →
      ∃ values offsets, decode_blocks_traced buf did_len blocks bo vs =
          some (values, offsets, false) ∧
        (∀ o ∈ offsets, o ≤ did_len * 2) ∧ offsets.length = blocks.length := by
  induction blocks with
  | nil =>
    intro bo vs _
    exact ⟨vs, [], rfl, by simp, rfl⟩
  | cons b rest ih =>
    intro bo vs hbo
    have havail : toSizeT ((did_len * 2 : Nat) - (bo : Int)) = did_len * 2 - bo := by
      simp only [toSizeT]
      omega
    obtain ⟨r, hr⟩ := decode_dp_block_defined b (buf.drop (bo + 4)) (did_len * 2 - bo) vs
      (h b (List.mem_cons_self _ _))
    obtain ⟨n, vs1⟩ := r
    have hc := suns_decode_dp_block_consumed_le _ _ _ _ _ _ hr
    have hnot : ¬ (bo + n ≥ did_len * 2 + 4) := by omega
    obtain ⟨values, offsets, hrun, hle, hlen⟩ := ih
      (fun c hc2 => h c (List.mem_cons_of_mem _ hc2)) (bo + n) vs1 (by omega)
    refine ⟨values, (bo + n) :: offsets, ?_, ?_, by simp [hlen]⟩
    · simp only [decode_blocks_traced, havail, hr, if_neg hnot, hrun]
    · intro o ho
      rcases List.mem_cons.mp ho with rfl | ho2
      · omega
      · exact hle o ho2

/-- C34. The overrun branch of `suns_decode_data` is unreachable. For every
registry, every buffer whose identifier is registered with a model whose
repeating blocks have a non-zero length (an `int`), the cumulative
`byte_offset` after each block is at most `did_len * 2`, the test
`byte_offset >= did_len * 2 + 4` never holds, the error is not written, and
the Dataset is returned after the last block. -/
theorem C34_overrun_unreachable (did_list : List suns_model_did_t) (buf : List Byte)
    (len : Nat) (did : suns_model_did_t)
    (hfind : suns_find_did did_list (be16toh buf) = some did)
    (hint : ∀ b ∈ did.model.dp_blocks, -2147483648 ≤ b.len ∧ b.len ≤ 2147483647)
    (hrep : ∀ b ∈ did.model.dp_blocks, b.repeating = true → b.len ≠ 0) :
    ∃ values offsets,
      decode_blocks_traced buf (be16toh (buf.drop 2)) did.model.dp_blocks 0 [] =
        some (values, offsets, false) ∧
      (∀ o ∈ offsets, o ≤ be16toh (buf.drop 2) * 2 ∧ ¬ (o ≥ be16toh (buf.drop 2) * 2 + 4)) ∧
      offsets.length = did.model.dp_blocks.length ∧
      suns_decode_data did_list buf len = some (some { did := did, values := values }) := by
  obtain ⟨values, offsets, hrun, hle, hlen⟩ := decode_blocks_traced_no_overrun buf
    (be16toh (buf.drop 2)) (be16toh_lt _) did.model.dp_blocks
    (fun b hb hr => toSizeT_ne_zero b.len (hint b hb).1 (hint b hb).2 (hrep b hb hr))
    0 [] (by omega)
  refine ⟨values, offsets, hrun, ?_, hlen, ?_⟩
  · intro o ho
    have := hle o ho
    exact ⟨this, by omega⟩
  · have he := decode_blocks_traced_fst buf (be16toh (buf.drop 2)) did.model.dp_blocks 0 []
    rw [hrun] at he
    simp only [Option.map_some'] at he
    simp only [suns_decode_data, hfind, suns_dataset_new, ← he]

/-- C34, witness: model 2 of the sample registry (a fixed block and a repeating
block of one register each) with the declared length 3 and a payload of three
registers: the byte offset is 2 after the first block and 6 after the second,
and no error is written. -/
theorem C34_overrun_unreachable_witness :
    ∃ values,
      decode_blocks_traced [0x00, 0x02, 0x00, 0x03, 0x00, 0x01, 0x00, 0x02, 0x00, 0x03] 3
        model_fixed_repeating.dp_blocks 0 [] = some (values, [2, 6], false) ∧
      suns_decode_data sample_registry
        [0x00, 0x02, 0x00, 0x03, 0x00, 0x01, 0x00, 0x02, 0x00, 0x03] 10 =
        some (some { did := { did := 2, model := model_fixed_repeating }, values := values }) := by
  obtain ⟨values, offsets, h1, _, _, h4⟩ := C34_overrun_unreachable sample_registry
    [0x00, 0x02, 0x00, 0x03, 0x00, 0x01, 0x00, 0x02, 0x00, 0x03] 10
    { did := 2, model := model_fixed_repeating } (by decide) (by decide) (by decide)
  have h5 : (decode_blocks_traced [0x00, 0x02, 0x00, 0x03, 0x00, 0x01, 0x00, 0x02, 0x00, 0x03] 3
      model_fixed_repeating.dp_blocks 0 []).map (fun r => r.2) = some ([2, 6], false) := by
    decide
  have h6 : be16toh (([0x00, 0x02, 0x00, 0x03, 0x00, 0x01, 0x00, 0x02, 0x00, 0x03] :
      List Byte).drop 2) = 3 := by decide
  rw [h6] at h1
  rw [h1] at h5
  simp only [Option.map_some', Option.some.injEq, Prod.mk.injEq] at h5
  obtain ⟨ho, _⟩ := h5
  subst ho
  exact ⟨values, h1, h4⟩

/-! ## Offset resolver: a second run -/

theorem dp_advance_nonneg (tp : suns_type_pair_t) : 0 ≤ dp_advance tp := by
  rw [dp_advance_eq_reg_size]
  exact reg_size_nonneg tp

/-- A second pass of the inner loop over the datapoints resolved by a first
pass keeps every datapoint and ends with the same counter. -/
theorem fill_dp_list_again (dps : List suns_dp_t) :
    ∀ (d d0 : Int), -2 ≤ d → (dps ≠ [] ∨ d0 = d) →
      (fill_dp_list 3 (fill_dp_list 3 dps d).1 d0).1 = (fill_dp_list 3 dps d).1 ∧
      (fill_dp_list 3 (fill_dp_list 3 dps d).1 d0).2.1 = (fill_dp_list 3 dps d).2.1 := by
  induction dps with
  | nil =>
    intro d d0 _ h
    rcases h with h | h
    · exact absurd rfl h
    · simp [fill_dp_list, h]
  | cons dp rest ih =>
    intro d d0 hd _
    have hadv := dp_advance_nonneg dp.type_pair
    by_cases hoff : dp.offset > 0
    · obtain ⟨h1, h2⟩ := ih (dp.offset - 3 + dp_advance dp.type_pair)
        (dp.offset - 3 + dp_advance dp.type_pair) (by omega) (Or.inr rfl)
      simp only [fill_dp_list, hoff, if_true, h1, h2, and_self]
    · obtain ⟨h1, h2⟩ := ih (d + dp_advance dp.type_pair) (d + dp_advance dp.type_pair)
        (by omega) (Or.inr rfl)
      have hpos : (3 : Int) + d > 0 := by omega
      have e : (3 : Int) + d - 3 = d := by omega
      simp only [fill_dp_list, hoff, if_false, hpos, if_true, e, h1, h2, and_self]

theorem fill_blocks_again (bs : List suns_dp_block_t) (bl l bl2 l2 : Int) :
    (fill_blocks 3 (fill_blocks 3 bs bl l).1 bl2 l2).1 = (fill_blocks 3 bs bl l).1 := by
  rw [fill_blocks_map, fill_blocks_map, List.map_map]
  apply List.map_congr_left
  intro b _
  obtain ⟨h1, h2⟩ := fill_dp_list_again b.dp_list 0 0 (by omega) (Or.inr rfl)
  simp only [Function.comp_apply, h1, h2]

/-- C33 (amended). A second run of the resolver. For every model, running
`suns_model_fill_offsets` a second time on the already resolved model leaves
every datapoint offset and every block length unchanged, but adds the lengths
of the blocks once more to the totals: `base_len` grows by the lengths of the
non-repeating blocks and `len` by the lengths of all blocks (and is reset to 0
if the sum is below 1). -/
theorem C33_second_resolution (m : suns_model_t) :
    (suns_model_fill_offsets (suns_model_fill_offsets m).1).1.dp_blocks =
      (suns_model_fill_offsets m).1.dp_blocks ∧
    (suns_model_fill_offsets (suns_model_fill_offsets m).1).1.base_len =
      (suns_model_fill_offsets m).1.base_len +
        (((suns_model_fill_offsets m).1.dp_blocks.filter (fun b => !b.repeating)).map
          (fun b => b.len)).sum ∧
    (suns_model_fill_offsets (suns_model_fill_offsets m).1).1.len =
      (if (suns_model_fill_offsets m).1.len +
            ((suns_model_fill_offsets m).1.dp_blocks.map (fun b => b.len)).sum < 1 then 0
       else (suns_model_fill_offsets m).1.len +
            ((suns_model_fill_offsets m).1.dp_blocks.map (fun b => b.len)).sum) := by
  have hb : ∀ bl2 l2 : Int,
      (fill_blocks 3 (suns_model_fill_offsets m).1.dp_blocks bl2 l2).1 =
        (suns_model_fill_offsets m).1.dp_blocks := by
    intro bl2 l2
    exact fill_blocks_again m.dp_blocks m.base_len m.len bl2 l2
  refine ⟨?_, ?_, ?_⟩
  · exact hb _ _
  · have h := fill_blocks_base_len 3 (suns_model_fill_offsets m).1.dp_blocks
      (suns_model_fill_offsets m).1.base_len (suns_model_fill_offsets m).1.len
    rw [hb] at h
    exact h
  · have h := fill_blocks_len 3 (suns_model_fill_offsets m).1.dp_blocks
      (suns_model_fill_offsets m).1.base_len (suns_model_fill_offsets m).1.len
    rw [hb] at h
    show (if (fill_blocks 3 (suns_model_fill_offsets m).1.dp_blocks
        (suns_model_fill_offsets m).1.base_len (suns_model_fill_offsets m).1.len).2.2.1 < 1
        then (3 : Int) - 3
        else (fill_blocks 3 (suns_model_fill_offsets m).1.dp_blocks
          (suns_model_fill_offsets m).1.base_len (suns_model_fill_offsets m).1.len).2.2.1) = _
    rw [h]
    rfl

/-- C33, counterexample. Model 1 of the sample registry is a resolved model
with one Int16 datapoint at offset 3, block length 1, `base_len = 1` and
`len = 1`. A second run of `suns_model_fill_offsets` keeps the offset and the
block length but gives `base_len = 2` and `len = 2`. -/
theorem C33_counterexample :
    model_one_int16.len = 1 ∧ model_one_int16.base_len = 1 ∧
    (suns_model_fill_offsets model_one_int16).1.dp_blocks = model_one_int16.dp_blocks ∧
    (suns_model_fill_offsets model_one_int16).1.len = 2 ∧
    (suns_model_fill_offsets model_one_int16).1.base_len = 2 := by
  decide

/-! ## Decoder and resolver: field positions -/

theorem decode_dp_list_offsets_acc (len : Nat) (dps : List suns_dp_t) :
    ∀ (bo : Nat) (acc : List Nat),
      decode_dp_list_offsets len dps bo acc =
        ((decode_dp_list_offsets len dps bo []).1,
         acc ++ (decode_dp_list_offsets len dps bo []).2.1,
         (decode_dp_list_offsets len dps bo []).2.2) := by
  induction dps with
  | nil =>
    intro bo acc
    simp [decode_dp_list_offsets]
  | cons dp rest ih =>
    intro bo acc
    simp only [decode_dp_list_offsets]
    split
    · rw [ih _ (acc ++ [bo]), ih _ ([] ++ [bo])]
      simp
    · simp

/-- The values of one pass of the inner loop of `suns_decode_dp_block` are
read at the byte offsets that `decode_dp_list_offsets` keeps. -/
theorem decode_dp_list_reads (buf : List Byte) (len : Nat) (dps : List suns_dp_t) :
    ∀ (bo : Nat) (vl : List suns_value_t),
      decode_dp_list buf len dps bo vl =
        ((decode_dp_list_offsets len dps bo []).1,
         vl ++ List.zipWith
           (fun dp o => (suns_buf_to_value_body (buf.drop o) dp.type_pair
             { suns_value_set_null suns_value_new with name := dp.name }).2)
           dps (decode_dp_list_offsets len dps bo []).2.1,
         (decode_dp_list_offsets len dps bo []).2.2) := by
  induction dps with
  | nil =>
    intro bo vl
    simp [decode_dp_list, decode_dp_list_offsets]
  | cons dp rest ih =>
    intro bo vl
    simp only [decode_dp_list_cons, decode_dp_list_offsets]
    split
    · rw [ih, decode_dp_list_offsets_acc len rest _ ([] ++ [bo])]
      simp
    · simp

theorem dp_advance_even (tp : suns_type_pair_t) (h : suns_type_pair_size tp % 2 = 0) :
    2 * dp_advance tp = (suns_type_pair_size tp : Int) := by
  simp only [dp_advance, suns_type_pair_size] at h ⊢
  split
  · rename_i hs
    rw [if_pos hs] at h
    have h2 : ¬ (tp.sub_len % 2 = 1) := by omega
    rw [if_neg h2]
    omega
  · rename_i hs
    rw [if_neg hs] at h
    omega

/-- For datapoints without explicit offset whose byte sizes are even, the
decoder reads each datapoint at twice its resolved register offset relative
to the first data register. -/
theorem decode_offsets_resolved (len : Nat) (dps : List suns_dp_t) :
    ∀ (d : Int) (bo : Nat) (acc : List Nat),
      (∀ dp ∈ dps, no_explicit_offset dp ∧ suns_type_pair_size dp.type_pair % 2 = 0) →
      (bo : Int) = 2 * d → bo + fields_size dps ≤ len →
      decode_dp_list_offsets len (fill_dp_list 3 dps d).1 bo acc =
        (bo + fields_size dps,
         acc ++ (fill_dp_list 3 dps d).1.map (fun dp => (2 * (dp.offset - 3)).toNat),
         false) := by
  induction dps with
  | nil =>
    intro d bo acc _ _ _
    simp [fill_dp_list, decode_dp_list_offsets, fields_size]
  | cons dp rest ih =>
    intro d bo acc h hbo hfit
    obtain ⟨hno, hev⟩ := h dp (List.mem_cons_self _ _)
    have hno2 : ¬ (dp.offset > 0) := hno
    have hadv := dp_advance_even dp.type_pair hev
    have hfs : fields_size (dp :: rest) = suns_type_pair_size dp.type_pair + fields_size rest := by
      simp [fields_size]
    rw [hfs] at hfit ⊢
    have hle : bo + suns_type_pair_size dp.type_pair ≤ len := by omega
    have hih := ih (d + dp_advance dp.type_pair) (bo + suns_type_pair_size dp.type_pair)
      (acc ++ [bo]) (fun x hx => h x (List.mem_cons_of_mem _ hx))
      (by push_cast; omega) (by omega)
    have hpos : (2 * ((3 : Int) + d - 3)).toNat = bo := by omega
    simp only [fill_dp_list, if_neg hno2, decode_dp_list_offsets, if_pos hle, hih, List.map_cons,
      hpos, List.append_assoc, List.singleton_append, Nat.add_assoc]

/-- For a model made of a single non-repeating block whose datapoints carry no
explicit offset and have even byte sizes (fixed-width tags, Strings of even
declared length), with room for all fields, `suns_decode_dp_block` reads each
datapoint of the resolved block from the byte position `2 * (offset - 3)`. -/
theorem decode_positions_agree (dps : List suns_dp_t) (len0 : Int) (len : Nat)
    (h : ∀ dp ∈ dps, no_explicit_offset dp ∧ suns_type_pair_size dp.type_pair % 2 = 0)
    (hfit : fields_size dps ≤ len) :
    ∃ blk, (suns_model_fill_offsets
        { suns_model_new with
          dp_blocks := [{ dp_list := dps, repeating := false, len := len0 }] }).1.dp_blocks =
        [blk] ∧
      suns_decode_dp_block_offsets blk len =
        some (blk.dp_list.map (fun dp => (2 * (dp.offset - 3)).toNat)) := by
  refine ⟨{ dp_list := (fill_dp_list 3 dps 0).1, repeating := false,
            len := (fill_dp_list 3 dps 0).2.1 }, ?_, ?_⟩
  · simp [suns_model_fill_offsets, fill_blocks_map, suns_model_new]
  · have hd := decode_offsets_resolved len dps 0 0 [] h (by simp) (by omega)
    have hr : decode_reps_offsets
        { dp_list := (fill_dp_list 3 dps 0).1, repeating := false,
          len := (fill_dp_list 3 dps 0).2.1 } len (0 + 1) 0 [] =
        (0 + fields_size dps,
         [] ++ (fill_dp_list 3 dps 0).1.map (fun dp => (2 * (dp.offset - 3)).toNat)) := by
      simp only [decode_reps_offsets, hd]
    simp only [Nat.zero_add] at hr
    simp [suns_decode_dp_block_offsets, len_multiple, hr]

/-- C32, at the failing input: the model of one non-repeating block with a
String datapoint "S" of declared length 3 and an Int16 datapoint "A", without
explicit offsets. The resolver gives "A" the offset 5 (the string is rounded up
to two registers), that is the payload byte position 4; the decoder reads "A"
from the byte position 3, right after the three bytes of the string. On the
payload 61 62 63 00 04 D2 it returns the string "abc" for "S" and the value 4
for "A", not 1234. -/
theorem C32_odd_string_positions :
    model_odd_string.dp_blocks.map (fun b => b.dp_list.map (fun dp => dp.offset)) = [[3, 5]] ∧
    model_odd_string.dp_blocks.map
      (fun b => b.dp_list.map (fun dp => (2 * (dp.offset - 3)).toNat)) = [[0, 4]] ∧
    model_odd_string.dp_blocks.map (fun b => suns_decode_dp_block_offsets b 6) =
      [some [0, 3]] ∧
    model_odd_string.dp_blocks.map
      (fun b => (suns_decode_dp_block b [97, 98, 99, 0x00, 0x04, 0xD2] 6 []).map
        (fun r => r.2.map (fun v => v.value.s))) =
      [some [some [97, 98, 99, 0], none]] ∧
    model_odd_string.dp_blocks.map
      (fun b => (suns_decode_dp_block b [97, 98, 99, 0x00, 0x04, 0xD2] 6 []).map
        (fun r => r.2.map (fun v => (v.name, v.value.u16)))) =
      [some [(some "S", 0), (some "A", 4)]] := by
  decide

end Sunspec
